import Mathlib

/-!
# Kibouse: the Elasticsearch-to-ClickHouse query compiler

A shallow embedding of the condition AST and the query-string parser
(`adapter/requests/queries`), the inverted-index planner (`index`), the request
builder (`db`), the aggregation engine with its bucket serialization
(`adapter/requests/aggregations`, `clickhouse`) and the time-range reduction of
`app/handlers`, followed by theorems about them.

Go strings are modelled by `String` (sequences of code points),
`fmt.Sprintf` by concatenation, slices by lists, and a Go map read with its
zero default by a total function.  Values of type int64 and uint64 are integers
and naturals, with `wrapInt64` and `wrapUint64` applied where the source
computes; a nil pointer or interface is `none`; a call that can fail returns
`Except`, with a panic of the run-time system kept apart from a returned error.
The parts of the Go standard library whose exact behaviour is outside the
repository (case mapping of a code point, the `%v` text of a float64,
acceptance by `strconv.ParseFloat`) are collected in the record `GoLib` and
every definition that reaches them takes it as an argument.

The comparison `IsEqual` reads a clause tree only through type assertions, the
children of sections and the text of `String`; it is modelled over `ClauseTree`,
which keeps just that and, unlike `Clause`, has nil sections in a bool query.
The bucket keys of the date histogram are SQL expressions inside format
strings; `preparedKey`, `optimizedKey` and `rawKey` give their integer value.
-/

namespace Kibouse

/-! ## Go standard library -/

/-- Standard-library behaviour taken as given; `F` is the type of float64 values. -/
structure GoLib (F : Type) where
  /-- Go `unicode.ToLower` on one code point. -/
  toLower : Char → Char
  /-- Go `unicode.ToUpper` on one code point. -/
  toUpper : Char → Char
  /-- Text printed by the verb `%v` for a float64. -/
  fmtFloat : F → String
  /-- Whether `strconv.ParseFloat(s, 64)` returns a nil error. -/
  parseFloatOk : String → Bool
  /-- The float64 zero value. -/
  zero : F

/-- An instance of the library record for examples: ASCII case mapping, float64
values that are integers of magnitude below 10^6 (printed by `%v` in plain
decimal), and `ParseFloat` on strings of decimal digits.  It agrees with Go on
ASCII text, on such floats, and on strings that consist of digits only or hold
a character that no float literal has (a blank, a quote). -/
def GoLib.ascii : GoLib Int where
  toLower := Char.toLower
  toUpper := Char.toUpper
  fmtFloat := fun n => toString n
  parseFloatOk := fun s => s.data.all Char.isDigit && s != ""
  zero := 0

namespace strings

/-- Go `strings.Join(elems, sep)`. -/
def Join : List String → String → String
  | [], _ => ""
  | [a], _ => a
  | a :: b :: rest, sep => a ++ sep ++ Join (b :: rest) sep

/-- Go `strings.HasPrefix(s, pre)`. -/
def HasPrefix (s pre : String) : Bool :=
  pre.data.isPrefixOf s.data

/-- Go `strings.TrimPrefix(s, pre)`. -/
def TrimPrefix (s pre : String) : String :=
  if HasPrefix s pre then ⟨s.data.drop pre.data.length⟩ else s

/-- Drops the longest suffix whose code points all satisfy `p`. -/
def trimRight (p : Char → Bool) (l : List Char) : List Char :=
  (l.reverse.dropWhile p).reverse

/-- Go `strings.Trim(s, cutset)`: strips leading and trailing code points of `cutset`. -/
def Trim (s cutset : String) : String :=
  ⟨trimRight (fun c => cutset.data.contains c) (s.data.dropWhile (fun c => cutset.data.contains c))⟩

/-- Go `unicode.IsSpace`. -/
def isSpace (c : Char) : Bool :=
  c == ' ' || c == '\t' || c == '\n' || c == '\x0b' || c == '\x0c' || c == '\r' ||
  c.toNat == 0x85 || c.toNat == 0xA0 || c.toNat == 0x1680 ||
  (0x2000 ≤ c.toNat && c.toNat ≤ 0x200a) ||
  c.toNat == 0x2028 || c.toNat == 0x2029 || c.toNat == 0x202f ||
  c.toNat == 0x205f || c.toNat == 0x3000

/-- Go `strings.TrimSpace(s)`. -/
def TrimSpace (s : String) : String :=
  ⟨trimRight isSpace (s.data.dropWhile isSpace)⟩

/-- Go `strings.ContainsAny(s, chars)`: some code point of `chars` occurs in `s`. -/
def ContainsAny (s chars : String) : Bool :=
  s.data.any (fun c => chars.data.contains c)

/-- Go `strings.Replace(s, old, new, -1)` for one-character `old` and `new`. -/
def ReplaceChar (s : String) (old new : Char) : String :=
  ⟨s.data.map (fun c => if c = old then new else c)⟩

/-- Go `strings.ToLower(s)`: the code points of `s` mapped by `unicode.ToLower`. -/
def ToLower {F : Type} (go : GoLib F) (s : String) : String :=
  ⟨s.data.map go.toLower⟩

/-- Go `strings.ToUpper(s)`: the code points of `s` mapped by `unicode.ToUpper`. -/
def ToUpper {F : Type} (go : GoLib F) (s : String) : String :=
  ⟨s.data.map go.toUpper⟩

end strings

namespace regexp

/-- The class `\w` of Go regular expressions: `[0-9A-Za-z_]`. -/
def isWordChar (c : Char) : Bool :=
  c.isAlphanum || c == '_'

/-- Pieces of a code-point list between maximal runs of non-word characters;
`inRun` tells that the previous code point belonged to such a run. -/
def splitRuns : Bool → List Char → List (List Char)
  | _, [] => [[]]
  | inRun, c :: cs =>
    if isWordChar c then
      match splitRuns false cs with
      | p :: ps => (c :: p) :: ps
      | [] => [[c]]
    else if inRun then splitRuns true cs
    else [] :: splitRuns true cs

/-- Go `regexp.MustCompile(tokenDelimiter).Split(s, -1)` for the delimiter `\W+`. -/
def SplitNonWord (s : String) : List String :=
  (splitRuns false s.data).map String.mk

end regexp

/-! ## Package `data/models` -/

namespace models

/-- Constant `InvertedIndexTablePrefix`. -/
def InvertedIndexTablePrefix : String := "inverted_index_"

/-- ClickHouse representation of a data field. -/
structure CHField where
  CHName : String
  CHType : String
deriving DecidableEq, Repr

/-- Method `CHField.IsArray`. -/
def CHField.IsArray (f : CHField) : Bool :=
  strings.HasPrefix f.CHType "Array"

/-- Method `CHField.GetBaseChType`. -/
def CHField.GetBaseChType (f : CHField) : String :=
  strings.Trim (strings.TrimPrefix f.CHType "Array") "()"

/-- Method `CHField.IsString`. -/
def CHField.IsString (f : CHField) : Bool :=
  f.GetBaseChType == "String"

/-- Method `CHField.IsNumeric`. -/
def CHField.IsNumeric (f : CHField) : Bool :=
  ["UInt8", "UInt16", "UInt32", "UInt64", "Int8", "Int16", "Int32", "Int64",
    "Float32", "Float64", "Decimal"].contains f.GetBaseChType

/-- Text printed by the verb `%s` for a `CHField` struct value: its fields in braces. -/
def CHField.fmtS (f : CHField) : String :=
  "\x7b" ++ f.CHName ++ " " ++ f.CHType ++ "\x7d"

end models

/-! ## Package `db`: the select-request builder -/

namespace db

/-- Constant `DataBaseName`. -/
def DataBaseName : String := "logs"

/-- Sort orders `ASC` and `DESC`. -/
def ASC : String := "ASC"

/-- Sort order `DESC`. -/
def DESC : String := "DESC"

/-- Data for select request generation. -/
structure Request where
  tables : String := ""
  what : String := ""
  «where» : String := ""
  sorting : String := ""
  group : String := ""
  having : String := ""
  limit : String := ""
  final : Bool := false
  isEmpty : Bool := false
deriving DecidableEq, Repr

/-- Function `NewRequest(from, what...)`; `what` holds the variadic arguments. -/
def NewRequest (frm : String) (what : List String) : Request :=
  match what with
  | [] => { tables := frm }
  | w :: _ => { tables := frm, what := w }

/-- Method `Request.Where`. -/
def Request.Where (t : Request) (cond : String) : Request :=
  if cond != "" then { t with «where» := "WHERE " ++ cond } else t

/-- Method `Request.WhereAnd`. -/
def Request.WhereAnd (t : Request) (cond : String) : Request :=
  if cond != "" && t.«where» != "" then
    { t with «where» := t.«where» ++ (" AND (" ++ cond ++ ")") }
  else t.Where cond

/-- Method `Request.OrderBy(field, order...)`; `order` holds the variadic arguments. -/
def Request.OrderBy (t : Request) (field : String) (order : List String) : Request :=
  if field != "" then
    match order with
    | [] => { t with sorting := "ORDER BY " ++ field }
    | o :: _ => { t with sorting := "ORDER BY " ++ field ++ (" " ++ o) }
  else t

/-- Method `Request.GroupBy`. -/
def Request.GroupBy (t : Request) (val : String) : Request :=
  if val != "" then { t with group := "GROUP BY " ++ val } else t

/-- Method `Request.Having`. -/
def Request.Having (t : Request) (cond : String) : Request :=
  if cond != "" then { t with having := "HAVING " ++ cond } else t

/-- Method `Request.Build`. -/
def Request.Build (t : Request) : String :=
  let req := "SELECT " ++ t.what ++ " FROM " ++ t.tables
  let req := if t.final then req ++ " FINAL" else req
  let req := req ++ (" " ++ t.«where»)
  let req := req ++ (" " ++ t.group)
  let req := req ++ (" " ++ t.having)
  let req := req ++ (" " ++ t.sorting)
  req ++ (" " ++ t.limit)

end db

/-! ## Package `index`: tokens and the inverted-index planner -/

namespace index

/-- The set `gateLogsWordsToOmits`: frequent words left out of the index and of searches. -/
def gateLogsWordsToOmits : List String :=
  ["", " ", "data", "php", "src", "logs", "pmx", "Eco", "eco", "vendor"]

/-- Loop state of `GetTokens`: the slice `result` and the map `uniqWords`. -/
structure tokenLoop where
  result : List String
  uniqWords : String → Nat

/-- One iteration of the loop of `GetTokens` over `tokens[i]`. -/
def GetTokens.step (st : tokenLoop) (token : String) : tokenLoop :=
  if gateLogsWordsToOmits.contains token then st
  else
    let uniqWords := Function.update st.uniqWords token (st.uniqWords token + 1)
    if uniqWords token > 1 then { st with uniqWords := uniqWords }
    else { result := st.result ++ [token], uniqWords := uniqWords }

/-- Function `GetTokens`: search units of the analysed text. -/
def GetTokens {F : Type} (go : GoLib F) (text : String) : List String :=
  let tokens := regexp.SplitNonWord (strings.ToLower go text)
  (tokens.foldl GetTokens.step { result := [], uniqWords := fun _ => 0 }).result

/-- Function `generateWhere`. -/
def generateWhere (tokens : List String) (column : String) : String :=
  if tokens.length == 0 then ""
  else
    let hashedTokens := tokens.map (fun t => "cityHash64('" ++ t ++ "')")
    let cond := "word_hash IN (" ++ strings.Join hashedTokens "," ++
      ") AND column_hash = cityHash64('" ++ column ++ "')"
    "(" ++ cond ++ ")"

/-- Function `GetInvertedIndexTableName`. -/
def GetInvertedIndexTableName (dataTable : String) : String :=
  models.InvertedIndexTablePrefix ++ dataTable

/-- Function `createInvertedIndexRequest`; `%d` prints the token count in decimal. -/
def createInvertedIndexRequest (tokens : List String) (column : String)
    (invertedIndexTable : String) : db.Request :=
  let request := db.NewRequest (db.DataBaseName ++ "." ++ invertedIndexTable) ["ts"]
  let request := request.Where (generateWhere tokens column)
  let request := request.GroupBy "ts"
  let request := request.Having ("uniq(word_hash) = " ++ toString tokens.length)
  request.OrderBy "ts" [db.DESC]

/-- Function `createAdditionalFilters`. -/
def createAdditionalFilters (tokens : List String) (column : String) : String :=
  let conds := tokens.map
    (fun t => "(positionCaseInsensitive(" ++ column ++ ", '" ++ t ++ "') != 0)")
  strings.Join conds " AND "

/-- Function `CreateFullTextSearchConditions`. -/
def CreateFullTextSearchConditions {F : Type} (go : GoLib F) (searchedText : String)
    (column : String) (invertedIndexTable : String) : db.Request × String :=
  let tokens := GetTokens go searchedText
  (createInvertedIndexRequest tokens column invertedIndexTable,
    createAdditionalFilters tokens column)

end index

/-! ## Package `adapter/requests/queries`: the condition AST -/

namespace queries

/-- Dynamic values stored in the `interface{}` field of a match clause. -/
inductive Value (F : Type) where
  | str (s : String)
  | int (n : Int)
  | float (f : F)

/-- Text printed by the verb `%v` for a dynamic value. -/
def Value.fmtV {F : Type} (go : GoLib F) : Value F → String
  | .str s => s
  | .int n => toString n
  | .float f => go.fmtFloat f

/-- Representation of the elastic match_phrase clause. -/
structure MatchClause (F : Type) where
  Field : models.CHField
  Value : Value F

/-- Function `NewMatchClause`. -/
def NewMatchClause {F : Type} (fieldInfo : models.CHField) (value : Value F) : MatchClause F :=
  { Field := fieldInfo, Value := value }

/-- Function `NewStringMatch`. -/
def NewStringMatch {F : Type} (field : String) (value : String) : MatchClause F :=
  { Field := { CHName := field, CHType := "String" }, Value := .str value }

/-- Method `MatchClause.String`. -/
def MatchClause.String {F : Type} (go : GoLib F) (mc : MatchClause F) : String :=
  let arrayField := mc.Field.IsArray
  if mc.Field.IsString then
    if arrayField then
      "(has(" ++ mc.Field.fmtS ++ ", '" ++ mc.Value.fmtV go ++ "'))"
    else
      "(" ++ mc.Field.CHName ++ " = '" ++ mc.Value.fmtV go ++ "')"
  else if mc.Field.IsNumeric then
    if arrayField then
      "(has(" ++ mc.Field.CHName ++ ", " ++ mc.Value.fmtV go ++ "))"
    else
      "(" ++ mc.Field.CHName ++ " = " ++ mc.Value.fmtV go ++ ")"
  else ""

/-- One boundary of a range. -/
structure threshold (F : Type) where
  value : F
  strict : Bool

/-- Representation of the elastic range clause. -/
structure RangeClause (F : Type) where
  field : String
  low : threshold F
  high : threshold F
  format : String
  ArrayVal : Bool

/-- Function `NewRange`. -/
def NewRange {F : Type} (go : GoLib F) (name : String) (isArrayVal : Bool) : RangeClause F :=
  { field := name
    low := { value := go.zero, strict := false }
    high := { value := go.zero, strict := false }
    format := ""
    ArrayVal := isArrayVal }

/-- Method `RangeClause.AddLower`. -/
def RangeClause.AddLower {F : Type} (rc : RangeClause F) (value : F) (strict : Bool) :
    RangeClause F :=
  { rc with low := { value := value, strict := strict } }

/-- Method `RangeClause.AddUpper`. -/
def RangeClause.AddUpper {F : Type} (rc : RangeClause F) (value : F) (strict : Bool) :
    RangeClause F :=
  { rc with high := { value := value, strict := strict } }

/-- Method `RangeClause.buildLow`. -/
def RangeClause.buildLow {F : Type} (go : GoLib F) (rc : RangeClause F) : String :=
  if rc.low.strict then go.fmtFloat rc.low.value ++ " < " ++ rc.field
  else go.fmtFloat rc.low.value ++ " <= " ++ rc.field

/-- Method `RangeClause.buildHigh`. -/
def RangeClause.buildHigh {F : Type} (go : GoLib F) (rc : RangeClause F) : String :=
  if rc.high.strict then rc.field ++ " < " ++ go.fmtFloat rc.high.value
  else rc.field ++ " <= " ++ go.fmtFloat rc.high.value

/-- Method `RangeClause.String`. -/
def RangeClause.String {F : Type} (go : GoLib F) (rc : RangeClause F) : String :=
  if !rc.ArrayVal && rc.field != "" then
    "(" ++ rc.buildLow go ++ " AND " ++ rc.buildHigh go ++ ")"
  else ""

/-- Method `TermsClause.String`; `terms` lists the entries of the map in the
order in which the rendering loop visits them. -/
def TermsClause.String (terms : List (String × List String)) : String :=
  let conds := terms.map (fun entry =>
    let termConds := entry.2.map (fun v => "(" ++ entry.1 ++ " = '" ++ v ++ "')")
    "(" ++ strings.Join termConds " OR " ++ ")")
  strings.Join conds " AND "

/-- Item of a parsed query string: logical operator, field, raw text and, for an
indexed column, the index table and the timestamp column. -/
structure fieldMatch where
  logicalOp : String := ""
  field : models.CHField := { CHName := "", CHType := "" }
  expr : String := ""
  indexTable : String := ""
  tsColumn : String := ""
deriving DecidableEq, Repr

/-- Method `fieldMatch.toString`. -/
def fieldMatch.toString {F : Type} (go : GoLib F) (fm : fieldMatch) (wildCards : Bool)
    (r : RangeClause F) : String :=
  let matched := strings.Trim fm.expr "\""
  if fm.indexTable != "" && fm.tsColumn != "" then
    let conds := index.CreateFullTextSearchConditions go fm.expr fm.field.CHName fm.indexTable
    let invIndexRequest := conds.1.WhereAnd (r.String go)
    fm.logicalOp ++ " (" ++ fm.tsColumn ++ " IN (" ++ invIndexRequest.Build ++ ") AND " ++
      conds.2 ++ ")"
  else if go.parseFloatOk fm.expr && fm.field.IsNumeric then
    fm.logicalOp ++ " (" ++ fm.field.CHName ++ " = " ++ matched ++ ")"
  else if wildCards && strings.ContainsAny matched "? & *" then
    let matched := strings.ReplaceChar matched '*' '%'
    let matched := strings.ReplaceChar matched '?' '_'
    let matched := "%" ++ matched ++ "%"
    fm.logicalOp ++ " like(" ++ fm.field.CHName ++ ", '" ++ matched ++ "')"
  else
    fm.logicalOp ++ " (position(" ++ fm.field.CHName ++ ", '" ++ matched ++ "') != 0)"

/-- Implementations of the interface `queryItem`. -/
inductive queryItem where
  | simpleItem (content : String)
  | fieldMatch (fm : fieldMatch)
deriving DecidableEq, Repr

/-- Method `toString` of a `queryItem`. -/
def queryItem.toString {F : Type} (go : GoLib F) (item : queryItem) (wildCards : Bool)
    (r : RangeClause F) : String :=
  match item with
  | .simpleItem content => content
  | .fieldMatch fm => fm.toString go wildCards r

/-- Representation of the elastic query_string clause. -/
structure MatchQueryClause (F : Type) where
  analyzeWildCard : Bool
  timeRange : RangeClause F
  items : List queryItem

/-- Method `MatchQueryClause.String`. -/
def MatchQueryClause.String {F : Type} (go : GoLib F) (uc : MatchQueryClause F) : String :=
  uc.items.foldl (fun query item => query ++ item.toString go uc.analyzeWildCard uc.timeRange) ""

/-- The types that embed `composite` and so implement the interface `Section`. -/
inductive SectionKind where
  | composite
  | sortSection
  | mustSection
  | mustNotSection
  | shouldSection
  | filterSection
  | emptySection
deriving DecidableEq, Repr

mutual
/-- Implementations of the interface `Clause`. -/
inductive Clause (F : Type) where
  | ofSection (s : Section F)
  | sortClause (Field : String) (Sorting : String)
  | boolSection (Must : Section F) (MustNot : Section F) (Should : Section F)
      (Filter : Section F)
  | matchClause (mc : MatchClause F)
  | rangeClause (rc : RangeClause F)
  | existsClause (Field : String)
  | unknownClause
  | termsClause (terms : List (String × List String))
  | matchQueryClause (uc : MatchQueryClause F)
/-- A section: one of the types embedding `composite`, with its children. -/
inductive Section (F : Type) where
  | mk (kind : SectionKind) (children : List (Clause F))
end

/-- Method `composite.Children`. -/
def Section.Children {F : Type} : Section F → List (Clause F)
  | .mk _ children => children

/-- The concrete type of a section. -/
def Section.kind {F : Type} : Section F → SectionKind
  | .mk kind _ => kind

/-- Method `composite.AppendChild`; `none` stands for nil.  The first component is
the receiver after the call, the second the returned `Section`, which is the
embedded `composite` itself. -/
def Section.AppendChild {F : Type} (s : Section F) (child : Option (Clause F)) :
    Section F × Option (Section F) :=
  match child with
  | none => (s, none)
  | some c => (.mk s.kind (s.Children ++ [c]), some (.mk .composite (s.Children ++ [c])))

/-- Method `composite.buildChildQueriesStr`, applied to the fragments collected by
`buildChildQueries`; `format` is the `Sprintf` of the format string. -/
def buildChildQueriesStr (childQueries : List String) (glue : String)
    (format : String → String) : String :=
  let queries := strings.Join childQueries glue
  if queries != "" then format queries else ""

/-- The `String` methods of the section types, on the fragments of their children. -/
def SectionKind.render (kind : SectionKind) (childQueries : List String) : String :=
  match kind with
  | .composite => ""
  | .sortSection => buildChildQueriesStr childQueries "," (fun s => s)
  | .mustSection => buildChildQueriesStr childQueries " AND " (fun s => "(" ++ s ++ ")")
  | .mustNotSection =>
    buildChildQueriesStr childQueries " AND NOT" (fun s => "( NOT " ++ s ++ ")")
  | .shouldSection => buildChildQueriesStr childQueries " OR " (fun s => "(" ++ s ++ ")")
  | .filterSection => buildChildQueriesStr childQueries " AND " (fun s => "(" ++ s ++ ")")
  | .emptySection => ""

/-- Method `BoolSection.String`, on the fragments of its four sections. -/
def BoolSection.render (must mustNot should filter : String) : String :=
  let query : List String := []
  let query := if must != "" then query ++ [must] else query
  let query := if mustNot != "" then query ++ [mustNot] else query
  let query := if filter != "" then query ++ [filter] else query
  let query := if query.length == 0 then query ++ [should] else query
  strings.Join query " AND "

mutual
/-- Method `String` of each implementation of `Clause`. -/
def Clause.String {F : Type} (go : GoLib F) : Clause F → String
  | .ofSection s => Section.String go s
  | .sortClause field sorting => field ++ " " ++ strings.ToUpper go sorting
  | .boolSection must mustNot should filter =>
    BoolSection.render (Section.String go must) (Section.String go mustNot)
      (Section.String go should) (Section.String go filter)
  | .matchClause mc => mc.String go
  | .rangeClause rc => rc.String go
  | .existsClause field => "(isNotNull(" ++ field ++ "))"
  | .unknownClause => ""
  | .termsClause terms => TermsClause.String terms
  | .matchQueryClause uc => uc.String go
/-- Method `String` of each section type. -/
def Section.String {F : Type} (go : GoLib F) : Section F → String
  | .mk kind children => kind.render (buildChildQueries go children)
/-- Method `composite.buildChildQueries`: the non-empty fragments of the children. -/
def buildChildQueries {F : Type} (go : GoLib F) : List (Clause F) → List String
  | [] => []
  | val :: rest =>
    if Clause.String go val != "" then Clause.String go val :: buildChildQueries go rest
    else buildChildQueries go rest
end

end queries

/-! ## Machine integers and further library functions -/

/-- The value of an int64 computation whose exact result is `n`: Go wraps around. -/
def wrapInt64 (n : Int) : Int :=
  (n + 2 ^ 63) % 2 ^ 64 - 2 ^ 63

/-- The value of a uint64 computation whose exact result is `n`. -/
def wrapUint64 (n : Nat) : Nat :=
  n % 2 ^ 64

/-- Error values: `errors.New(msg)` and the `*strconv.NumError` of a failed conversion. -/
inductive GoError where
  | errorsNew (msg : String)
  | numError (func : String) (num : String) (reason : String)
deriving DecidableEq, Repr

/-- Ways in which a call does not return a result: it returns an error, or the
run-time system stops it with a panic. -/
inductive Failure where
  | error (e : GoError)
  | panic (reason : String)
deriving DecidableEq, Repr

namespace strings

/-- Go `strings.HasSuffix(s, suffix)`. -/
def HasSuffix (s suffix : String) : Bool :=
  suffix.data.isSuffixOf s.data

/-- Go `strings.TrimSuffix(s, suffix)`. -/
def TrimSuffix (s suffix : String) : String :=
  if HasSuffix s suffix then ⟨s.data.take (s.data.length - suffix.data.length)⟩ else s

/-- Go `strings.Contains(s, substr)` for a one-character `substr`. -/
def ContainsChar (s : String) (c : Char) : Bool :=
  s.data.contains c

/-- Go `strings.Replace(s, old, new, -1)` for a one-character `old`. -/
def ReplaceCharWith (s : String) (old : Char) (new : String) : String :=
  ⟨s.data.flatMap (fun c => if c = old then new.data else [c])⟩

/-- Replaces the first occurrence of `old` in a list of code points. -/
def replaceFirst (old : Char) (new : List Char) : List Char → List Char
  | [] => []
  | c :: cs => if c = old then new ++ cs else c :: replaceFirst old new cs

/-- Go `strings.Replace(s, old, new, 1)` for a one-character `old`. -/
def ReplaceFirstCharWith (s : String) (old : Char) (new : String) : String :=
  ⟨replaceFirst old new.data s.data⟩

end strings

namespace strconv

/-- Value of a list of decimal digits. -/
def digitsValue (ds : List Char) : Nat :=
  ds.foldl (fun acc d => 10 * acc + (d.toNat - '0'.toNat)) 0

/-- Go `strconv.Atoi(s)` with a 64-bit `int`: an optional sign and one or more
decimal digits, the value within the range of int64. -/
def Atoi (s : String) : Except GoError Int :=
  let body := match s.data with
    | '+' :: ds => ds
    | '-' :: ds => ds
    | ds => ds
  let negative := match s.data with
    | '-' :: _ => true
    | _ => false
  if body.isEmpty || !body.all Char.isDigit then
    .error (.numError "Atoi" s "invalid syntax")
  else
    let value : Int := if negative then -(digitsValue body : Int) else (digitsValue body : Int)
    if value < -(2 ^ 63) || 2 ^ 63 - 1 < value then
      .error (.numError "Atoi" s "value out of range")
    else .ok value

end strconv

/-! ## Package `data/models`: table descriptions -/

namespace models

/-- Constant `timeStampType`. -/
def timeStampType : String := "Timestamp"

/-- Constant `PreparedHistogramDataTablePrefix`. -/
def PreparedHistogramDataTablePrefix : String := "histogram_"

/-- Storing and representation of a single property of a log record. -/
structure FieldProps extends CHField where
  SourceCodeName : String := ""
  KibanaName : String := ""
  IsUUID : Bool := false
  FullTextSearch : Bool := false
deriving DecidableEq, Repr

/-- Logs storage information.  The map `DataFields` is the list of its entries
(key, value), keys distinct; a `range` over the map visits them in list order. -/
structure ModelInfo where
  DBName : String
  DataFields : List (String × FieldProps)
deriving DecidableEq, Repr

/-- The map read `DataFields[name]` with its presence flag. -/
def ModelInfo.lookup (mi : ModelInfo) (name : String) : Option FieldProps :=
  (mi.DataFields.find? (fun entry => entry.1 == name)).map (fun entry => entry.2)

/-- Method `ModelInfo.GetTimestampField`; `none` is the result `nil, false`. -/
def ModelInfo.GetTimestampField (mi : ModelInfo) : Option FieldProps :=
  (mi.DataFields.find? (fun entry => entry.2.CHType == timeStampType)).map
    (fun entry => entry.2)

end models

/-! ## Package `adapter/requests/queries`: the query-string parser -/

namespace queries

/-- Loop state of `splitQuery`: the parts so far, the text `query[rest:i]` not yet
emitted, and the flag `quoted`. -/
structure splitState where
  parts : List String
  pending : List Char
  quoted : Bool

/-- One iteration of the loop of `splitQuery` over the character `query[i]`. -/
def splitQuery.step (st : splitState) (c : Char) : splitState :=
  let quoted := if c = '"' then !st.quoted else st.quoted
  if quoted then { st with pending := st.pending ++ [c], quoted := quoted }
  else if c = ' ' || c = '(' || c = ')' || c = ':' then
    let parts := if st.pending ≠ [] then st.parts ++ [String.mk st.pending] else st.parts
    let parts := if c ≠ ' ' then parts ++ [String.mk [c]] else parts
    { parts := parts, pending := [], quoted := quoted }
  else { st with pending := st.pending ++ [c], quoted := quoted }

/-- Function `splitQuery`. -/
def splitQuery (query : String) : List String :=
  let query := strings.TrimSpace query
  if !strings.ContainsChar query ':' then [query]
  else
    let st := query.data.foldl splitQuery.step { parts := [], pending := [], quoted := false }
    if st.pending ≠ [] then st.parts ++ [String.mk st.pending] else st.parts

/-- Function `getBraceKind`: 1 for an opening brace, -1 for a closing one, else 0. -/
def getBraceKind (s : String) : Int :=
  if s = "(" then 1 else if s = ")" then -1 else 0

/-- Function `isLogicalOp`. -/
def isLogicalOp {F : Type} (go : GoLib F) (s : String) : Bool :=
  let s := strings.ToLower go s
  s = "and" || s = "or" || s = "xor" || s = "not"

/-- Loop state of `createAllIndexedColsSearchQuery`. -/
structure indexedColsLoop where
  items : List queryItem
  logicalOp : String

/-- Function `createAllIndexedColsSearchQuery`. -/
def createAllIndexedColsSearchQuery (tableInfo : models.ModelInfo) (expr : String)
    (op : String) : List queryItem :=
  let ts := tableInfo.GetTimestampField
  (tableInfo.DataFields.foldl
    (fun (st : indexedColsLoop) entry =>
      match ts with
      | some tsColumn =>
        if entry.2.FullTextSearch then
          { items := st.items ++ [queryItem.fieldMatch
              { field := entry.2.toCHField
                expr := expr
                logicalOp := st.logicalOp
                indexTable := index.GetInvertedIndexTableName tableInfo.DBName
                tsColumn := tsColumn.CHName }]
            logicalOp := "OR" }
        else st
      | none => st)
    { items := [], logicalOp := op }).items

/-- Function `parseShortNotation`; it is called with exactly one part. -/
def parseShortNotation (parts : List String) (tableInfo : models.ModelInfo) :
    List queryItem :=
  let value := strings.Trim (parts.headD "") "\""
  if value = "*" then [queryItem.simpleItem ""]
  else createAllIndexedColsSearchQuery tableInfo value ""

/-- Loop state of `parseWideNotation`. -/
structure wideState where
  items : List queryItem
  prev : String
  currField : String
  openedBraces : Int
  currLogicalOp : String
deriving DecidableEq, Repr

/-- Whether the loop of `parseWideNotation` takes the branch that treats `part` as
a match value. -/
def wideState.atMatchValue {F : Type} (go : GoLib F) (st : wideState) (part : String) : Bool :=
  getBraceKind part = 0 && !isLogicalOp go part && part ≠ ":" &&
    (st.prev = ":" || (st.currField ≠ "" && st.openedBraces > 0))

/-- One iteration of the loop of `parseWideNotation`; `none` is `return nil`. -/
def parseWideNotation.step {F : Type} (go : GoLib F) (tableInfo : models.ModelInfo)
    (st : wideState) (part : String) : Option wideState :=
  if getBraceKind part ≠ 0 then
    let openedBraces :=
      if st.openedBraces > 0 || st.prev = ":" then st.openedBraces + getBraceKind part
      else st.openedBraces
    let items :=
      if st.currLogicalOp ≠ "" then st.items ++ [queryItem.simpleItem st.currLogicalOp]
      else st.items
    some { st with
      items := items ++ [queryItem.simpleItem part]
      openedBraces := openedBraces
      currLogicalOp := if st.currLogicalOp ≠ "" then "" else st.currLogicalOp
      prev := part }
  else if isLogicalOp go part then
    some { st with currLogicalOp := st.currLogicalOp ++ (" " ++ part), prev := part }
  else if part = ":" then
    some { st with currField := st.prev, prev := part }
  else if st.prev = ":" || (st.currField ≠ "" && st.openedBraces > 0) then
    match tableInfo.lookup st.currField with
    | none => none
    | some props =>
      let indexed := props.FullTextSearch && tableInfo.GetTimestampField.isSome
      let currMatch : fieldMatch :=
        { field := { CHName := st.currField, CHType := props.CHType }
          expr := part
          logicalOp := st.currLogicalOp
          indexTable :=
            if indexed then index.GetInvertedIndexTableName tableInfo.DBName else ""
          tsColumn :=
            if indexed then
              (match tableInfo.GetTimestampField with
                | some tsField => tsField.CHName
                | none => "")
            else "" }
      some { st with
        items := st.items ++ [queryItem.fieldMatch currMatch]
        currLogicalOp := ""
        currField := if st.openedBraces = 0 then "" else st.currField
        prev := part }
  else some { st with prev := part }

/-- The variables of `parseWideNotation` before its loop. -/
def wideState.initial : wideState :=
  { items := [], prev := "", currField := "", openedBraces := 0, currLogicalOp := "" }

/-- Function `parseWideNotation`; `none` is the nil slice. -/
def parseWideNotation {F : Type} (go : GoLib F) (parts : List String)
    (tableInfo : models.ModelInfo) : Option (List queryItem) :=
  (parts.foldlM (parseWideNotation.step go tableInfo) wideState.initial).map
    (fun st => st.items)

/-- Function `parseMatchQuery` for a table description that is not nil. -/
def parseMatchQuery {F : Type} (go : GoLib F) (query : String)
    (tableInfo : models.ModelInfo) : Option (List queryItem) :=
  let parts := splitQuery query
  if parts.length = 1 then some (parseShortNotation parts tableInfo)
  else parseWideNotation go parts tableInfo

/-- Function `NewMatchQueryClause`; `none` is the nil clause. -/
def NewMatchQueryClause {F : Type} (go : GoLib F) (query : String) (analyzeWildCards : Bool)
    (tableInfo : models.ModelInfo) : Option (MatchQueryClause F) :=
  match parseMatchQuery go query tableInfo with
  | none => none
  | some items =>
    some { items := items, analyzeWildCard := analyzeWildCards, timeRange := NewRange go "" false }

/-- Function `GetSimpleClausesList`; `none` is the nil clause. -/
def GetSimpleClausesList {F : Type} (cond : Option (Clause F)) : List (Option (Clause F)) :=
  match cond with
  | some (.boolSection must mustNot should filter) =>
    (must.Children ++ mustNot.Children ++ filter.Children ++ should.Children).map some
  | some (.ofSection s) => s.Children.map some
  | other => [other]

end queries

/-! ## Package `adapter/requests`: the request parser -/

namespace requests

/-- The clause that `parseQueryString` returns for a config object whose entry
`query` is the string `q` and whose flag `analyze_wildcard` is `analyzeWildCard`:
the parsed clause, or an UnknownClause when `NewMatchQueryClause` returns nil. -/
def parseQueryString {F : Type} (go : GoLib F) (tableInfo : models.ModelInfo) (q : String)
    (analyzeWildCard : Bool) : queries.Clause F :=
  match queries.NewMatchQueryClause go q analyzeWildCard tableInfo with
  | some matchQuery => .matchQueryClause matchQuery
  | none => .unknownClause

end requests

/-! ## Packages `db` and `clickhouse`: request templates and aggregation functions -/

namespace db

/-- Method `Request.What`. -/
def Request.What (t : Request) (requiredData : String) : Request :=
  if requiredData != "" then { t with what := requiredData } else t

/-- Method `Request.AppendToWhat`. -/
def Request.AppendToWhat (t : Request) (requiredData : String) : Request :=
  if t.what != "" && requiredData != "" then { t with what := t.what ++ (", " ++ requiredData) }
  else t.What requiredData

end db

namespace clickhouse

/-- Implementations of the interface `AggregationFunc`. -/
inductive AggregationFunc where
  | countAggregation (cond : String)
  | sumAggregation (column : String) (cond : String)
deriving DecidableEq, Repr

/-- Method `String` of the aggregation functions. -/
def AggregationFunc.String : AggregationFunc → String
  | .countAggregation cond => if cond != "" then "countIf(" ++ cond ++ ")" else "count()"
  | .sumAggregation column cond =>
    if cond != "" then "sumIf(" ++ column ++ ", " ++ cond ++ ")" else "sum(" ++ column ++ ")"

/-- Function `NewCountAggregation`. -/
def NewCountAggregation (condition : String) : AggregationFunc :=
  if condition = "" then .countAggregation "" else .countAggregation condition

/-- Function `NewSumAggregation`; `none` is the nil result for an empty column. -/
def NewSumAggregation (column : String) (condition : String) : Option AggregationFunc :=
  if column = "" then none else some (.sumAggregation column condition)

/-- Function `NewRequestTpl`. -/
def NewRequestTpl (index : String) : db.Request :=
  db.NewRequest
    ("merge(" ++ db.DataBaseName ++ ", '^" ++ strings.ReplaceFirstCharWith index '*' ".*" ++ "')")
    ["*, _table"]

end clickhouse

/-! ## Package `adapter/requests/aggregations` -/

namespace aggregations

/-- Duration constants of package `time`, in nanoseconds. -/
def Millisecond : Int := 1000000

/-- Constant `time.Second`. -/
def Second : Int := 1000 * Millisecond

/-- Constant `time.Minute`. -/
def Minute : Int := 60 * Second

/-- Constant `time.Hour`. -/
def Hour : Int := 60 * Minute

/-- Constant `day`. -/
def day : Int := Hour * 24

/-- Constant `week`. -/
def week : Int := day * 7

/-- Constant `preparedDataPeriod`. -/
def preparedDataPeriod : Int := Minute * 5

/-- Constant `DataHistogramAggType`. -/
def DataHistogramAggType : String := "DateHistogram"

/-- Constant `FiltersAggType`. -/
def FiltersAggType : String := "Filters"

/-- An instant of type `time.Time`, given by its nanoseconds since the epoch. -/
structure Time where
  unixNano : Int
deriving DecidableEq, Repr

/-- Function `time.Unix(0, nsec)`. -/
def Unix (nsec : Int) : Time :=
  { unixNano := nsec }

/-- The functions stored in the field `stringer` of a `bucketsStringer`. -/
inductive stringerKind where
  | bucketsToObjJSON
  | bucketsToArrayJSON
deriving DecidableEq, Repr

mutual
/-- Implementations of the interface `Bucket`: the embedded `bucket` with its
fields `subAggData` (`none` is nil), `key` and `docCount`. -/
inductive Bucket where
  | column (subAggData : Option BucketAggregationData) (key : Time) (docCount : Nat)
  | filterBucket (subAggData : Option BucketAggregationData) (key : String) (docCount : Nat)
/-- A slice of buckets (`none` is nil) with the function that renders it. -/
inductive bucketsStringer where
  | mk (Buckets : Option (List Bucket)) (stringer : Option stringerKind)
/-- Aggregated bucketing data. -/
inductive BucketAggregationData where
  | mk (AggName : String) (Buckets : bucketsStringer)
end

/-- Field `Buckets` of a `bucketsStringer`. -/
def bucketsStringer.Buckets : bucketsStringer → Option (List Bucket)
  | .mk buckets _ => buckets

/-- Field `AggName`. -/
def BucketAggregationData.AggName : BucketAggregationData → String
  | .mk name _ => name

/-- Field `Buckets` of `BucketAggregationData`. -/
def BucketAggregationData.Buckets : BucketAggregationData → bucketsStringer
  | .mk _ buckets => buckets

/-- The zero value of `BucketAggregationData`. -/
def BucketAggregationData.zero : BucketAggregationData :=
  .mk "" (.mk none none)

/-- Values returned by `Key()`. -/
inductive KeyValue where
  | time (t : Time)
  | str (s : String)
deriving DecidableEq, Repr

/-- Method `bucket.Key`. -/
def Bucket.Key : Bucket → KeyValue
  | .column _ key _ => .time key
  | .filterBucket _ key _ => .str key

/-- Method `bucket.DocCount`. -/
def Bucket.DocCount : Bucket → Nat
  | .column _ _ docCount => docCount
  | .filterBucket _ _ docCount => docCount

/-- Method `bucket.SetDocCount`. -/
def Bucket.SetDocCount (b : Bucket) (cnt : Nat) : Bucket :=
  match b with
  | .column subAggData key _ => .column subAggData key cnt
  | .filterBucket subAggData key _ => .filterBucket subAggData key cnt

/-- Field `subAggData` of the embedded `bucket`. -/
def Bucket.subAggData : Bucket → Option BucketAggregationData
  | .column subAggData _ _ => subAggData
  | .filterBucket subAggData _ _ => subAggData

/-- Method `bucket.String`, given the text `subAgg` of `buildSubAggStr`. -/
def bucketString (subAgg : String) (docCount : Nat) : String :=
  let subAgg := if subAgg != "" then subAgg ++ "," else subAgg
  subAgg ++ " \"doc_count\":" ++ toString docCount

mutual
/-- Methods `column.String` and `filterBucket.String`; `fmtTime` is the text of
`Format(time.UnixDate)` for an instant. -/
def Bucket.String (fmtTime : Time → String) : Bucket → String
  | .column subAggData key docCount =>
    "\x7b" ++ bucketString (buildSubAggStr fmtTime subAggData) docCount ++
      ", \"key_as_string\":\"" ++ fmtTime key ++ "\",\"key\":" ++
      toString (Int.tdiv key.unixNano Millisecond) ++ "\x7d"
  | .filterBucket subAggData key docCount =>
    "\"" ++ strings.ReplaceCharWith key '"' "\\\"" ++ "\":\x7b" ++
      bucketString (buildSubAggStr fmtTime subAggData) docCount ++ "\x7d"
/-- Method `bucket.buildSubAggStr`. -/
def buildSubAggStr (fmtTime : Time → String) : Option BucketAggregationData → String
  | none => ""
  | some subAggData => BucketAggregationData.String fmtTime subAggData
/-- Method `BucketAggregationData.String`. -/
def BucketAggregationData.String (fmtTime : Time → String) : BucketAggregationData → String
  | .mk AggName Buckets =>
    if AggName = "" then ""
    else "\"" ++ AggName ++ "\":\x7b\"buckets\":" ++ bucketsStringer.String fmtTime Buckets ++
      "\x7d"
/-- Method `bucketsStringer.String`, with `bucketsToObjJSON` and `bucketsToArrayJSON`. -/
def bucketsStringer.String (fmtTime : Time → String) : bucketsStringer → String
  | .mk none _ => ""
  | .mk (some _) none => ""
  | .mk (some buckets) (some .bucketsToObjJSON) =>
    "\x7b" ++ strings.Join (bucketsToStrings fmtTime buckets) "," ++ "\x7d"
  | .mk (some buckets) (some .bucketsToArrayJSON) =>
    "[" ++ strings.Join (bucketsToStrings fmtTime buckets) "," ++ "]"
/-- Function `bucketsToStrings`. -/
def bucketsToStrings (fmtTime : Time → String) : List Bucket → List String
  | [] => []
  | b :: rest => Bucket.String fmtTime b :: bucketsToStrings fmtTime rest
end

/-- A row of the aggregation result: `histogramCounts`. -/
structure histogramCounts where
  Vals : List Nat
  Key : Int
deriving DecidableEq, Repr

/-- The data provider `db.DataProvider` as far as aggregation uses it: the table
name and the rows, or the error, that the data selector of a request loads. -/
structure DataProvider where
  DataTable : String
  selectRows : db.Request → Except GoError (List histogramCounts)

/-- Name and filter condition of one entry of the aggregation `Filters`. -/
structure FilterSettings (F : Type) where
  Condition : Option (queries.Clause F)
  Name : String

/-- The aggregation `Filters`, with the fields of the embedded `baseAggregation`. -/
structure Filters (F : Type) where
  name : String := ""
  commonFilter : Option (queries.Clause F) := none
  filters : List (FilterSettings F)

/-- The aggregation `DateHistogram`, with the fields of the embedded `baseAggregation`. -/
structure DateHistogram (F : Type) where
  name : String := ""
  commonFilter : Option (queries.Clause F) := none
  filters : Option (Filters F) := none
  interval : Int
  fieldName : String
  timeOptimization : Bool

/-- Implementations of the interface `Aggregation`. -/
inductive Aggregation (F : Type) where
  | dateHistogram (hs : DateHistogram F)
  | filters (f : Filters F)

/-- Method `aggType`. -/
def Aggregation.aggType {F : Type} : Aggregation F → String
  | .dateHistogram _ => DataHistogramAggType
  | .filters _ => FiltersAggType

/-- Function `CreateFiltersAgg`. -/
def CreateFiltersAgg {F : Type} (settings : List (FilterSettings F)) : Filters F :=
  { filters := settings }

/-- Method `aggFuncs.build`. -/
def aggFuncs.build (af : List clickhouse.AggregationFunc) : String :=
  if af.length = 0 then ""
  else "[ " ++ strings.Join (af.map clickhouse.AggregationFunc.String) "," ++ " ] as results"

/-- Method `Filters.createAggFuncs`. -/
def Filters.createAggFuncs {F : Type} (go : GoLib F) (f : Filters F) :
    List clickhouse.AggregationFunc :=
  f.filters.map (fun entry =>
    let cond := match entry.Condition with
      | some condition => queries.Clause.String go condition
      | none => ""
    clickhouse.NewCountAggregation cond)

/-- Method `Filters.createBuckets`. -/
def Filters.createBuckets {F : Type} (f : Filters F) : BucketAggregationData :=
  .mk f.name
    (.mk (some (f.filters.map (fun entry => Bucket.filterBucket none entry.Name 0)))
      (some .bucketsToObjJSON))

/-- Method `Filters.SetSubAgg`: the receiver after the call and the returned error. -/
def Filters.SetSubAgg {F : Type} (f : Filters F) (agg : Option (Aggregation F)) :
    Filters F × Option GoError :=
  match agg with
  | none => (f, none)
  | some a => (f, some (.errorsNew ("unsupported sub aggregation type: " ++ a.aggType)))

/-- Method `Filters.Aggregate`: it returns `nil, nil`. -/
def Filters.Aggregate {F : Type} (_f : Filters F) (_conn : DataProvider) :
    Except Failure (Option BucketAggregationData) :=
  .ok none

/-- Method `DateHistogram.optimizationRequired`. -/
def DateHistogram.optimizationRequired {F : Type} (hs : DateHistogram F) : Bool :=
  hs.timeOptimization && decide (hs.interval ≥ preparedDataPeriod)

/-- Method `DateHistogram.SetSubAgg`: the receiver after the call and the returned error. -/
def DateHistogram.SetSubAgg {F : Type} (hs : DateHistogram F) (agg : Option (Aggregation F)) :
    DateHistogram F × Option GoError :=
  match agg with
  | none => (hs, none)
  | some (.filters a) => ({ hs with filters := some a }, none)
  | some a => (hs, some (.errorsNew ("unsupported sub aggregation type: " ++ a.aggType)))

/-- Method `DateHistogram.createAggFuncs`. -/
def DateHistogram.createAggFuncs {F : Type} (go : GoLib F) (hs : DateHistogram F) :
    List clickhouse.AggregationFunc :=
  match hs.filters with
  | some filters => filters.createAggFuncs go ++ [clickhouse.NewCountAggregation ""]
  | none => [clickhouse.NewCountAggregation ""]

/-- The loop `for j := range buckets` of `DateHistogram.Aggregate` that assigns
`counts[j]` to bucket `j`; reading past the end of `counts` is a panic. -/
def setDocCounts : List Bucket → List Nat → Except Failure (List Bucket)
  | [], _ => .ok []
  | _ :: _, [] => .error (.panic "index out of range")
  | b :: rest, c :: counts =>
    match setDocCounts rest counts with
    | .ok done => .ok (b.SetDocCount c :: done)
    | .error e => .error e

/-- The body of the loop of `DateHistogram.Aggregate` for one fetched row: the
bucket appended to the histogram, or `none` when the row is skipped. -/
def DateHistogram.materializeRow {F : Type} (hs : DateHistogram F)
    (rawBucketData : histogramCounts) : Except Failure (Option Bucket) :=
  let key := Unix (wrapInt64 (hs.interval * rawBucketData.Key))
  let counts := rawBucketData.Vals
  match counts.getLast? with
  | none => .error (.panic "index out of range")
  | some docCount =>
    if docCount > 0 then
      let subAggBuckets := match hs.filters with
        | some filters => filters.createBuckets
        | none => BucketAggregationData.zero
      match subAggBuckets with
      | .mk aggName (.mk (some buckets) stringer) =>
        match setDocCounts buckets counts with
        | .ok buckets =>
          .ok (some (.column (some (.mk aggName (.mk (some buckets) stringer))) key docCount))
        | .error e => .error e
      | .mk _ (.mk none _) => .ok (some (.column (some subAggBuckets) key docCount))
    else .ok none

/-- The loop of `DateHistogram.Aggregate` over the fetched rows: the buckets of
the histogram. -/
def DateHistogram.materialize {F : Type} (hs : DateHistogram F) :
    List histogramCounts → Except Failure (List Bucket)
  | [] => .ok []
  | row :: rows =>
    match hs.materializeRow row with
    | .error e => .error e
    | .ok kept =>
      match DateHistogram.materialize hs rows with
      | .error e => .error e
      | .ok buckets =>
        match kept with
        | some b => .ok (b :: buckets)
        | none => .ok buckets

/-- Method `DateHistogram.createDataAggregatingRequest`: the request and the
receiver after the call; a nil common filter on the raw path is a panic. -/
def DateHistogram.createDataAggregatingRequest {F : Type} (go : GoLib F) (hs : DateHistogram F)
    (index : String) : Except Failure (db.Request × DateHistogram F) :=
  let filterConditions := queries.GetSimpleClausesList hs.commonFilter
  let sorting := queries.Section.String go
    (.mk .sortSection [queries.Clause.sortClause "cur_key" "ASC"])
  if filterConditions.length = 1 && hs.optimizationRequired then
    let request := clickhouse.NewRequestTpl (models.PreparedHistogramDataTablePrefix ++ index)
    let request := request.What
      (aggFuncs.build (Option.toList (clickhouse.NewSumAggregation "count" "")) ++
        ", toInt64(key / " ++ toString (Int.tdiv hs.interval preparedDataPeriod) ++ ") as cur_key")
    let timeRange := queries.NewRange go ("(key * " ++ toString preparedDataPeriod ++ ")") false
    let timeRange := match filterConditions with
      | some (.rangeClause origRange) :: _ =>
        (timeRange.AddUpper origRange.high.value true).AddLower origRange.low.value
          origRange.low.strict
      | _ => timeRange
    let request := request.GroupBy "cur_key"
    let request := request.OrderBy sorting []
    let request := request.WhereAnd (timeRange.String go)
    .ok (request, { hs with commonFilter := some (.rangeClause timeRange) })
  else
    let request := clickhouse.NewRequestTpl index
    let request := request.What (aggFuncs.build (hs.createAggFuncs go))
    let request := request.AppendToWhat
      ("toInt64((" ++ hs.fieldName ++ ") / " ++ toString hs.interval ++ ") as cur_key")
    let request := request.GroupBy "cur_key"
    let request := request.OrderBy sorting []
    match hs.commonFilter with
    | none => .error (.panic "nil pointer dereference")
    | some commonFilter => .ok (request.WhereAnd (queries.Clause.String go commonFilter), hs)

/-- Method `DateHistogram.Aggregate`. -/
def DateHistogram.Aggregate {F : Type} (go : GoLib F) (hs : DateHistogram F)
    (conn : DataProvider) : Except Failure (Option BucketAggregationData) :=
  let index := conn.DataTable
  if index = "" then
    .error (.error (.errorsNew "index pattern is not set for data provider"))
  else
    match hs.createDataAggregatingRequest go index with
    | .error e => .error e
    | .ok (request, hs) =>
      match conn.selectRows request with
      | .error err => .error (.error err)
      | .ok histogramBuckets =>
        match hs.materialize histogramBuckets with
        | .error e => .error e
        | .ok buckets =>
          .ok (some (.mk hs.name (.mk (some buckets) (some .bucketsToArrayJSON))))

/-- Units of a histogram interval in the order in which `parseHistogramInterval`
tries their names as suffixes. -/
def intervalUnits : List (String × Int) :=
  [("ms", Millisecond), ("s", Second), ("m", Minute), ("h", Hour), ("d", day), ("w", week)]

/-- Parsed interval: the unit duration and the magnitude. -/
structure histogramInterval where
  timeUnit : Int
  timeVal : Int
deriving DecidableEq, Repr

/-- Method `histogramInterval.calcInterval`. -/
def histogramInterval.calcInterval (i : histogramInterval) : Int :=
  wrapInt64 (i.timeUnit * i.timeVal)

/-- Function `parseHistogramInterval`. -/
def parseHistogramInterval (interval : String) : Except GoError histogramInterval :=
  match intervalUnits.find? (fun item => strings.HasSuffix interval item.1) with
  | none => .error (.errorsNew "unsupported histogram period units")
  | some item =>
    match strconv.Atoi (strings.TrimSuffix interval item.1) with
    | .error err => .error err
    | .ok timeVal => .ok { timeUnit := item.2, timeVal := timeVal }

/-- Function `CreateDateHistogramAgg`; `none` is the nil data range. -/
def CreateDateHistogramAgg {F : Type} (interval : String) (fieldName : String)
    (dataRange : Option (queries.RangeClause F)) (optimization : Bool) :
    Except GoError (DateHistogram F) :=
  match parseHistogramInterval interval with
  | .error err => .error err
  | .ok intervalSettings =>
    match dataRange with
    | none => .error (.errorsNew "data range for histogram is not set")
    | some range =>
      if range.field ≠ fieldName then .error (.errorsNew "data range for histogram is not set")
      else
        .ok { fieldName := fieldName
              interval := intervalSettings.calcInterval
              timeOptimization := optimization }

end aggregations

/-! ## Package `app/handlers` -/

namespace handlers

/-- The loop of `reduceLogsSelectionTimeRange`, over the buckets from the last to
the first, with the count `docCount` accumulated so far. -/
def reduceLoop (now : aggregations.Time) (size : Nat) :
    Nat → List aggregations.Bucket → Except Failure (aggregations.Time × Bool)
  | _, [] => .ok (now, false)
  | docCount, b :: rest =>
    let docCount := wrapUint64 (docCount + b.DocCount)
    if docCount > size then
      match b.Key with
      | .time t => .ok (t, true)
      | .str _ => .error (.panic "interface conversion")
    else reduceLoop now size docCount rest

/-- Function `reduceLogsSelectionTimeRange`; `now` is the value of `time.Now()`. -/
def reduceLogsSelectionTimeRange (now : aggregations.Time)
    (aggrBuckets : List aggregations.Bucket) (size : Nat) :
    Except Failure (aggregations.Time × Bool) :=
  reduceLoop now size 0 aggrBuckets.reverse

end handlers

/-! ## The bucket keys of the date histogram -/

namespace clickhouse

/-- The expression `toInt64((ts) / 300000000000) as key` of the transform that
`CreateHistogramPreCalcQueue` installs: the key under which a row with the
timestamp `ts` is counted in the pre-aggregated table. The quotient is taken as
the integer quotient truncated toward zero. -/
def preparedKey (ts : Int) : Int :=
  Int.tdiv ts 300000000000

end clickhouse

namespace aggregations

/-- The expression `toInt64(key / %d) as cur_key` of the optimized path of
`createDataAggregatingRequest`, with the divisor `hs.interval/preparedDataPeriod`
that the Go code computes. -/
def DateHistogram.optimizedKey {F : Type} (hs : DateHistogram F) (key : Int) : Int :=
  Int.tdiv key (Int.tdiv hs.interval preparedDataPeriod)

/-- The expression `toInt64((%s) / %d) as cur_key` of the raw path of
`createDataAggregatingRequest` for a row whose histogram field holds `ts`. -/
def DateHistogram.rawKey {F : Type} (hs : DateHistogram F) (ts : Int) : Int :=
  Int.tdiv ts hs.interval

end aggregations

/-! ## Package `adapter/requests/queries`: comparison of clause trees -/

namespace queries

mutual
/-- A value of the interface `Clause` as `IsEqual` inspects it: the nil interface,
a value whose type implements `Section` (only its children are read), a
`*BoolSection`, or a clause of any other type, which is read through the text
that its method `String` returns. -/
inductive ClauseTree where
  | absent
  | ofSection (children : List ClauseTree)
  | boolSection (Must MustNot Should Filter : SectionTree)
  | other (rendered : String)
/-- A value of the interface `Section` held in a field of a BoolSection: nil, or a
section with its children. -/
inductive SectionTree where
  | absent
  | mk (children : List ClauseTree)
end

/-- Function `compareClause`; `none` is the nil clause, `some text` a clause whose
method `String` returns `text`. -/
def compareClause {F : Type} (go : GoLib F) (first second : Option String) : Bool :=
  match first, second with
  | none, none => true
  | some f, some s => strings.ToLower go f == strings.ToLower go s
  | _, _ => false

/-- Go `a && b` for operands that may panic: `b` is evaluated only when `a` is true. -/
def andAlso (a b : Except Failure Bool) : Except Failure Bool :=
  match a with
  | .ok true => b
  | other => other

/-- The inner loop of `compareSection` over the children of the second section,
for the comparison `isEqual` with one child of the first; `equal` is the variable
of that name, which the loop leaves as it is when there is nothing to iterate. -/
def compareSection.scan (isEqual : ClauseTree → Except Failure Bool) :
    Bool → List ClauseTree → Except Failure Bool
  | equal, [] => .ok equal
  | _, sChild :: rest =>
    match isEqual sChild with
    | .error e => .error e
    | .ok true => .ok true
    | .ok false => compareSection.scan isEqual false rest

/-- The two statements of `compareSection` before its loops, for sections that
are not nil; `loop` is the result of the loops. -/
def compareSection.guarded (first second : List ClauseTree) (loop : Except Failure Bool) :
    Except Failure Bool :=
  if first.length = 0 && second.length = 0 then .ok true
  else if first.length ≠ second.length then .ok false
  else loop

mutual
/-- Function `IsEqual`, with `compareBoolSection` unfolded in the case of two
bool sections. -/
def IsEqual {F : Type} (go : GoLib F) : ClauseTree → ClauseTree → Except Failure Bool
  | .ofSection first, .ofSection second =>
    compareSection.guarded first second (compareSection.loop go first second false)
  | .ofSection _, _ => .ok false
  | _, .ofSection _ => .ok false
  | .boolSection must1 mustNot1 should1 filter1, .boolSection must2 mustNot2 should2 filter2 =>
    andAlso (compareSection go must1 must2)
      (andAlso (compareSection go should1 should2)
        (andAlso (compareSection go mustNot1 mustNot2) (compareSection go filter1 filter2)))
  | .boolSection _ _ _ _, _ => .ok false
  | _, .boolSection _ _ _ _ => .ok false
  | .absent, .absent => .ok (compareClause go none none)
  | .absent, .other s => .ok (compareClause go none (some s))
  | .other f, .absent => .ok (compareClause go (some f) none)
  | .other f, .other s => .ok (compareClause go (some f) (some s))
termination_by structural first => first
/-- Function `compareSection`: calling `Children` on a nil section is a panic. -/
def compareSection {F : Type} (go : GoLib F) : SectionTree → SectionTree → Except Failure Bool
  | .absent, .absent => .ok true
  | .absent, .mk second =>
    if second.length = 0 then .ok true else .error (.panic "nil pointer dereference")
  | .mk first, .absent =>
    if first.length = 0 then .ok true else .error (.panic "nil pointer dereference")
  | .mk first, .mk second =>
    compareSection.guarded first second (compareSection.loop go first second false)
termination_by structural first => first
/-- The outer loop of `compareSection` over the children of the first section. -/
def compareSection.loop {F : Type} (go : GoLib F) :
    List ClauseTree → List ClauseTree → Bool → Except Failure Bool
  | [], _, _ => .ok true
  | fChild :: rest, second, equal =>
    match compareSection.scan (IsEqual go fChild) equal second with
    | .error e => .error e
    | .ok false => .ok false
    | .ok true => compareSection.loop go rest second true
termination_by structural first => first
end

end queries

/-! ## Reference definitions, following the words of the specification -/

/-- Replaces every quote character of `v` by the escape sequence `esc`. -/
def escapeQuotes (esc : String) (v : String) : String :=
  ⟨v.data.flatMap (fun c => if c = '\'' then esc.data else [c])⟩

/-- An indexed field-match item as the parser builds it for `and file:"DB"`. -/
def queries.sampleIndexedMatch : queries.fieldMatch :=
  { logicalOp := " and"
    field := { CHName := "file", CHType := "String" }
    expr := "\"DB\""
    indexTable := "inverted_index_gate"
    tsColumn := "ts" }

/-- A time range on `ts`: above 0, at most 100. -/
def queries.sampleTimeRange : queries.RangeClause Int :=
  ((queries.NewRange GoLib.ascii "ts" false).AddLower 0 true).AddUpper 100 false

/-- A table description with a timestamp column, two full-text-indexed columns
and a numeric column. -/
def models.sampleGate : models.ModelInfo :=
  { DBName := "gate"
    DataFields :=
      [("ts", { CHName := "ts", CHType := "Timestamp" }),
       ("file", { CHName := "file", CHType := "String", FullTextSearch := true }),
       ("pid", { CHName := "pid", CHType := "UInt64" }),
       ("message", { CHName := "message", CHType := "String", FullTextSearch := true })] }

/-- A table description with a full-text-indexed column and no timestamp column. -/
def models.sampleNoTimestamp : models.ModelInfo :=
  { DBName := "plain"
    DataFields :=
      [("message", { CHName := "message", CHType := "String", FullTextSearch := true })] }

/-- The field-match item of short notation for one indexed column. -/
def shortNotationItem (tableInfo : models.ModelInfo) (tsColumn : models.FieldProps)
    (expr : String) (logicalOp : String) (entry : String × models.FieldProps) :
    queries.queryItem :=
  .fieldMatch
    { field := entry.2.toCHField
      expr := expr
      logicalOp := logicalOp
      indexTable := models.InvertedIndexTablePrefix ++ tableInfo.DBName
      tsColumn := tsColumn.CHName }

/-- The items of short notation: one per full-text-indexed column, the first
without logical operator, every later one with `OR`. -/
def shortNotationItems (tableInfo : models.ModelInfo) (tsColumn : models.FieldProps)
    (expr : String) : List queries.queryItem :=
  match tableInfo.DataFields.filter (fun entry => entry.2.FullTextSearch) with
  | [] => []
  | first :: later =>
    shortNotationItem tableInfo tsColumn expr "" first ::
      later.map (shortNotationItem tableInfo tsColumn expr "OR")

/-- A `Filters` aggregation with the entries `errors` (match_phrase status = 500)
and `ok` (match_all, which is parsed to a nil condition). -/
def aggregations.sampleFilters : aggregations.Filters Int :=
  { name := "3"
    filters :=
      [{ Condition := some (.matchClause (queries.NewStringMatch "status" "500")),
         Name := "errors" },
       { Condition := none, Name := "ok" }] }

/-- A date histogram of five minutes on `ts` with optimization requested, a common
filter that is one range clause on `ts`, and the nested `sampleFilters`. -/
def aggregations.sampleHistogram : aggregations.DateHistogram Int :=
  { name := "2"
    commonFilter := some (.rangeClause queries.sampleTimeRange)
    filters := some aggregations.sampleFilters
    interval := aggregations.preparedDataPeriod
    fieldName := "ts"
    timeOptimization := true }

/-- A date histogram of thirty seconds on `ts` without nested aggregation. -/
def aggregations.samplePlainHistogram : aggregations.DateHistogram Int :=
  { name := "2"
    commonFilter := some (.rangeClause queries.sampleTimeRange)
    interval := 30 * aggregations.Second
    fieldName := "ts"
    timeOptimization := false }

/-- Number of entries of the nested `Filters` aggregation, 0 when there is none. -/
def aggregations.DateHistogram.nestedEntries {F : Type} (hs : aggregations.DateHistogram F) :
    Nat :=
  match hs.filters with
  | some filters => filters.filters.length
  | none => 0

/-- The last count of a result row, 0 for a row without counts. -/
def aggregations.histogramCounts.lastCount (row : aggregations.histogramCounts) : Nat :=
  row.Vals.getLast?.getD 0

/-- The failure of a call, `none` when it returned a result. -/
def failureOf {α : Type} : Except Failure α → Option Failure
  | .error e => some e
  | .ok _ => none

/-- A data provider whose selector loads one row with the counts 3 and 7. -/
def aggregations.sampleProvider : aggregations.DataProvider :=
  { DataTable := "logs_gate"
    selectRows := fun _ => .ok [{ Vals := [3, 7], Key := 0 }] }

/-- A nested aggregation result named `inner` with an empty object of buckets. -/
def aggregations.sampleNested : aggregations.BucketAggregationData :=
  .mk "inner" (.mk (some []) (some .bucketsToObjJSON))

/-- A section holding two bool sections: the first sets only `Should`, the second
only `Must`; the other fields are nil. -/
def queries.sampleMixedBools : queries.ClauseTree :=
  .ofSection
    [.boolSection .absent .absent (.mk [.other "(line = 100)"]) .absent,
     .boolSection (.mk [.other "(isNotNull(pid))"]) .absent .absent .absent]

/-- A bool query with three must-clauses and one must-not clause, its `Should`
and `Filter` nil. -/
def queries.sampleBoolTree : queries.ClauseTree :=
  .boolSection
    (.mk [.other "(pid = 41671)", .other "(isNotNull(pid))",
          .boolSection .absent .absent (.mk [.other "(line = 100)", .other "(line = 150)"])
            .absent])
    (.mk [.other "(is_business_log = 1)"]) .absent .absent

/-- The bool query `sampleBoolTree` with its must-clauses appended in another
order, the should-clauses of the inner bool query swapped, and empty sections in
the place of the nil ones. -/
def queries.sampleBoolTreeReordered : queries.ClauseTree :=
  .boolSection
    (.mk [.boolSection (.mk []) (.mk []) (.mk [.other "(line = 150)", .other "(line = 100)"])
            (.mk []),
          .other "(pid = 41671)", .other "(isNotNull(pid))"])
    (.mk [.other "(is_business_log = 1)"]) (.mk []) (.mk [])

/-- A date histogram of five minutes on `ts` with optimization requested, whose
common filter is a bool query with one must-clause: a nested bool query that
holds the range on `ts` and a match on `status`. -/
def aggregations.sampleNestedFilterHistogram : aggregations.DateHistogram Int :=
  { name := "2"
    commonFilter := some (.boolSection
      (.mk .mustSection
        [.boolSection
          (.mk .mustSection
            [.rangeClause queries.sampleTimeRange,
             .matchClause (queries.NewStringMatch "status" "500")])
          (.mk .emptySection []) (.mk .emptySection []) (.mk .emptySection [])])
      (.mk .emptySection []) (.mk .emptySection []) (.mk .emptySection []))
    interval := aggregations.preparedDataPeriod
    fieldName := "ts"
    timeOptimization := true }

/-- A date histogram on `ts` with optimization requested, a common filter that is
one range clause on `ts`, and the given interval. -/
def aggregations.sampleHistogramOf (interval : Int) (optimization : Bool) :
    aggregations.DateHistogram Int :=
  { name := "2"
    commonFilter := some (.rangeClause queries.sampleTimeRange)
    interval := interval
    fieldName := "ts"
    timeOptimization := optimization }

/-- Whether a clause is a `*RangeClause`. -/
def queries.isRangeClause {F : Type} : Option (queries.Clause F) → Bool
  | some (.rangeClause _) => true
  | _ => false

/-- The request on the pre-aggregated table of `logs_gate` for five-minute
buckets, with a range whose two bounds were never set. -/
def aggregations.sampleZeroRangeRequest : db.Request :=
  { tables := "merge(logs, '^histogram_logs_gate')"
    what := "[ sum(count) ] as results, toInt64(key / 1) as cur_key"
    «where» := "WHERE (0 <= (key * 300000000000) AND (key * 300000000000) <= 0)"
    group := "GROUP BY cur_key"
    sorting := "ORDER BY cur_key ASC" }

/-- The key of the bucket of width `interval` that contains the timestamp `t`. -/
def referenceBucketKey (interval t : Int) : Int :=
  t / interval

/-- The text that follows the parenthesis closing the `depth + 1` parentheses open
at the start of `cs`; `none` when they are never closed. -/
def afterMatching : Nat → List Char → Option (List Char)
  | _, [] => none
  | depth, c :: cs =>
    if c = '(' then afterMatching (depth + 1) cs
    else if c = ')' then
      match depth with
      | 0 => some cs
      | d + 1 => afterMatching d cs
    else afterMatching depth cs

/-- A fragment is self-contained when it starts with an opening parenthesis whose
matching closing parenthesis is the last character of the fragment. -/
def selfContained (fragment : String) : Bool :=
  match fragment.data with
  | '(' :: cs => afterMatching 0 cs == some []
  | _ => false

/-- Depth of the parentheses after a text read from the depth `depth`; `none` when
a closing parenthesis has no partner. -/
def parenDepth : Nat → List Char → Option Nat
  | depth, [] => some depth
  | depth, c :: cs =>
    if c = '(' then parenDepth (depth + 1) cs
    else if c = ')' then
      match depth with
      | 0 => none
      | d + 1 => parenDepth d cs
    else parenDepth depth cs

/-- A fragment has balanced parentheses. -/
def balanced (fragment : String) : Bool :=
  parenDepth 0 fragment.data == some 0

/-- The bool query with the must-clause `exists pid` and the filter-clause
`exists line`; the request parser puts an EmptySection where the query has no
list. -/
def queries.sampleTwoPartBool : queries.Clause Int :=
  .boolSection (.mk .mustSection [.existsClause "pid"]) (.mk .emptySection [])
    (.mk .emptySection []) (.mk .filterSection [.existsClause "line"])

/-- The field-match item that the parser builds for `message:php` on the table
`sampleGate`. -/
def queries.sampleStopwordMatch : queries.fieldMatch :=
  { field := { CHName := "message", CHType := "String" }
    expr := "php"
    indexTable := "inverted_index_gate"
    tsColumn := "ts" }

/-- A table description with a timestamp column and a column named `or`. -/
def models.sampleKeywordColumn : models.ModelInfo :=
  { DBName := "gate"
    DataFields :=
      [("ts", { CHName := "ts", CHType := "Timestamp" }),
       ("or", { CHName := "or", CHType := "String" })] }

/-- A plain token: not a bracket, not a colon and not a logical keyword. -/
def plainToken {F : Type} (go : GoLib F) (s : String) : Bool :=
  queries.getBraceKind s = 0 && !queries.isLogicalOp go s && s ≠ ":"

/-- The field-match item of wide notation for the field `field` with the
properties `props`: routed to the inverted index when the field is full-text
indexed and the table has a timestamp column. -/
def wideNotationItem (tableInfo : models.ModelInfo) (props : models.FieldProps)
    (field expr logicalOp : String) : queries.queryItem :=
  match tableInfo.GetTimestampField with
  | some tsField =>
    if props.FullTextSearch then
      .fieldMatch
        { field := { CHName := field, CHType := props.CHType }
          expr := expr
          logicalOp := logicalOp
          indexTable := models.InvertedIndexTablePrefix ++ tableInfo.DBName
          tsColumn := tsField.CHName }
    else
      .fieldMatch
        { field := { CHName := field, CHType := props.CHType }
          expr := expr
          logicalOp := logicalOp }
  | none =>
    .fieldMatch
      { field := { CHName := field, CHType := props.CHType }
        expr := expr
        logicalOp := logicalOp }

/-- The characters of a text that stand outside a double-quoted span; `quoted`
tells whether the text starts inside one. A quote character opens or closes a
span, and the closing one counts as outside. -/
def outsideQuotes : Bool → List Char → List Char
  | _, [] => []
  | quoted, c :: cs =>
    if (if c = '"' then !quoted else quoted) then
      outsideQuotes (if c = '"' then !quoted else quoted) cs
    else c :: outsideQuotes (if c = '"' then !quoted else quoted) cs

/-- Whether a text that starts inside (`quoted`) or outside a double-quoted span
ends inside one. -/
def quotedAfter : Bool → List Char → Bool
  | quoted, [] => quoted
  | quoted, c :: cs => quotedAfter (if c = '"' then !quoted else quoted) cs

/-- The tokens `(`, `)` and `:`. -/
def isSeparatorToken (tok : String) : Bool :=
  tok = "(" || tok = ")" || tok = ":"

/-- The characters `(`, `)` and `:`. -/
def isSeparatorChar (c : Char) : Bool :=
  c = '(' || c = ')' || c = ':'

/-- A text is clean: outside quoted spans it holds no blank and no separator
character. -/
def cleanToken (cs : List Char) : Bool :=
  (outsideQuotes false cs).all (fun c => c ≠ ' ' && !isSeparatorChar c)

/-- A token is good: not empty, and either a separator token or clean. -/
def goodToken (tok : String) : Prop :=
  tok.data ≠ [] ∧ (isSeparatorToken tok = true ∨ cleanToken tok.data = true)

/-- The separator characters outside the quoted spans of a text, each as a token. -/
def separatorsOf (p : List Char) : List String :=
  ((outsideQuotes false p).filter isSeparatorChar).map (fun c => String.mk [c])

/-- Invariant of the loop of `splitQuery` after the characters `p`. -/
def splitInvariant (st : queries.splitState) (p : List Char) : Prop :=
  st.quoted = quotedAfter false p ∧ quotedAfter false st.pending = st.quoted ∧
  cleanToken st.pending = true ∧ (∀ tok ∈ st.parts, goodToken tok) ∧
  st.parts.filter isSeparatorToken = separatorsOf p

mutual
/-- Tree `b` is tree `a` with the children of its sections reordered, at any depth. -/
inductive queries.ClauseTree.Reordered : queries.ClauseTree → queries.ClauseTree → Prop
  | absent : queries.ClauseTree.Reordered .absent .absent
  | other (rendered : String) : queries.ClauseTree.Reordered (.other rendered) (.other rendered)
  | ofSection {cs cs' ds : List queries.ClauseTree} :
      List.Forall₂ queries.ClauseTree.Reordered cs cs' → cs'.Perm ds →
      queries.ClauseTree.Reordered (.ofSection cs) (.ofSection ds)
  | boolSection {m n s f m' n' s' f' : queries.SectionTree} :
      queries.SectionTree.Reordered m m' → queries.SectionTree.Reordered n n' →
      queries.SectionTree.Reordered s s' → queries.SectionTree.Reordered f f' →
      queries.ClauseTree.Reordered (.boolSection m n s f) (.boolSection m' n' s' f')
/-- The same for the sections of a bool query. -/
inductive queries.SectionTree.Reordered : queries.SectionTree → queries.SectionTree → Prop
  | absent : queries.SectionTree.Reordered .absent .absent
  | mk {cs cs' ds : List queries.ClauseTree} :
      List.Forall₂ queries.ClauseTree.Reordered cs cs' → cs'.Perm ds →
      queries.SectionTree.Reordered (.mk cs) (.mk ds)
end

mutual
/-- No bool query of the tree has a nil section. -/
def queries.ClauseTree.sectionsPresent : queries.ClauseTree → Bool
  | .absent => true
  | .other _ => true
  | .ofSection children => queries.ClauseTree.allPresent children
  | .boolSection must mustNot should filter =>
    queries.SectionTree.present must && queries.SectionTree.present mustNot &&
      queries.SectionTree.present should && queries.SectionTree.present filter
/-- The section is not nil, and no bool query below it has a nil section. -/
def queries.SectionTree.present : queries.SectionTree → Bool
  | .absent => false
  | .mk children => queries.ClauseTree.allPresent children
/-- No bool query of the trees has a nil section. -/
def queries.ClauseTree.allPresent : List queries.ClauseTree → Bool
  | [] => true
  | c :: cs => queries.ClauseTree.sectionsPresent c && queries.ClauseTree.allPresent cs
end

/-- The bool query `sampleBoolTree` with empty sections in the place of the nil
ones, as the request parser builds it. -/
def queries.sampleBoolTreePresent : queries.ClauseTree :=
  .boolSection
    (.mk [.other "(pid = 41671)", .other "(isNotNull(pid))",
          .boolSection (.mk []) (.mk []) (.mk [.other "(line = 100)", .other "(line = 150)"])
            (.mk [])])
    (.mk [.other "(is_business_log = 1)"]) (.mk []) (.mk [])

/-- The characters of a text, each with the flag that tells whether it stands
inside a double-quoted span of the text; `quoted` tells whether the text starts
inside one. An opening quote counts as inside, a closing quote as outside. -/
def markQuotes : Bool → List Char → List (Char × Bool)
  | _, [] => []
  | quoted, c :: cs =>
    (c, if c = '"' then !quoted else quoted) ::
      markQuotes (if c = '"' then !quoted else quoted) cs

/-- A break: a blank, a bracket or a colon that stands outside the quoted spans. -/
def isBreak (x : Char × Bool) : Bool :=
  !x.2 && (x.1 = ' ' || x.1 = '(' || x.1 = ')' || x.1 = ':')

/-- Cuts a marked text into pieces: every break is a piece of its own, and the
characters between two breaks form one piece. -/
def pieces : List (Char × Bool) → List (List (Char × Bool))
  | [] => []
  | x :: xs =>
    if isBreak x then [x] :: pieces xs
    else
      match pieces xs with
      | [] => [[x]]
      | piece :: rest =>
        if piece.any isBreak then [x] :: piece :: rest else (x :: piece) :: rest

/-- The tokens of a list of pieces: the text of every piece but the blanks that
stand outside the quoted spans. -/
def pieceTokens (ps : List (List (Char × Bool))) : List String :=
  (ps.filter (fun p => decide (p ≠ [(' ', false)]))).map
    (fun p => String.mk (p.map Prod.fst))

/-- The histogram `sampleHistogram` without the request for optimization, so that
it is compiled on the raw path. -/
def aggregations.sampleRawHistogram : aggregations.DateHistogram Int :=
  { aggregations.sampleHistogram with timeOptimization := false }

/-- A data source that answers with one count per selected function: two rows
of three counts for the query that selects the three functions of
`sampleRawHistogram`, and one row with the single count 10 for any other
query. -/
def aggregations.sampleColumnProvider : aggregations.DataProvider :=
  { DataTable := "logs_gate"
    selectRows := fun request =>
      if request.what =
          "[ countIf((status = '500')),count(),count() ] as results, toInt64((ts) / 300000000000) as cur_key"
      then .ok [{ Vals := [3, 7, 10], Key := 1 }, { Vals := [0, 0, 0], Key := 2 }]
      else .ok [{ Vals := [10], Key := 1 }] }

/-- The named buckets of a Filters aggregation for the counts of one result row:
the names of the entries in declared order, bucket i with count i. -/
def aggregations.namedBuckets {F : Type} (f : aggregations.Filters F) (counts : List Nat) :
    aggregations.BucketAggregationData :=
  .mk f.name
    (.mk (some (List.zipWith (fun entry c => aggregations.Bucket.filterBucket none entry.Name c)
      f.filters counts)) (some .bucketsToObjJSON))

/-- The bucket of a date histogram for one result row: the named buckets of the
nested Filters aggregation, the instant of the key, and the last count of the
row as doc count. -/
def aggregations.histogramBucket {F : Type} (hs : aggregations.DateHistogram F)
    (f : aggregations.Filters F) (row : aggregations.histogramCounts) : aggregations.Bucket :=
  .column (some (aggregations.namedBuckets f row.Vals))
    (aggregations.Unix (wrapInt64 (hs.interval * row.Key))) row.lastCount

/-- The text of the aggregation function compiled for one entry of a Filters
aggregation. -/
def aggregations.entryFunction {F : Type} (go : GoLib F)
    (entry : aggregations.FilterSettings F) : String :=
  match entry.Condition with
  | none => "count()"
  | some c =>
    if queries.Clause.String go c = "" then "count()"
    else "countIf(" ++ queries.Clause.String go c ++ ")"

/-- Keeps only the first occurrence of each string, in first-seen order. -/
def keepFirstOccurrences : List String → List String
  | [] => []
  | x :: xs => x :: (keepFirstOccurrences xs).filter (fun y => y != x)

/-- The reference pipeline for tokens: lower-case the text, split it on maximal runs
of non-word characters, drop the pieces of the stopword set, keep the first
occurrence of each remaining piece. -/
def referenceTokens {F : Type} (go : GoLib F) (text : String) : List String :=
  keepFirstOccurrences
    ((regexp.SplitNonWord (strings.ToLower go text)).filter
      (fun piece => !index.gateLogsWordsToOmits.contains piece))

/-- First occurrences among the strings not already in `seen`. -/
def keepUnseen (seen : List String) : List String → List String
  | [] => []
  | x :: xs => if x ∈ seen then keepUnseen seen xs else x :: keepUnseen (x :: seen) xs

/-! ## Lemmas on strings and joins -/

theorem strings.Join_singleton (a sep : String) : strings.Join [a] sep = a := rfl

theorem strings.Join_cons_cons (a b : String) (rest : List String) (sep : String) :
    strings.Join (a :: b :: rest) sep = a ++ sep ++ strings.Join (b :: rest) sep := rfl

/-- A join of non-empty strings is empty only for the empty list. -/
theorem strings.Join_eq_empty_iff (l : List String) (sep : String)
    (h : ∀ s ∈ l, s ≠ "") : strings.Join l sep = "" ↔ l = [] := by
  match l with
  | [] => simp [strings.Join]
  | [a] =>
    have ha : a ≠ "" := h a (by simp)
    simp [strings.Join, ha]
  | a :: b :: rest =>
    have ha : a ≠ "" := h a (by simp)
    have hd : a.data ≠ [] := fun hd => ha (String.ext hd)
    simp [strings.Join, String.ext_iff, hd]

/-- The fragments collected by `buildChildQueries` are the non-empty child fragments. -/
theorem queries.buildChildQueries_eq_filter {F : Type} (go : GoLib F)
    (children : List (queries.Clause F)) :
    queries.buildChildQueries go children =
      (children.map (queries.Clause.String go)).filter (fun s => s != "") := by
  induction children with
  | nil => simp [queries.buildChildQueries]
  | cons c cs ih =>
    rw [queries.buildChildQueries]
    split <;> simp_all

theorem queries.buildChildQueries_ne_empty {F : Type} (go : GoLib F)
    (children : List (queries.Clause F)) :
    ∀ s ∈ queries.buildChildQueries go children, s ≠ "" := by
  intro s hs
  rw [queries.buildChildQueries_eq_filter] at hs
  simpa using (List.mem_filter.mp hs).2

theorem queries.buildChildQueries_eq_nil_iff {F : Type} (go : GoLib F)
    (children : List (queries.Clause F)) :
    queries.buildChildQueries go children = [] ↔
      ∀ c ∈ children, queries.Clause.String go c = "" := by
  rw [queries.buildChildQueries_eq_filter]
  simp [List.filter_eq_nil_iff]

theorem queries.Section_String_mk {F : Type} (go : GoLib F) (kind : queries.SectionKind)
    (children : List (queries.Clause F)) :
    queries.Section.String go (.mk kind children) =
      kind.render (queries.buildChildQueries go children) := by
  rw [queries.Section.String]

/-! ## Rendering of the condition AST -/

open queries in
/-- C1: a BoolSection renders the join with AND of the non-empty fragments among
Must, MustNot and Filter, in that order, and the Should fragment alone when all
three are empty; whenever one of the three is non-empty, replacing the Should
section does not change the result. -/
theorem C1_BoolSection_String {F : Type} (go : GoLib F)
    (must mustNot should filter : Section F) :
    Clause.String go (.boolSection must mustNot should filter) =
      (if [Section.String go must, Section.String go mustNot,
            Section.String go filter].filter (fun s => s != "") = []
        then Section.String go should
        else strings.Join ([Section.String go must, Section.String go mustNot,
            Section.String go filter].filter (fun s => s != "")) " AND ") ∧
    ∀ should2 : Section F,
      (Section.String go must = "" ∧ Section.String go mustNot = "" ∧
          Section.String go filter = "") ∨
        Clause.String go (.boolSection must mustNot should2 filter) =
          Clause.String go (.boolSection must mustNot should filter) := by
  have key : ∀ sh : Section F, Clause.String go (.boolSection must mustNot sh filter) =
      BoolSection.render (Section.String go must) (Section.String go mustNot)
        (Section.String go sh) (Section.String go filter) := by
    intro sh
    rw [Clause.String]
  refine ⟨?_, ?_⟩
  · rw [key]
    by_cases h1 : Section.String go must = "" <;>
    by_cases h2 : Section.String go mustNot = "" <;>
    by_cases h3 : Section.String go filter = "" <;>
    simp [BoolSection.render, h1, h2, h3, strings.Join]
  · intro should2
    rw [key, key]
    by_cases h1 : Section.String go must = "" <;>
    by_cases h2 : Section.String go mustNot = "" <;>
    by_cases h3 : Section.String go filter = "" <;>
    simp [BoolSection.render, h1, h2, h3, strings.Join]

open queries in
/-- C2: on the array-of-strings field `tags` of type `Array(String)` with the value
`x`, MatchClause.String prints the whole field descriptor where the column name
belongs, so the fragment is not the shape `(has(tags, 'x'))`; the numeric scalar
field `pid` with value 41671 renders `(pid = 41671)`. -/
theorem C2_MatchClause_String_array_of_strings {F : Type} (go : GoLib F) :
    MatchClause.String go
        { Field := { CHName := "tags", CHType := "Array(String)" }, Value := .str "x" } =
      "(has(\x7btags Array(String)\x7d, 'x'))" ∧
    MatchClause.String go
        { Field := { CHName := "tags", CHType := "Array(String)" }, Value := .str "x" } ≠
      "(has(tags, 'x'))" ∧
    MatchClause.String go
        { Field := { CHName := "pid", CHType := "UInt64" }, Value := .int 41671 } =
      "(pid = 41671)" := by
  have h : MatchClause.String go
      { Field := { CHName := "tags", CHType := "Array(String)" }, Value := .str "x" } =
      "(has(\x7btags Array(String)\x7d, 'x'))" := rfl
  refine ⟨h, ?_, rfl⟩
  rw [h]
  decide

open queries in
/-- C3 (counterexample): for the scalar string field `status` and the value `a'b`
the fragment is `(status = 'a'b')`; it is not `(status = 'w')` for any `w` obtained
from the value by replacing its quote with an escape sequence. -/
theorem C3_quote_not_escaped :
    MatchClause.String GoLib.ascii (NewStringMatch "status" "a'b") = "(status = 'a'b')" ∧
    ¬ ∃ esc : String, esc ≠ "'" ∧
      MatchClause.String GoLib.ascii (NewStringMatch "status" "a'b") =
        "(status = '" ++ escapeQuotes esc "a'b" ++ "')" := by
  have h : MatchClause.String GoLib.ascii (NewStringMatch "status" "a'b") =
      "(status = 'a'b')" := by decide
  refine ⟨h, ?_⟩
  rintro ⟨esc, hne, heq⟩
  rw [h] at heq
  apply hne
  have hd := congrArg String.data heq
  simp [escapeQuotes, String.data_append] at hd
  apply String.ext
  have h2 : esc.data ++ ['b', '\'', ')'] = ['\''] ++ ['b', '\'', ')'] := by
    simpa using hd.symm
  exact List.append_cancel_right h2

open queries in
/-- C3 (amended): for every scalar string field and every string value v,
MatchClause.String renders `(field = 'v')` with v copied verbatim. -/
theorem C3_MatchClause_String_scalar_string {F : Type} (go : GoLib F)
    (field : models.CHField) (v : String)
    (hs : field.IsString = true) (ha : field.IsArray = false) :
    MatchClause.String go { Field := field, Value := .str v } =
      "(" ++ field.CHName ++ " = '" ++ v ++ "')" := by
  simp [MatchClause.String, hs, ha, Value.fmtV]

open queries in
/-- C3 (witness): the amended rendering at the field `status` and the value `a'b`. -/
theorem C3_MatchClause_String_scalar_string_witness :
    (models.CHField.mk "status" "String").IsString = true ∧
    (models.CHField.mk "status" "String").IsArray = false ∧
    MatchClause.String GoLib.ascii
        { Field := models.CHField.mk "status" "String", Value := .str "a'b" } =
      "(" ++ (models.CHField.mk "status" "String").CHName ++ " = '" ++ "a'b" ++ "')" :=
  ⟨by decide, by decide,
    C3_MatchClause_String_scalar_string GoLib.ascii (models.CHField.mk "status" "String")
      "a'b" (by decide) (by decide)⟩

open queries in
/-- C4: a RangeClause flagged as applying to an array field, or with an empty field
name, renders the empty string; otherwise it renders `(lo OP1 f AND f OP2 hi)`
with `<` for a strict bound and `<=` for an inclusive one.  Lower bound 100
inclusive and upper bound 500 exclusive on `line` render
`(100 <= line AND line < 500)`. -/
theorem C4_RangeClause_String {F : Type} (go : GoLib F) (rc : RangeClause F) :
    rc.String go =
      (if rc.ArrayVal = true ∨ rc.field = "" then ""
        else "(" ++ go.fmtFloat rc.low.value ++ (if rc.low.strict then " < " else " <= ") ++
          rc.field ++ " AND " ++ rc.field ++ (if rc.high.strict then " < " else " <= ") ++
          go.fmtFloat rc.high.value ++ ")") ∧
    (((NewRange GoLib.ascii "line" false).AddLower 100 false).AddUpper 500 true).String
        GoLib.ascii = "(100 <= line AND line < 500)" := by
  refine ⟨?_, by decide⟩
  unfold RangeClause.String RangeClause.buildLow RangeClause.buildHigh
  by_cases ha : rc.ArrayVal = true <;> by_cases hf : rc.field = "" <;>
    by_cases hl : rc.low.strict = true <;> by_cases hh : rc.high.strict = true <;>
    simp [ha, hf, hl, hh, String.append_assoc]

/-- The fragment of a section whose children yield the fragments `qs`: the join
wrapped by the format of the section, or nothing when the join is empty. -/
theorem queries.buildChildQueriesStr_eq (qs : List String) (glue : String)
    (format : String → String) (h : ∀ s ∈ qs, s ≠ "") :
    queries.buildChildQueriesStr qs glue format =
      if qs = [] then "" else format (strings.Join qs glue) := by
  unfold queries.buildChildQueriesStr
  by_cases hq : qs = []
  · simp [hq, strings.Join]
  · have hj : strings.Join qs glue ≠ "" := fun hj =>
      hq ((strings.Join_eq_empty_iff qs glue h).mp hj)
    simp [hq, hj]

open queries in
/-- C5: a MustSection, MustNotSection, ShouldSection or FilterSection renders the
empty string if and only if it has no children or every child renders the empty
string; a non-empty rendering is an opening parenthesis, a non-empty body and a
closing parenthesis, so it is never `()`. -/
theorem C5_Section_String_empty_iff {F : Type} (go : GoLib F) (kind : SectionKind)
    (children : List (Clause F))
    (hk : kind = .mustSection ∨ kind = .mustNotSection ∨ kind = .shouldSection ∨
      kind = .filterSection) :
    (Section.String go (.mk kind children) = "" ↔
      (children = [] ∨ ∀ c ∈ children, Clause.String go c = "")) ∧
    (Section.String go (.mk kind children) = "" ∨
      ∃ body : String, body ≠ "" ∧
        Section.String go (.mk kind children) = "(" ++ body ++ ")") := by
  have hne := buildChildQueries_ne_empty go children
  have hnil := buildChildQueries_eq_nil_iff go children
  have hall : (children = [] ∨ ∀ c ∈ children, Clause.String go c = "") ↔
      ∀ c ∈ children, Clause.String go c = "" := by
    constructor
    · rintro (h | h)
      · subst h; simp
      · exact h
    · exact Or.inr
  rw [Section_String_mk, hall, ← hnil]
  by_cases hq : buildChildQueries go children = []
  · rcases hk with h | h | h | h <;> subst h <;>
      simp [SectionKind.render, buildChildQueriesStr, hq, strings.Join]
  · have hj : ∀ glue, strings.Join (buildChildQueries go children) glue ≠ "" := fun glue hj =>
      hq ((strings.Join_eq_empty_iff _ glue hne).mp hj)
    rcases hk with h | h | h | h <;> subst h <;>
      simp only [SectionKind.render, buildChildQueriesStr_eq _ _ _ hne, hq, if_false]
    · exact ⟨by simp [String.ext_iff], Or.inr ⟨_, hj " AND ", rfl⟩⟩
    · refine ⟨by simp [String.ext_iff], Or.inr ⟨" NOT " ++
        strings.Join (buildChildQueries go children) " AND NOT", ?_, ?_⟩⟩
      · simp [String.ext_iff]
      · simp [String.ext_iff]
    · exact ⟨by simp [String.ext_iff], Or.inr ⟨_, hj " OR ", rfl⟩⟩
    · exact ⟨by simp [String.ext_iff], Or.inr ⟨_, hj " AND ", rfl⟩⟩

open queries in
/-- C5 (witness): a must section with the children `exists pid` and an unknown clause. -/
theorem C5_Section_String_empty_iff_witness :
    (SectionKind.mustSection = .mustSection ∨ SectionKind.mustSection = .mustNotSection ∨
      SectionKind.mustSection = .shouldSection ∨ SectionKind.mustSection = .filterSection) ∧
    ((Section.String GoLib.ascii
          (.mk .mustSection [Clause.existsClause "pid", Clause.unknownClause]) = "" ↔
        ([Clause.existsClause "pid", Clause.unknownClause] = ([] : List (Clause Int)) ∨
          ∀ c ∈ [Clause.existsClause "pid", Clause.unknownClause],
            Clause.String GoLib.ascii c = "")) ∧
      (Section.String GoLib.ascii
          (.mk .mustSection [Clause.existsClause "pid", Clause.unknownClause]) = "" ∨
        ∃ body : String, body ≠ "" ∧
          Section.String GoLib.ascii
              (.mk .mustSection [Clause.existsClause "pid", Clause.unknownClause]) =
            "(" ++ body ++ ")")) :=
  ⟨Or.inl rfl,
    C5_Section_String_empty_iff GoLib.ascii .mustSection
      [Clause.existsClause "pid", Clause.unknownClause] (Or.inl rfl)⟩

open queries in
/-- C6 (counterexample): a section whose only child is `exists pid` does not render
that child's fragment `(isNotNull(pid))`: a must section wraps it in one more pair
of parentheses and a must-not section also adds the operator NOT. -/
theorem C6_single_child_not_verbatim :
    Clause.String GoLib.ascii (Clause.existsClause "pid") = "(isNotNull(pid))" ∧
    Section.String GoLib.ascii (.mk .mustSection [Clause.existsClause "pid"]) =
      "((isNotNull(pid)))" ∧
    Section.String GoLib.ascii (.mk .mustNotSection [Clause.existsClause "pid"]) =
      "( NOT (isNotNull(pid)))" ∧
    Section.String GoLib.ascii (.mk .mustSection [Clause.existsClause "pid"]) ≠
      Clause.String GoLib.ascii (Clause.existsClause "pid") ∧
    Section.String GoLib.ascii (.mk .mustNotSection [Clause.existsClause "pid"]) ≠
      Clause.String GoLib.ascii (Clause.existsClause "pid") := by
  decide

open queries in
/-- C6 (amended): a section whose only child has the non-empty fragment f renders f
inside the format of the section and adds no glue operator: `(f)` for must, should
and filter, `( NOT f)` for must-not. -/
theorem C6_Section_String_single_child {F : Type} (go : GoLib F) (c : Clause F)
    (h : Clause.String go c ≠ "") :
    Section.String go (.mk .mustSection [c]) = "(" ++ Clause.String go c ++ ")" ∧
    Section.String go (.mk .mustNotSection [c]) = "( NOT " ++ Clause.String go c ++ ")" ∧
    Section.String go (.mk .shouldSection [c]) = "(" ++ Clause.String go c ++ ")" ∧
    Section.String go (.mk .filterSection [c]) = "(" ++ Clause.String go c ++ ")" := by
  have hq : buildChildQueries go [c] = [Clause.String go c] := by
    rw [buildChildQueries_eq_filter]
    simp [h]
  simp [Section_String_mk, hq, SectionKind.render, buildChildQueriesStr, strings.Join, h]

open queries in
/-- C6 (witness): the amended rendering for the only child `exists pid`. -/
theorem C6_Section_String_single_child_witness :
    Clause.String GoLib.ascii (Clause.existsClause "pid") ≠ "" ∧
    (Section.String GoLib.ascii (.mk .mustSection [Clause.existsClause "pid"]) =
        "(" ++ Clause.String GoLib.ascii (Clause.existsClause "pid") ++ ")" ∧
      Section.String GoLib.ascii (.mk .mustNotSection [Clause.existsClause "pid"]) =
        "( NOT " ++ Clause.String GoLib.ascii (Clause.existsClause "pid") ++ ")" ∧
      Section.String GoLib.ascii (.mk .shouldSection [Clause.existsClause "pid"]) =
        "(" ++ Clause.String GoLib.ascii (Clause.existsClause "pid") ++ ")" ∧
      Section.String GoLib.ascii (.mk .filterSection [Clause.existsClause "pid"]) =
        "(" ++ Clause.String GoLib.ascii (Clause.existsClause "pid") ++ ")") :=
  ⟨by decide, C6_Section_String_single_child GoLib.ascii (Clause.existsClause "pid")
    (by decide)⟩

/-! ## Tokens -/

theorem keepUnseen_eq_filter (seen xs : List String) :
    keepUnseen seen xs = (keepFirstOccurrences xs).filter (fun y => decide (y ∉ seen)) := by
  induction xs generalizing seen with
  | nil => simp [keepUnseen, keepFirstOccurrences]
  | cons x xs ih =>
    by_cases hx : x ∈ seen
    · simp only [keepUnseen, hx, if_true, keepFirstOccurrences, ih]
      rw [List.filter_cons_of_neg (by simpa using hx), List.filter_filter]
      apply List.filter_congr
      intro y _
      by_cases hy : y ∈ seen
      · simp [hy]
      · have : y ≠ x := fun h => hy (h ▸ hx)
        simp [hy, this]
    · simp only [keepUnseen, hx, if_false, keepFirstOccurrences, ih]
      rw [List.filter_cons_of_pos (by simpa using hx), List.filter_filter]
      congr 1
      apply List.filter_congr
      intro y _
      by_cases hy : y = x <;> simp [hy, hx]

theorem keepUnseen_nil (xs : List String) : keepUnseen [] xs = keepFirstOccurrences xs := by
  rw [keepUnseen_eq_filter]
  simp

theorem mem_keepFirstOccurrences (xs : List String) (t : String) :
    t ∈ keepFirstOccurrences xs ↔ t ∈ xs := by
  induction xs with
  | nil => simp [keepFirstOccurrences]
  | cons x xs ih =>
    by_cases h : t = x <;> simp [keepFirstOccurrences, List.mem_filter, ih, h]

theorem nodup_keepFirstOccurrences (xs : List String) : (keepFirstOccurrences xs).Nodup := by
  induction xs with
  | nil => simp [keepFirstOccurrences]
  | cons x xs ih =>
    simp only [keepFirstOccurrences, List.nodup_cons]
    exact ⟨by simp [List.mem_filter], ih.filter _⟩

/-- The loop of `GetTokens` appends to `result` the first occurrences of the words
that are no stopwords and were not counted before. -/
theorem index.GetTokens_loop (tokens : List String) (st : index.tokenLoop)
    (seen : List String) (hinv : ∀ w, 0 < st.uniqWords w ↔ w ∈ seen) :
    (tokens.foldl index.GetTokens.step st).result =
      st.result ++ keepUnseen seen
        (tokens.filter (fun piece => !index.gateLogsWordsToOmits.contains piece)) := by
  induction tokens generalizing st seen with
  | nil => simp [keepUnseen]
  | cons y ys ih =>
    rw [List.foldl_cons]
    by_cases hstop : y ∈ index.gateLogsWordsToOmits
    · have hstep : index.GetTokens.step st y = st := by simp [index.GetTokens.step, hstop]
      rw [hstep, ih st seen hinv, List.filter_cons_of_neg (by simp [hstop])]
    · rw [List.filter_cons_of_pos (by simpa using hstop)]
      by_cases hy : y ∈ seen
      · have hpos : 0 < st.uniqWords y := (hinv y).mpr hy
        have hstep : index.GetTokens.step st y =
            { st with uniqWords := Function.update st.uniqWords y (st.uniqWords y + 1) } := by
          simp [index.GetTokens.step, hstop, hpos]
        rw [hstep, ih _ seen ?_]
        · simp [keepUnseen, hy]
        · intro w
          by_cases hw : w = y
          · subst hw; simp [hy]
          · simp [Function.update_noteq hw, hinv w]
      · have hzero : st.uniqWords y = 0 := by
          have := (hinv y).not.mpr hy
          omega
        have hstep : index.GetTokens.step st y =
            { result := st.result ++ [y],
              uniqWords := Function.update st.uniqWords y (st.uniqWords y + 1) } := by
          simp [index.GetTokens.step, hstop, hzero]
        rw [hstep, ih _ (y :: seen) ?_]
        · simp [keepUnseen, hy]
        · intro w
          by_cases hw : w = y
          · subst hw; simp
          · simp [Function.update_noteq hw, hinv w, hw]

/-- C7: GetTokens equals the reference pipeline (lower-case, split on runs of
non-word characters, drop stopwords, keep first occurrences in first-seen order);
its result has no duplicates, no stopword and no empty token; the path
`/data/pmx/vendor/eco/connection-manager/src/DB.php` yields connection, manager, db. -/
theorem C7_GetTokens_eq_reference {F : Type} (go : GoLib F) (text : String) :
    index.GetTokens go text = referenceTokens go text ∧
    (index.GetTokens go text).Nodup ∧
    (∀ t ∈ index.GetTokens go text, t ∉ index.gateLogsWordsToOmits ∧ t ≠ "") ∧
    index.GetTokens GoLib.ascii "/data/pmx/vendor/eco/connection-manager/src/DB.php" =
      ["connection", "manager", "db"] := by
  have heq : index.GetTokens go text = referenceTokens go text := by
    unfold index.GetTokens referenceTokens
    simp only []
    rw [index.GetTokens_loop _ _ [] (by simp), keepUnseen_nil]
    simp
  refine ⟨heq, ?_, ?_, by decide⟩
  · rw [heq]
    exact nodup_keepFirstOccurrences _
  · intro t ht
    rw [heq, referenceTokens, mem_keepFirstOccurrences, List.mem_filter] at ht
    have hns : t ∉ index.gateLogsWordsToOmits := by simpa using ht.2
    refine ⟨hns, ?_⟩
    intro h
    apply hns
    rw [h]
    decide

/-! ## The inverted-index request -/

/-- Trimming removes one trailing blank after a text that starts and ends with
characters that are no white space. -/
theorem strings.TrimSpace_core (a z : Char) (m : List Char)
    (ha : strings.isSpace a = false) (hz : strings.isSpace z = false) :
    strings.TrimSpace ⟨a :: (m ++ [z, ' '])⟩ = ⟨a :: (m ++ [z])⟩ := by
  have hsp : strings.isSpace ' ' = true := by decide
  simp [strings.TrimSpace, strings.trimRight, List.dropWhile, ha, hz, hsp]

theorem index.generateWhere_of_ne_nil (tokens : List String) (column : String)
    (h : tokens ≠ []) :
    index.generateWhere tokens column =
      "(word_hash IN (" ++ strings.Join (tokens.map (fun t => "cityHash64('" ++ t ++ "')")) ","
        ++ ") AND column_hash = cityHash64('" ++ column ++ "'))" := by
  have hl : tokens.length ≠ 0 := by simpa using h
  simp [index.generateWhere, hl, String.ext_iff]

set_option maxRecDepth 8000 in
/-- The request built for a non-empty token list and a non-empty time range. -/
theorem index.createInvertedIndexRequest_build (tokens : List String) (c T r : String)
    (ht : tokens ≠ []) (hr : r ≠ "") :
    ((index.createInvertedIndexRequest tokens c T).WhereAnd r).Build =
      "SELECT ts FROM logs." ++ T ++ " WHERE (word_hash IN (" ++
        strings.Join (tokens.map (fun t => "cityHash64('" ++ t ++ "')")) "," ++
        ") AND column_hash = cityHash64('" ++ c ++ "')) AND (" ++ r ++
        ") GROUP BY ts HAVING uniq(word_hash) = " ++ toString tokens.length ++
        " ORDER BY ts DESC" ++ " " := by
  have hw : index.generateWhere tokens c ≠ "" := by
    rw [index.generateWhere_of_ne_nil tokens c ht]
    simp [String.ext_iff]
  have hh : "uniq(word_hash) = " ++ toString tokens.length ≠ "" := by
    simp [String.ext_iff]
  have hts : ("ts" : String) ≠ "" := by decide
  have hww : "WHERE " ++ index.generateWhere tokens c ≠ "" := by
    simp [String.ext_iff]
  simp only [index.createInvertedIndexRequest, db.NewRequest, db.Request.Where,
    db.Request.GroupBy, db.Request.Having, db.Request.OrderBy, db.Request.WhereAnd,
    db.Request.Build, bne_iff_ne, ne_eq, hw, hr, hh, hts, hww, not_false_eq_true, if_true,
    Bool.and_self, Bool.and_true, decide_True, decide_not, Bool.not_eq_true, if_false,
    Bool.false_eq_true]
  rw [index.generateWhere_of_ne_nil tokens c ht]
  have hrd : ¬ r.data = [] := fun h => hr (String.ext h)
  simp [db.DataBaseName, db.DESC, String.ext_iff, hrd]

theorem strings.TrimSpace_append_blank (s : String) (a z : Char) (m : List Char)
    (hs : s.data = a :: (m ++ [z]))
    (ha : strings.isSpace a = false) (hz : strings.isSpace z = false) :
    strings.TrimSpace (s ++ " ") = s := by
  have h1 : s ++ " " = ⟨a :: (m ++ [z, ' '])⟩ := by
    apply String.ext
    simp [String.data_append, hs]
  rw [h1, strings.TrimSpace_core a z m ha hz]
  exact String.ext hs.symm

/-- C8: for a text with at least one token and a non-empty time-range condition r,
the request built by createInvertedIndexRequest(GetTokens(text), c, T).WhereAnd(r),
with surrounding white space trimmed, selects ts from logs.T where the word hash
is one of the token hashes and the column hash is that of c, ANDed with (r),
grouped by ts, having as many distinct word hashes as tokens, most recent first. -/
theorem C8_inverted_index_request {F : Type} (go : GoLib F) (text c T r : String)
    (ht : index.GetTokens go text ≠ []) (hr : r ≠ "") :
    strings.TrimSpace
        ((index.createInvertedIndexRequest (index.GetTokens go text) c T).WhereAnd r).Build =
      "SELECT ts FROM logs." ++ T ++ " WHERE (word_hash IN (" ++
        strings.Join ((index.GetTokens go text).map (fun t => "cityHash64('" ++ t ++ "')")) ","
        ++ ") AND column_hash = cityHash64('" ++ c ++ "')) AND (" ++ r ++
        ") GROUP BY ts HAVING uniq(word_hash) = " ++
        toString (index.GetTokens go text).length ++ " ORDER BY ts DESC" := by
  rw [index.createInvertedIndexRequest_build _ c T r ht hr]
  apply strings.TrimSpace_append_blank _ 'S' 'C'
    ("ELECT ts FROM logs.".data ++ T.data ++ " WHERE (word_hash IN (".data ++
      (strings.Join ((index.GetTokens go text).map (fun t => "cityHash64('" ++ t ++ "')"))
        ",").data ++
      ") AND column_hash = cityHash64('".data ++ c.data ++ "')) AND (".data ++ r.data ++
      ") GROUP BY ts HAVING uniq(word_hash) = ".data ++
      (toString (index.GetTokens go text).length).data ++ " ORDER BY ts DES".data)
  · simp [String.data_append]
  · decide
  · decide

set_option maxRecDepth 100000 in
/-- C8 (witness): the request for the file path of the repository's test, which has
the tokens connection, manager, db, and the text that test expects. -/
theorem C8_inverted_index_request_witness :
    index.GetTokens GoLib.ascii "/data/pmx/vendor/eco/connection-manager/src/DB.php" ≠ [] ∧
    "(0 < ts) AND (ts <= 1542894389181529000)" ≠ "" ∧
    strings.TrimSpace
        ((index.createInvertedIndexRequest
          (index.GetTokens GoLib.ascii "/data/pmx/vendor/eco/connection-manager/src/DB.php")
          "file" "logs.inverted_index_logs_2p").WhereAnd
            "(0 < ts) AND (ts <= 1542894389181529000)").Build =
      "SELECT ts FROM logs." ++ "logs.inverted_index_logs_2p" ++ " WHERE (word_hash IN (" ++
        strings.Join
          ((index.GetTokens GoLib.ascii
            "/data/pmx/vendor/eco/connection-manager/src/DB.php").map
              (fun t => "cityHash64('" ++ t ++ "')")) ","
        ++ ") AND column_hash = cityHash64('" ++ "file" ++ "')) AND (" ++
        "(0 < ts) AND (ts <= 1542894389181529000)" ++
        ") GROUP BY ts HAVING uniq(word_hash) = " ++
        toString (index.GetTokens GoLib.ascii
          "/data/pmx/vendor/eco/connection-manager/src/DB.php").length ++
        " ORDER BY ts DESC" ∧
    strings.TrimSpace
        ((index.createInvertedIndexRequest
          (index.GetTokens GoLib.ascii "/data/pmx/vendor/eco/connection-manager/src/DB.php")
          "file" "logs.inverted_index_logs_2p").WhereAnd
            "(0 < ts) AND (ts <= 1542894389181529000)").Build =
      "SELECT ts FROM logs.logs.inverted_index_logs_2p WHERE (word_hash IN (cityHash64('connection'),cityHash64('manager'),cityHash64('db')) AND column_hash = cityHash64('file')) AND ((0 < ts) AND (ts <= 1542894389181529000)) GROUP BY ts HAVING uniq(word_hash) = 3 ORDER BY ts DESC" :=
  ⟨by decide, by decide,
    C8_inverted_index_request GoLib.ascii "/data/pmx/vendor/eco/connection-manager/src/DB.php"
      "file" "logs.inverted_index_logs_2p" "(0 < ts) AND (ts <= 1542894389181529000)"
      (by decide) (by decide),
    by decide⟩

/-! ## Field-match items -/

theorem db.Request.WhereAnd_where (t : db.Request) (cond : String) :
    (t.WhereAnd cond).«where» =
      if cond ≠ "" ∧ t.«where» ≠ "" then t.«where» ++ (" AND (" ++ cond ++ ")")
      else if cond ≠ "" then "WHERE " ++ cond else t.«where» := by
  unfold db.Request.WhereAnd db.Request.Where
  by_cases hc : cond = "" <;> by_cases hw : t.«where» = "" <;> simp [hc, hw]

theorem index.createInvertedIndexRequest_where (tokens : List String) (c T : String) :
    (index.createInvertedIndexRequest tokens c T).«where» =
      if index.generateWhere tokens c = "" then ""
      else "WHERE " ++ index.generateWhere tokens c := by
  have hg : ∀ (t : db.Request) (v : String), (t.GroupBy v).«where» = t.«where» := by
    intro t v
    unfold db.Request.GroupBy
    split <;> rfl
  have hh : ∀ (t : db.Request) (v : String), (t.Having v).«where» = t.«where» := by
    intro t v
    unfold db.Request.Having
    split <;> rfl
  have ho : ∀ (t : db.Request) (v : String) (o : List String),
      (t.OrderBy v o).«where» = t.«where» := by
    intro t v o
    unfold db.Request.OrderBy
    split
    · split <;> rfl
    · rfl
  simp only [index.createInvertedIndexRequest, hg, hh, ho]
  unfold db.Request.Where
  by_cases hw : index.generateWhere tokens c = "" <;> simp [hw, db.NewRequest]

open queries in
/-- C9: the residual filter returned by CreateFullTextSearchConditions is the join
with AND, over the tokens t of the search text in order, of
`(positionCaseInsensitive(c, 't') != 0)`; a field-match item with an index table
and a timestamp column renders `op (ts-column IN (sub-query) AND residual-filter)`,
where the sub-query is the inverted-index request for the tokens of the item after
WhereAnd of the time-range fragment, which is ANDed into its WHERE clause when
there are tokens and the fragment is not empty. -/
theorem C9_fieldMatch_toString_indexed {F : Type} (go : GoLib F) (x c T : String)
    (fm : fieldMatch) (wildCards : Bool) (r : RangeClause F)
    (hi : fm.indexTable ≠ "") (hts : fm.tsColumn ≠ "") :
    (index.CreateFullTextSearchConditions go x c T).2 =
      strings.Join ((index.GetTokens go x).map
        (fun t => "(positionCaseInsensitive(" ++ c ++ ", '" ++ t ++ "') != 0)")) " AND " ∧
    fm.toString go wildCards r =
      fm.logicalOp ++ " (" ++ fm.tsColumn ++ " IN (" ++
        ((index.createInvertedIndexRequest (index.GetTokens go fm.expr) fm.field.CHName
          fm.indexTable).WhereAnd (r.String go)).Build ++
        ") AND " ++
        (index.CreateFullTextSearchConditions go fm.expr fm.field.CHName fm.indexTable).2 ++
        ")" ∧
    (index.GetTokens go fm.expr = [] ∨ r.String go = "" ∨
      ((index.createInvertedIndexRequest (index.GetTokens go fm.expr) fm.field.CHName
          fm.indexTable).WhereAnd (r.String go)).«where» =
        "WHERE " ++ index.generateWhere (index.GetTokens go fm.expr) fm.field.CHName ++
          " AND (" ++ r.String go ++ ")") := by
  refine ⟨rfl, ?_, ?_⟩
  · simp [fieldMatch.toString, hi, hts, index.CreateFullTextSearchConditions]
  · by_cases ht : index.GetTokens go fm.expr = []
    · exact Or.inl ht
    · by_cases hr : r.String go = ""
      · exact Or.inr (Or.inl hr)
      · refine Or.inr (Or.inr ?_)
        have hw : index.generateWhere (index.GetTokens go fm.expr) fm.field.CHName ≠ "" := by
          rw [index.generateWhere_of_ne_nil _ _ ht]
          simp [String.ext_iff]
        rw [db.Request.WhereAnd_where, index.createInvertedIndexRequest_where]
        have hww : "WHERE " ++
            index.generateWhere (index.GetTokens go fm.expr) fm.field.CHName ≠ "" := by
          simp [String.ext_iff]
        simp [hw, hr, hww, String.append_assoc]

set_option maxRecDepth 20000 in
open queries in
/-- C9 (witness): the indexed item for `and file:"DB"` under a time range on `ts`. -/
theorem C9_fieldMatch_toString_indexed_witness :
    sampleIndexedMatch.indexTable ≠ "" ∧ sampleIndexedMatch.tsColumn ≠ "" ∧
    ((index.CreateFullTextSearchConditions GoLib.ascii "Worker callback_0" "message"
          "inverted_index_gate").2 =
        strings.Join ((index.GetTokens GoLib.ascii "Worker callback_0").map
          (fun t => "(positionCaseInsensitive(" ++ "message" ++ ", '" ++ t ++ "') != 0)"))
          " AND " ∧
      sampleIndexedMatch.toString GoLib.ascii true sampleTimeRange =
        sampleIndexedMatch.logicalOp ++ " (" ++ sampleIndexedMatch.tsColumn ++ " IN (" ++
          ((index.createInvertedIndexRequest
            (index.GetTokens GoLib.ascii sampleIndexedMatch.expr)
            sampleIndexedMatch.field.CHName sampleIndexedMatch.indexTable).WhereAnd
              (sampleTimeRange.String GoLib.ascii)).Build ++
          ") AND " ++
          (index.CreateFullTextSearchConditions GoLib.ascii sampleIndexedMatch.expr
            sampleIndexedMatch.field.CHName sampleIndexedMatch.indexTable).2 ++
          ")" ∧
      (index.GetTokens GoLib.ascii sampleIndexedMatch.expr = [] ∨
        sampleTimeRange.String GoLib.ascii = "" ∨
        ((index.createInvertedIndexRequest
            (index.GetTokens GoLib.ascii sampleIndexedMatch.expr)
            sampleIndexedMatch.field.CHName sampleIndexedMatch.indexTable).WhereAnd
              (sampleTimeRange.String GoLib.ascii)).«where» =
          "WHERE " ++ index.generateWhere
              (index.GetTokens GoLib.ascii sampleIndexedMatch.expr)
              sampleIndexedMatch.field.CHName ++
            " AND (" ++ sampleTimeRange.String GoLib.ascii ++ ")")) ∧
    sampleIndexedMatch.toString GoLib.ascii true sampleTimeRange =
      " and (ts IN (SELECT ts FROM logs.inverted_index_gate WHERE (word_hash IN (cityHash64('db')) AND column_hash = cityHash64('file')) AND ((0 < ts AND ts <= 100)) GROUP BY ts HAVING uniq(word_hash) = 1 ORDER BY ts DESC ) AND (positionCaseInsensitive(file, 'db') != 0))" :=
  ⟨by decide, by decide,
    C9_fieldMatch_toString_indexed GoLib.ascii "Worker callback_0" "message"
      "inverted_index_gate" sampleIndexedMatch true sampleTimeRange (by decide) (by decide),
    by decide⟩

open queries in
/-- C10: with wildcards enabled, the item without index table on the string column
`status` and the raw text `"a b"`, whose stripped text `a b` holds none of the
characters `?`, `&`, `*`, renders the pattern match ` like(status, '%a b%')` and
not the position check ` (position(status, 'a b') != 0)`: the blanks of the
character set `? & *` count as wildcard characters. -/
theorem C10_fieldMatch_toString_blank {F : Type} (go : GoLib F) (r : RangeClause F) :
    strings.Trim "\"a b\"" "\"" = "a b" ∧
    strings.ContainsAny "a b" "?&*" = false ∧
    fieldMatch.toString go
        { logicalOp := "", field := { CHName := "status", CHType := "String" },
          expr := "\"a b\"" } true r =
      " like(status, '%a b%')" ∧
    fieldMatch.toString go
        { logicalOp := "", field := { CHName := "status", CHType := "String" },
          expr := "\"a b\"" } true r ≠
      " (position(status, 'a b') != 0)" := by
  have hnum : (models.CHField.mk "status" "String").IsNumeric = false := by decide
  have htrim : strings.Trim "\"a b\"" "\"" = "a b" := by decide
  have hany : strings.ContainsAny "a b" "? & *" = true := by decide
  have hrep : "%" ++ strings.ReplaceChar (strings.ReplaceChar "a b" '*' '%') '?' '_' ++ "%" =
      "%a b%" := by decide
  have h : fieldMatch.toString go
      { logicalOp := "", field := { CHName := "status", CHType := "String" },
        expr := "\"a b\"" } true r = " like(status, '%a b%')" := by
    simp only [fieldMatch.toString, hnum, htrim, hany, hrep]
    simp
  refine ⟨htrim, by decide, h, ?_⟩
  rw [h]
  decide

/-! ## The query-string parser -/

theorem strings.mem_TrimSpace (s : String) (c : Char) (h : c ∈ (strings.TrimSpace s).data) :
    c ∈ s.data := by
  simp only [strings.TrimSpace, strings.trimRight, List.mem_reverse] at h
  have h1 := (List.dropWhile_suffix _).subset h
  rw [List.mem_reverse] at h1
  exact (List.dropWhile_suffix _).subset h1

theorem queries.splitQuery_no_colon (query : String) (h : ':' ∉ query.data) :
    queries.splitQuery query = [strings.TrimSpace query] := by
  have h2 : ':' ∉ (strings.TrimSpace query).data := fun hc => h (strings.mem_TrimSpace _ _ hc)
  simp [queries.splitQuery, strings.ContainsChar, h2]

/-- The loop of `createAllIndexedColsSearchQuery` when a timestamp column exists. -/
theorem queries.createAllIndexedColsSearchQuery_loop (tableInfo : models.ModelInfo)
    (tsColumn : models.FieldProps) (expr : String) (entries : List (String × models.FieldProps))
    (st : queries.indexedColsLoop) :
    (entries.foldl
      (fun (st : queries.indexedColsLoop) entry =>
        match some tsColumn with
        | some tsColumn =>
          if entry.2.FullTextSearch then
            { items := st.items ++ [queries.queryItem.fieldMatch
                { field := entry.2.toCHField
                  expr := expr
                  logicalOp := st.logicalOp
                  indexTable := index.GetInvertedIndexTableName tableInfo.DBName
                  tsColumn := tsColumn.CHName }]
              logicalOp := "OR" }
          else st
        | none => st) st).items =
      st.items ++
        (match entries.filter (fun entry => entry.2.FullTextSearch) with
          | [] => []
          | first :: later =>
            shortNotationItem tableInfo tsColumn expr st.logicalOp first ::
              later.map (shortNotationItem tableInfo tsColumn expr "OR")) := by
  induction entries generalizing st with
  | nil => simp
  | cons e es ih =>
    rw [List.foldl_cons, ih]
    by_cases hf : e.2.FullTextSearch = true
    · simp only [hf, if_true, List.filter_cons_of_pos]
      cases hes : es.filter (fun entry => entry.2.FullTextSearch) with
      | nil => simp [shortNotationItem, index.GetInvertedIndexTableName]
      | cons f fs => simp [shortNotationItem, index.GetInvertedIndexTableName]
    · simp [hf]

theorem shortNotationItems_length (tableInfo : models.ModelInfo)
    (tsColumn : models.FieldProps) (expr : String) :
    (shortNotationItems tableInfo tsColumn expr).length =
      (tableInfo.DataFields.filter (fun entry => entry.2.FullTextSearch)).length := by
  unfold shortNotationItems
  cases h : tableInfo.DataFields.filter (fun entry => entry.2.FullTextSearch) with
  | nil => simp
  | cons first later => simp

/-- C11 (counterexample): for the bare term `error` a schema with one
full-text-indexed column and no timestamp column yields no item at all; and for
the quoted term `"error"` the items search for the stripped text `error`. -/
theorem C11_short_notation_counterexample :
    (models.sampleNoTimestamp.DataFields.filter
      (fun entry => entry.2.FullTextSearch)).length = 1 ∧
    queries.parseMatchQuery GoLib.ascii "error" models.sampleNoTimestamp = some [] ∧
    queries.parseMatchQuery GoLib.ascii "\"error\"" models.sampleGate =
      some
        [queries.queryItem.fieldMatch
          { logicalOp := "", field := { CHName := "file", CHType := "String" },
            expr := "error", indexTable := "inverted_index_gate", tsColumn := "ts" },
         queries.queryItem.fieldMatch
          { logicalOp := "OR", field := { CHName := "message", CHType := "String" },
            expr := "error", indexTable := "inverted_index_gate", tsColumn := "ts" }] := by
  decide

/-- C11 (amended): for every schema and every term t without `:` whose text,
stripped of surrounding white space and double quotes, is not `*`, short-notation
parsing yields, when the schema has a timestamp column, exactly one field-match
item per full-text-indexed column, each searching for the stripped text and routed
through the index, the first without logical operator and every later one with
`OR`; when the schema has no timestamp column it yields no item. -/
theorem C11_short_notation {F : Type} (go : GoLib F) (tableInfo : models.ModelInfo)
    (t : String) (hcolon : ':' ∉ t.data)
    (hstar : strings.Trim (strings.TrimSpace t) "\"" ≠ "*") :
    queries.parseMatchQuery go t tableInfo =
      some (match tableInfo.GetTimestampField with
        | some tsColumn =>
          shortNotationItems tableInfo tsColumn (strings.Trim (strings.TrimSpace t) "\"")
        | none => []) ∧
    ∀ tsColumn : models.FieldProps,
      (shortNotationItems tableInfo tsColumn
        (strings.Trim (strings.TrimSpace t) "\"")).length =
        (tableInfo.DataFields.filter (fun entry => entry.2.FullTextSearch)).length := by
  refine ⟨?_, fun tsColumn => shortNotationItems_length _ _ _⟩
  simp only [queries.parseMatchQuery, queries.splitQuery_no_colon t hcolon, List.length_singleton,
    if_true, queries.parseShortNotation, List.headD_cons, hstar, if_false]
  congr 1
  unfold queries.createAllIndexedColsSearchQuery
  cases hts : tableInfo.GetTimestampField with
  | none =>
    simp only []
    have : ∀ (entries : List (String × models.FieldProps)) (st : queries.indexedColsLoop),
        entries.foldl (fun (st : queries.indexedColsLoop) _entry => st) st = st := by
      intro entries
      induction entries with
      | nil => intro st; rfl
      | cons e es ih => intro st; rw [List.foldl_cons, ih]
    rw [this]
  | some tsColumn =>
    simp only []
    rw [queries.createAllIndexedColsSearchQuery_loop]
    simp [shortNotationItems]

/-- C11 (witness): the bare term `error` on a schema with a timestamp column and the
two full-text-indexed columns `file` and `message` gives two items joined by OR. -/
theorem C11_short_notation_witness :
    ':' ∉ "error".data ∧ strings.Trim (strings.TrimSpace "error") "\"" ≠ "*" ∧
    (queries.parseMatchQuery GoLib.ascii "error" models.sampleGate =
        some (match models.sampleGate.GetTimestampField with
          | some tsColumn =>
            shortNotationItems models.sampleGate tsColumn
              (strings.Trim (strings.TrimSpace "error") "\"")
          | none => []) ∧
      ∀ tsColumn : models.FieldProps,
        (shortNotationItems models.sampleGate tsColumn
          (strings.Trim (strings.TrimSpace "error") "\"")).length =
          (models.sampleGate.DataFields.filter (fun entry => entry.2.FullTextSearch)).length) ∧
    queries.parseMatchQuery GoLib.ascii "error" models.sampleGate =
      some
        [queries.queryItem.fieldMatch
          { logicalOp := "", field := { CHName := "file", CHType := "String" },
            expr := "error", indexTable := "inverted_index_gate", tsColumn := "ts" },
         queries.queryItem.fieldMatch
          { logicalOp := "OR", field := { CHName := "message", CHType := "String" },
            expr := "error", indexTable := "inverted_index_gate", tsColumn := "ts" }] :=
  ⟨by decide, by decide,
    C11_short_notation GoLib.ascii models.sampleGate "error" (by decide) (by decide),
    by decide⟩

/-- An iteration of `parseWideNotation` returns nil exactly when it treats the part
as a match value and the current field is not in the table. -/
theorem queries.parseWideNotation_step_eq_none_iff {F : Type} (go : GoLib F)
    (tableInfo : models.ModelInfo) (st : queries.wideState) (part : String) :
    queries.parseWideNotation.step go tableInfo st part = none ↔
      (st.atMatchValue go part = true ∧ tableInfo.lookup st.currField = none) := by
  unfold queries.parseWideNotation.step queries.wideState.atMatchValue
  by_cases hb : queries.getBraceKind part = 0
  · by_cases hl : queries.isLogicalOp go part = true
    · simp [hb, hl]
    · by_cases hc : part = ":"
      · subst hc
        simp [hb, hl]
      · by_cases hm : st.prev = ":" ∨ (st.currField ≠ "" ∧ st.openedBraces > 0)
        · cases hlook : tableInfo.lookup st.currField with
          | none =>
            rcases hm with hm | hm
            · simp [hb, hl, hc, hm, hlook]
            · simp [hb, hl, hc, hm, hlook]
          | some props =>
            rcases hm with hm | hm
            · simp [hb, hl, hc, hm, hlook]
            · simp [hb, hl, hc, hm, hlook]
        · have h1 : ¬ st.prev = ":" := fun h => hm (Or.inl h)
          have h2 : ¬ (st.currField ≠ "" ∧ st.openedBraces > 0) := fun h => hm (Or.inr h)
          simp only [not_and_or, not_not] at h2
          rcases h2 with h2 | h2
          · simp [hb, hl, hc, h1, h2]
          · simp [hb, hl, hc, h1, h2]
  · simp [hb]

/-- The scan `parseWideNotation` returns nil exactly when, with the parts before
scanned into a state, a part is treated as a match value while the current field
is not in the table. -/
theorem queries.parseWideNotation_foldlM_eq_none_iff {F : Type} (go : GoLib F)
    (tableInfo : models.ModelInfo) (parts : List String) (st0 : queries.wideState) :
    parts.foldlM (queries.parseWideNotation.step go tableInfo) st0 = none ↔
      ∃ (pre : List String) (part : String) (post : List String) (st : queries.wideState),
        parts = pre ++ part :: post ∧
        pre.foldlM (queries.parseWideNotation.step go tableInfo) st0 = some st ∧
        st.atMatchValue go part = true ∧ tableInfo.lookup st.currField = none := by
  induction parts generalizing st0 with
  | nil =>
    simp only [List.foldlM_nil]
    constructor
    · intro h; cases h
    · rintro ⟨pre, part, post, st, h, _⟩
      simp at h
  | cons p ps ih =>
    rw [List.foldlM_cons]
    cases hstep : queries.parseWideNotation.step go tableInfo st0 p with
    | none =>
      simp only [Option.bind_eq_bind, Option.none_bind, true_iff]
      exact ⟨[], p, ps, st0, rfl, rfl,
        (queries.parseWideNotation_step_eq_none_iff go tableInfo st0 p).mp hstep⟩
    | some st1 =>
      simp only [Option.bind_eq_bind, Option.some_bind]
      rw [ih st1]
      constructor
      · rintro ⟨pre, part, post, st, h1, h2, h3, h4⟩
        refine ⟨p :: pre, part, post, st, by simp [h1], ?_, h3, h4⟩
        rw [List.foldlM_cons, hstep]
        exact h2
      · rintro ⟨pre, part, post, st, h1, h2, h3, h4⟩
        cases pre with
        | nil =>
          simp only [List.nil_append, List.cons.injEq] at h1
          simp only [List.foldlM_nil] at h2
          cases h2
          have hnone := (queries.parseWideNotation_step_eq_none_iff go tableInfo st0 part).mpr
            ⟨h3, h4⟩
          rw [← h1.1, hstep] at hnone
          cases hnone
        | cons q qs =>
          simp only [List.cons_append, List.cons.injEq] at h1
          rw [List.foldlM_cons, ← h1.1, hstep] at h2
          exact ⟨qs, part, post, st, h1.2, h2, h3, h4⟩

open queries in
/-- C12: when the scan of a wide-notation query reaches a match value while the
current field name is not in the field table, parsing fails as a whole:
parseWideNotation and parseMatchQuery return nil, whatever parts follow,
NewMatchQueryClause returns no clause, and the request layer puts an
UnknownClause in its place, which renders empty. -/
theorem C12_unknown_field_fails {F : Type} (go : GoLib F) (tableInfo : models.ModelInfo)
    (pre post : List String) (part : String) (st : wideState)
    (hpre : pre.foldlM (parseWideNotation.step go tableInfo) wideState.initial = some st)
    (hval : st.atMatchValue go part = true)
    (habs : tableInfo.lookup st.currField = none) :
    parseWideNotation go (pre ++ part :: post) tableInfo = none ∧
    ∀ (query : String) (analyzeWildCards : Bool), splitQuery query = pre ++ part :: post →
      parseMatchQuery go query tableInfo = none ∧
      NewMatchQueryClause go query analyzeWildCards tableInfo = none ∧
      requests.parseQueryString go tableInfo query analyzeWildCards = Clause.unknownClause ∧
      Clause.String go (requests.parseQueryString go tableInfo query analyzeWildCards) = "" := by
  have hnone : parseWideNotation go (pre ++ part :: post) tableInfo = none := by
    unfold parseWideNotation
    rw [(parseWideNotation_foldlM_eq_none_iff go tableInfo _ _).mpr
      ⟨pre, part, post, st, rfl, hpre, hval, habs⟩]
    rfl
  refine ⟨hnone, ?_⟩
  intro query analyzeWildCards hsplit
  have hlen : (pre ++ part :: post).length ≠ 1 := by
    cases pre with
    | nil =>
      simp only [List.foldlM_nil] at hpre
      cases hpre
      simp [wideState.atMatchValue, wideState.initial] at hval
    | cons q qs => simp
  have hmatch : parseMatchQuery go query tableInfo = none := by
    simp only [parseMatchQuery, hsplit, hlen, if_false, hnone]
  have hnew : NewMatchQueryClause go query analyzeWildCards tableInfo = none := by
    simp only [NewMatchQueryClause, hmatch]
  have hreq : requests.parseQueryString go tableInfo query analyzeWildCards =
      Clause.unknownClause := by
    simp only [requests.parseQueryString, hnew]
  refine ⟨hmatch, hnew, hreq, ?_⟩
  rw [hreq, Clause.String]

set_option maxRecDepth 20000 in
open queries in
/-- C12 (witness): the query `msg:("SQL update" or "SQL select") and file:"DB"` on a
schema without a field `msg`: the scan fails at the part `"SQL update"`. -/
theorem C12_unknown_field_fails_witness :
    (["msg", ":", "("].foldlM (parseWideNotation.step GoLib.ascii models.sampleGate)
        wideState.initial =
      some { items := [queryItem.simpleItem "("], prev := "(", currField := "msg",
             openedBraces := 1, currLogicalOp := "" }) ∧
    wideState.atMatchValue GoLib.ascii
        { items := [queryItem.simpleItem "("], prev := "(", currField := "msg",
          openedBraces := 1, currLogicalOp := "" } "\"SQL update\"" = true ∧
    models.sampleGate.lookup "msg" = none ∧
    splitQuery "msg:(\"SQL update\" or \"SQL select\") and file:\"DB\"" =
      ["msg", ":", "("] ++ "\"SQL update\"" ::
        ["or", "\"SQL select\"", ")", "and", "file", ":", "\"DB\""] ∧
    (parseWideNotation GoLib.ascii
        (["msg", ":", "("] ++ "\"SQL update\"" ::
          ["or", "\"SQL select\"", ")", "and", "file", ":", "\"DB\""])
        models.sampleGate = none ∧
      ∀ (query : String) (analyzeWildCards : Bool),
        splitQuery query = ["msg", ":", "("] ++ "\"SQL update\"" ::
          ["or", "\"SQL select\"", ")", "and", "file", ":", "\"DB\""] →
        parseMatchQuery GoLib.ascii query models.sampleGate = none ∧
        NewMatchQueryClause GoLib.ascii query analyzeWildCards models.sampleGate = none ∧
        requests.parseQueryString GoLib.ascii models.sampleGate query analyzeWildCards =
          Clause.unknownClause ∧
        Clause.String GoLib.ascii
          (requests.parseQueryString GoLib.ascii models.sampleGate query analyzeWildCards) =
          "") :=
  ⟨by decide, by decide, by decide, by decide,
    C12_unknown_field_fails GoLib.ascii models.sampleGate ["msg", ":", "("]
      ["or", "\"SQL select\"", ")", "and", "file", ":", "\"DB\""] "\"SQL update\""
      { items := [queryItem.simpleItem "("], prev := "(", currField := "msg",
        openedBraces := 1, currLogicalOp := "" }
      (by decide) (by decide) (by decide)⟩

/-! ## Date histogram: construction -/

theorem strings.HasSuffix_append_self (m suffix : String) :
    strings.HasSuffix (m ++ suffix) suffix = true := by
  simp [strings.HasSuffix, String.data_append]

theorem strings.TrimSuffix_append_self (m suffix : String) :
    strings.TrimSuffix (m ++ suffix) suffix = m := by
  rw [strings.TrimSuffix, strings.HasSuffix_append_self]
  apply String.ext
  simp [String.data_append]

/-- The unit that `parseHistogramInterval` finds for a text `m` followed by a unit
name; for the name `s` the text must not end in `m`, since `ms` is tried first. -/
theorem aggregations.find_unit (m : String) (item : String × Int)
    (hmem : item ∈ aggregations.intervalUnits)
    (hms : item.1 = "s" → strings.HasSuffix m "m" = false) :
    aggregations.intervalUnits.find? (fun it => strings.HasSuffix (m ++ item.1) it.1) =
      some item := by
  simp only [aggregations.intervalUnits, List.mem_cons, List.mem_singleton,
    List.not_mem_nil, or_false] at hmem
  rcases hmem with h | h | h | h | h | h <;> subst h
  · simp [aggregations.intervalUnits, strings.HasSuffix, String.data_append,
      List.isSuffixOf, List.isPrefixOf]
  · have h2 := hms rfl
    simp only [strings.HasSuffix, List.isSuffixOf] at h2
    have h3 : ['m'].isPrefixOf m.data.reverse = false := by simpa using h2
    simp [aggregations.intervalUnits, strings.HasSuffix, String.data_append,
      List.isSuffixOf, List.isPrefixOf, List.find?, h3]
  · simp [aggregations.intervalUnits, strings.HasSuffix, String.data_append,
      List.isSuffixOf, List.isPrefixOf, List.find?]
  · simp [aggregations.intervalUnits, strings.HasSuffix, String.data_append,
      List.isSuffixOf, List.isPrefixOf, List.find?]
  · simp [aggregations.intervalUnits, strings.HasSuffix, String.data_append,
      List.isSuffixOf, List.isPrefixOf, List.find?]
  · simp [aggregations.intervalUnits, strings.HasSuffix, String.data_append,
      List.isSuffixOf, List.isPrefixOf, List.find?]

theorem wrapInt64_of_fits (n : Int) (hlo : -(2 ^ 63) ≤ n) (hhi : n < 2 ^ 63) :
    wrapInt64 n = n := by
  unfold wrapInt64
  have h63 : (2 : Int) ^ 63 = 9223372036854775808 := by norm_num
  have h64 : (2 : Int) ^ 64 = 18446744073709551616 := by norm_num
  rw [h63] at hlo hhi ⊢
  rw [h64]
  rw [Int.emod_eq_of_lt (by omega) (by omega)]
  omega

/-- C13 (counterexample): the interval `20000w` with a range on the histogram field
is accepted, and the interval of the histogram is not 20000 times a week: the
int64 product wraps around to a negative number. -/
theorem C13_interval_wraps :
    (strconv.Atoi "20000").toOption = some 20000 ∧
    ((aggregations.CreateDateHistogramAgg "20000w" "ts" (some queries.sampleTimeRange)
        false).toOption.map (fun hs => hs.interval)) = some (-6350744073709551616) ∧
    (-6350744073709551616 : Int) ≠ 20000 * aggregations.week := by
  refine ⟨by decide, by decide, by decide⟩

open aggregations in
/-- C13 (amended): CreateDateHistogramAgg returns an error when no unit name (ms, s,
m, h, d, w) is a suffix of the interval string, when the text before the unit
does not parse as an integer, or when the range is absent or bound to another
field; otherwise it returns a histogram on the field whose interval is the int64
product of magnitude and unit duration, which is magnitude times unit duration
whenever that product fits in int64. -/
theorem C13_CreateDateHistogramAgg {F : Type} (m name : String) (unit : Int)
    (fieldName : String) (dataRange : Option (queries.RangeClause F)) (optimization : Bool)
    (hunit : (name, unit) ∈ intervalUnits)
    (hms : name = "s" → strings.HasSuffix m "m" = false) :
    (∀ interval : String, (∀ item ∈ intervalUnits, strings.HasSuffix interval item.1 = false) →
      CreateDateHistogramAgg interval fieldName dataRange optimization =
        .error (.errorsNew "unsupported histogram period units")) ∧
    (∀ err, strconv.Atoi m = .error err →
      CreateDateHistogramAgg (m ++ name) fieldName dataRange optimization = .error err) ∧
    (∀ v, strconv.Atoi m = .ok v →
      (dataRange = none ∨ ∃ r, dataRange = some r ∧ r.field ≠ fieldName) →
      CreateDateHistogramAgg (m ++ name) fieldName dataRange optimization =
        .error (.errorsNew "data range for histogram is not set")) ∧
    (∀ v r, strconv.Atoi m = .ok v → dataRange = some r → r.field = fieldName →
      CreateDateHistogramAgg (m ++ name) fieldName dataRange optimization =
          .ok { fieldName := fieldName, interval := wrapInt64 (unit * v),
                timeOptimization := optimization } ∧
        (-(2 ^ 63) ≤ unit * v → unit * v < 2 ^ 63 → wrapInt64 (unit * v) = unit * v)) := by
  have hfind := find_unit m (name, unit) hunit hms
  simp only at hfind
  refine ⟨?_, ?_, ?_, ?_⟩
  · intro interval hnone
    have : intervalUnits.find? (fun item => strings.HasSuffix interval item.1) = none := by
      rw [List.find?_eq_none]
      intro item hitem
      simp [hnone item hitem]
    simp [CreateDateHistogramAgg, parseHistogramInterval, this]
  · intro err herr
    simp [CreateDateHistogramAgg, parseHistogramInterval, hfind,
      strings.TrimSuffix_append_self, herr]
  · intro v hv hrange
    rcases hrange with h | ⟨r, h, hne⟩
    · simp [CreateDateHistogramAgg, parseHistogramInterval, hfind,
        strings.TrimSuffix_append_self, hv, h]
    · simp [CreateDateHistogramAgg, parseHistogramInterval, hfind,
        strings.TrimSuffix_append_self, hv, h, hne]
  · intro v r hv hr hfield
    refine ⟨?_, wrapInt64_of_fits _⟩
    simp [CreateDateHistogramAgg, parseHistogramInterval, hfind,
      strings.TrimSuffix_append_self, hv, hr, hfield, histogramInterval.calcInterval]

open aggregations in
/-- C13 (witness): the intervals `30s`, `2w` and `30x` with a range on the field `ts`:
30,000,000,000 ns, twice seven days, and a construction error. -/
theorem C13_CreateDateHistogramAgg_witness :
    (("s", Second) ∈ intervalUnits) ∧ (("s" : String) = "s" → strings.HasSuffix "30" "m" = false) ∧
    ((∀ interval : String,
        (∀ item ∈ intervalUnits, strings.HasSuffix interval item.1 = false) →
        CreateDateHistogramAgg interval "ts" (some queries.sampleTimeRange) true =
          .error (.errorsNew "unsupported histogram period units")) ∧
      (∀ err, strconv.Atoi "30" = .error err →
        CreateDateHistogramAgg ("30" ++ "s") "ts" (some queries.sampleTimeRange) true =
          .error err) ∧
      (∀ v, strconv.Atoi "30" = .ok v →
        (some queries.sampleTimeRange = none ∨
          ∃ r, some queries.sampleTimeRange = some r ∧ r.field ≠ "ts") →
        CreateDateHistogramAgg ("30" ++ "s") "ts" (some queries.sampleTimeRange) true =
          .error (.errorsNew "data range for histogram is not set")) ∧
      (∀ v r, strconv.Atoi "30" = .ok v → some queries.sampleTimeRange = some r →
        r.field = "ts" →
        CreateDateHistogramAgg ("30" ++ "s") "ts" (some queries.sampleTimeRange) true =
            .ok { fieldName := "ts", interval := wrapInt64 (Second * v),
                  timeOptimization := true } ∧
          (-(2 ^ 63) ≤ Second * v → Second * v < 2 ^ 63 →
            wrapInt64 (Second * v) = Second * v))) ∧
    ((CreateDateHistogramAgg "30s" "ts" (some queries.sampleTimeRange) true).toOption.map
        (fun hs => hs.interval)) = some 30000000000 ∧
    ((CreateDateHistogramAgg "2w" "ts" (some queries.sampleTimeRange) true).toOption.map
        (fun hs => hs.interval)) = some (2 * 7 * (24 * Hour)) ∧
    ((CreateDateHistogramAgg "30x" "ts" (some queries.sampleTimeRange) true).toOption.map
        (fun hs => hs.interval)) = none :=
  ⟨by decide, by decide,
    C13_CreateDateHistogramAgg "30" "s" Second "ts" (some queries.sampleTimeRange) true
      (by decide) (by decide),
    by decide, by decide, by decide⟩

/-! ## Date histogram: materialization -/

theorem aggregations.setDocCounts_ok (buckets : List aggregations.Bucket) (counts : List Nat)
    (h : buckets.length ≤ counts.length) :
    aggregations.setDocCounts buckets counts =
      .ok (List.zipWith aggregations.Bucket.SetDocCount buckets counts) := by
  induction buckets generalizing counts with
  | nil => simp [aggregations.setDocCounts]
  | cons b bs ih =>
    cases counts with
    | nil => simp at h
    | cons c cs =>
      have hle : bs.length ≤ cs.length := by simpa using h
      simp [aggregations.setDocCounts, ih cs hle]

theorem aggregations.setDocCounts_panic (buckets : List aggregations.Bucket)
    (counts : List Nat) (h : counts.length < buckets.length) :
    aggregations.setDocCounts buckets counts = .error (.panic "index out of range") := by
  induction buckets generalizing counts with
  | nil => simp at h
  | cons b bs ih =>
    cases counts with
    | nil => simp [aggregations.setDocCounts]
    | cons c cs =>
      have hlt : cs.length < bs.length := by simpa using h
      simp [aggregations.setDocCounts, ih cs hlt]

/-- A row with at least one count and at least as many counts as nested filter
entries yields a column bucket when its last count is positive and nothing
otherwise. -/
theorem aggregations.materializeRow_ok {F : Type} (hs : aggregations.DateHistogram F)
    (row : aggregations.histogramCounts) (hne : row.Vals ≠ [])
    (hk : hs.nestedEntries ≤ row.Vals.length) :
    ∃ sub : Option aggregations.BucketAggregationData,
      hs.materializeRow row =
        .ok (if row.lastCount > 0 then
          some (.column sub (aggregations.Unix (wrapInt64 (hs.interval * row.Key)))
            row.lastCount)
          else none) := by
  obtain ⟨last, hlast⟩ : ∃ last, row.Vals.getLast? = some last := by
    cases hv : row.Vals.getLast? with
    | none => exact absurd (List.getLast?_eq_none_iff.mp hv) hne
    | some last => exact ⟨last, rfl⟩
  have hlc : row.lastCount = last := by simp [aggregations.histogramCounts.lastCount, hlast]
  unfold aggregations.DateHistogram.materializeRow
  simp only [hlast, hlc]
  by_cases hpos : last > 0
  · simp only [hpos, if_true]
    cases hf : hs.filters with
    | none =>
      exact ⟨some aggregations.BucketAggregationData.zero, by
        simp [aggregations.BucketAggregationData.zero]⟩
    | some filters =>
      have hlen : (filters.filters.map
          (fun entry => aggregations.Bucket.filterBucket none entry.Name 0)).length ≤
          row.Vals.length := by
        simpa [aggregations.DateHistogram.nestedEntries, hf] using hk
      exact ⟨_, by
        simp only [aggregations.Filters.createBuckets]
        rw [aggregations.setDocCounts_ok _ _ hlen]⟩
  · exact ⟨none, by simp [hpos]⟩

open aggregations in
/-- C14 (counterexample): with two nested filter entries a row with the single
count 5 stops materialization with a panic instead of yielding a bucket; and for a
histogram of thirty seconds the row with key 1000000000 gets a bucket whose
time is not key times interval, the int64 product having wrapped around. -/
theorem C14_materialize_counterexample :
    failureOf (sampleHistogram.materialize [{ Vals := [5], Key := 1 }]) =
      some (.panic "index out of range") ∧
    (samplePlainHistogram.materialize [{ Vals := [1], Key := 1000000000 }]).toOption.map
        (fun buckets => buckets.map (fun b => (b.Key, b.DocCount))) =
      some [(KeyValue.time (Unix (-6893488147419103232)), 1)] ∧
    (-6893488147419103232 : Int) ≠ samplePlainHistogram.interval * 1000000000 := by
  refine ⟨by decide, by decide, by decide⟩

open aggregations in
/-- C14 (amended): for every DateHistogram with interval I and every list of result
rows that each have at least one count and at least as many counts as there are
nested filter entries, materialization keeps exactly the rows whose last count
is greater than zero, in the order of the rows; each kept bucket has that last
count as doc count and as key the instant of the int64 product key x I
nanoseconds after the epoch, which is key x I whenever the product fits in int64. -/
theorem C14_materialize {F : Type} (hs : DateHistogram F) (rows : List histogramCounts)
    (hrows : ∀ row ∈ rows, row.Vals ≠ [] ∧ hs.nestedEntries ≤ row.Vals.length) :
    ∃ buckets : List Bucket,
      hs.materialize rows = .ok buckets ∧
      buckets.map (fun b => (b.Key, b.DocCount)) =
        (rows.filter (fun row => decide (row.lastCount > 0))).map
          (fun row =>
            (KeyValue.time (Unix (wrapInt64 (hs.interval * row.Key))), row.lastCount)) ∧
      ∀ row ∈ rows, -(2 ^ 63) ≤ hs.interval * row.Key → hs.interval * row.Key < 2 ^ 63 →
        wrapInt64 (hs.interval * row.Key) = hs.interval * row.Key := by
  induction rows with
  | nil => exact ⟨[], rfl, rfl, by simp⟩
  | cons row rest ih =>
    obtain ⟨buckets, hmat, hmap, _⟩ := ih (fun r hr => hrows r (List.mem_cons_of_mem _ hr))
    obtain ⟨hne, hk⟩ := hrows row (List.mem_cons_self _ _)
    obtain ⟨sub, hrow⟩ := materializeRow_ok hs row hne hk
    by_cases hpos : row.lastCount > 0
    · refine ⟨Bucket.column sub (Unix (wrapInt64 (hs.interval * row.Key))) row.lastCount ::
        buckets, ?_, ?_, fun r _ hlo hhi => wrapInt64_of_fits _ hlo hhi⟩
      · simp [DateHistogram.materialize, hrow, hmat, hpos]
      · rw [List.filter_cons_of_pos (by simpa using hpos), List.map_cons, List.map_cons, hmap]
        rfl
    · refine ⟨buckets, ?_, ?_, fun r _ hlo hhi => wrapInt64_of_fits _ hlo hhi⟩
      · simp [DateHistogram.materialize, hrow, hmat, hpos]
      · rw [List.filter_cons_of_neg (by simpa using hpos), hmap]

open aggregations in
/-- C14 (witness): a histogram of thirty seconds and the rows with counts 4, 0, 9. -/
theorem C14_materialize_witness :
    (∀ row ∈ ([{ Vals := [4], Key := 1 }, { Vals := [0], Key := 2 },
        { Vals := [9], Key := 3 }] : List histogramCounts),
      row.Vals ≠ [] ∧ samplePlainHistogram.nestedEntries ≤ row.Vals.length) ∧
    (∃ buckets : List Bucket,
      samplePlainHistogram.materialize
          [{ Vals := [4], Key := 1 }, { Vals := [0], Key := 2 }, { Vals := [9], Key := 3 }] =
        .ok buckets ∧
      buckets.map (fun b => (b.Key, b.DocCount)) =
        (([{ Vals := [4], Key := 1 }, { Vals := [0], Key := 2 },
            { Vals := [9], Key := 3 }] : List histogramCounts).filter
          (fun row => decide (row.lastCount > 0))).map
          (fun row =>
            (KeyValue.time (Unix (wrapInt64 (samplePlainHistogram.interval * row.Key))),
              row.lastCount)) ∧
      ∀ row ∈ ([{ Vals := [4], Key := 1 }, { Vals := [0], Key := 2 },
          { Vals := [9], Key := 3 }] : List histogramCounts),
        -(2 ^ 63) ≤ samplePlainHistogram.interval * row.Key →
        samplePlainHistogram.interval * row.Key < 2 ^ 63 →
        wrapInt64 (samplePlainHistogram.interval * row.Key) =
          samplePlainHistogram.interval * row.Key) ∧
    (samplePlainHistogram.materialize
        [{ Vals := [4], Key := 1 }, { Vals := [0], Key := 2 },
          { Vals := [9], Key := 3 }]).toOption.map
        (fun buckets => buckets.map (fun b => (b.Key, b.DocCount))) =
      some [(KeyValue.time (Unix 30000000000), 4), (KeyValue.time (Unix 90000000000), 9)] :=
  ⟨by decide,
    C14_materialize samplePlainHistogram
      [{ Vals := [4], Key := 1 }, { Vals := [0], Key := 2 }, { Vals := [9], Key := 3 }]
      (by decide),
    by decide⟩

theorem aggregations.setDocCounts_no_error (buckets : List aggregations.Bucket)
    (counts : List Nat) (e : GoError) :
    aggregations.setDocCounts buckets counts ≠ .error (.error e) := by
  induction buckets generalizing counts with
  | nil => simp [aggregations.setDocCounts]
  | cons b bs ih =>
    cases counts with
    | nil => simp [aggregations.setDocCounts]
    | cons c cs =>
      have := ih cs
      simp only [aggregations.setDocCounts]
      split <;> simp_all

theorem aggregations.materializeRow_no_error {F : Type} (hs : aggregations.DateHistogram F)
    (row : aggregations.histogramCounts) (e : GoError) :
    hs.materializeRow row ≠ .error (.error e) := by
  intro h
  unfold aggregations.DateHistogram.materializeRow at h
  simp only [] at h
  split at h
  · cases h
  · split at h
    · split at h
      · split at h
        · cases h
        · rename_i e2 heq
          injection h with h
          subst h
          exact aggregations.setDocCounts_no_error _ _ e heq
      · cases h
    · cases h

theorem aggregations.materialize_no_error {F : Type} (hs : aggregations.DateHistogram F)
    (rows : List aggregations.histogramCounts) (e : GoError) :
    hs.materialize rows ≠ .error (.error e) := by
  induction rows with
  | nil => simp [aggregations.DateHistogram.materialize]
  | cons row rest ih =>
    intro h
    simp only [aggregations.DateHistogram.materialize] at h
    split at h
    · rename_i e2 he2
      injection h with h
      subst h
      exact aggregations.materializeRow_no_error hs row e he2
    · split at h
      · rename_i e2 he2
        injection h with h
        subst h
        exact ih he2
      · split at h <;> cases h

open aggregations in
/-- C16: materialization never returns an error value.  The sample histogram with
two nested filter entries compiles on the optimized path to a query with the
single summed count `sum(count)`, and a row with one count then stops
materialization with a panic; a row without counts panics as well; a row with
more counts than columns is materialized without complaint. -/
theorem C16_no_length_check :
    (∀ (hs : DateHistogram Int) (rows : List histogramCounts) (e : GoError),
      hs.materialize rows ≠ .error (.error e)) ∧
    (sampleHistogram.createDataAggregatingRequest GoLib.ascii "logs_gate").toOption.map
        (fun result => result.1.what) =
      some "[ sum(count) ] as results, toInt64(key / 1) as cur_key" ∧
    sampleHistogram.nestedEntries = 2 ∧
    failureOf (sampleHistogram.materialize [{ Vals := [5], Key := 1 }]) =
      some (.panic "index out of range") ∧
    failureOf (samplePlainHistogram.materialize [{ Vals := [], Key := 1 }]) =
      some (.panic "index out of range") ∧
    (samplePlainHistogram.materialize [{ Vals := [1, 2], Key := 1 }]).toOption.map
        (fun buckets => buckets.map Bucket.DocCount) = some [2] := by
  refine ⟨fun hs rows e => materialize_no_error hs rows e, by decide, by decide, by decide,
    by decide, by decide⟩

/-! ## Filters aggregation and bucket serialization -/

open aggregations in
/-- C17 (counterexample): the Filters aggregation with the entries `errors` and `ok`
against a data source materializes no bucket tree: Aggregate returns nil and no
error. -/
theorem C17_Filters_Aggregate_counterexample :
    sampleFilters.filters.map (fun entry => entry.Name) = ["errors", "ok"] ∧
    sampleFilters.Aggregate sampleProvider = .ok none := by
  exact ⟨by decide, rfl⟩

theorem aggregations.bucketsToStrings_eq_map (fmtTime : aggregations.Time → String)
    (buckets : List aggregations.Bucket) :
    aggregations.bucketsToStrings fmtTime buckets =
      buckets.map (aggregations.Bucket.String fmtTime) := by
  induction buckets with
  | nil => simp [aggregations.bucketsToStrings]
  | cons b bs ih => simp [aggregations.bucketsToStrings, ih]

open aggregations in
/-- C18 (counterexample): the buckets errors = 3 and ok = 7 serialize with a blank
before each `"doc_count"`, not as `{"errors":{"doc_count":3},"ok":{"doc_count":7}}`. -/
theorem C18_filter_buckets_json_counterexample :
    bucketsStringer.String (fun _ => "")
        (.mk (some [Bucket.filterBucket none "errors" 3, Bucket.filterBucket none "ok" 7])
          (some .bucketsToObjJSON)) =
      "\x7b\"errors\":\x7b \"doc_count\":3\x7d,\"ok\":\x7b \"doc_count\":7\x7d\x7d" ∧
    bucketsStringer.String (fun _ => "")
        (.mk (some [Bucket.filterBucket none "errors" 3, Bucket.filterBucket none "ok" 7])
          (some .bucketsToObjJSON)) ≠
      "\x7b\"errors\":\x7b\"doc_count\":3\x7d,\"ok\":\x7b\"doc_count\":7\x7d\x7d" ∧
    bucketString "" 3 = " \"doc_count\":3" := by
  decide

open aggregations in
/-- C18 (amended): a list of named filter buckets (name_i, n_i) without nested
sub-aggregation serializes as the object of the fragments
`"name_i":{ "doc_count":n_i}` joined by commas in bucket order, each double
quote of a name escaped by a backslash; the bucket's own fragment is a blank
followed by `"doc_count":n`; with a nested sub-aggregation of non-empty fragment
s the bucket's fragment is s, a comma, a blank and `"doc_count":n`. -/
theorem C18_filter_buckets_json (fmtTime : Time → String) (entries : List (String × Nat))
    (name : String) (n : Nat) (sub : BucketAggregationData)
    (hsub : BucketAggregationData.String fmtTime sub ≠ "") :
    bucketsStringer.String fmtTime
        (.mk (some (entries.map (fun e => Bucket.filterBucket none e.1 e.2)))
          (some .bucketsToObjJSON)) =
      "\x7b" ++ strings.Join (entries.map (fun e =>
        "\"" ++ strings.ReplaceCharWith e.1 '"' "\\\"" ++ "\":\x7b \"doc_count\":" ++
          toString e.2 ++ "\x7d")) "," ++ "\x7d" ∧
    bucketString "" n = " \"doc_count\":" ++ toString n ∧
    bucketString (BucketAggregationData.String fmtTime sub) n =
      BucketAggregationData.String fmtTime sub ++ ", \"doc_count\":" ++ toString n ∧
    Bucket.String fmtTime (.filterBucket (some sub) name n) =
      "\"" ++ strings.ReplaceCharWith name '"' "\\\"" ++ "\":\x7b" ++
        BucketAggregationData.String fmtTime sub ++ ", \"doc_count\":" ++ toString n ++
        "\x7d" := by
  have hbs : bucketString (BucketAggregationData.String fmtTime sub) n =
      BucketAggregationData.String fmtTime sub ++ ", \"doc_count\":" ++ toString n := by
    simp [bucketString, hsub, String.ext_iff]
  refine ⟨?_, ?_, hbs, ?_⟩
  · rw [bucketsStringer.String, bucketsToStrings_eq_map, List.map_map]
    congr 2
    apply congrArg (fun l => strings.Join l ",")
    apply List.map_congr_left
    intro e _
    simp [Bucket.String, buildSubAggStr, bucketString, String.ext_iff]
  · simp [bucketString]
  · rw [Bucket.String, buildSubAggStr, hbs]
    simp [String.ext_iff]

open aggregations in
/-- C18 (witness): the buckets errors = 3 and ok = 7, and a bucket with the nested
aggregation `inner`. -/
theorem C18_filter_buckets_json_witness :
    BucketAggregationData.String (fun _ => "") sampleNested ≠ "" ∧
    (bucketsStringer.String (fun _ => "")
        (.mk (some ([("errors", 3), ("ok", 7)].map
          (fun e => Bucket.filterBucket none e.1 e.2))) (some .bucketsToObjJSON)) =
      "\x7b" ++ strings.Join ([("errors", 3), ("ok", 7)].map (fun e =>
        "\"" ++ strings.ReplaceCharWith e.1 '"' "\\\"" ++ "\":\x7b \"doc_count\":" ++
          toString e.2 ++ "\x7d")) "," ++ "\x7d" ∧
      bucketString "" 5 = " \"doc_count\":" ++ toString 5 ∧
      bucketString (BucketAggregationData.String (fun _ => "") sampleNested) 5 =
        BucketAggregationData.String (fun _ => "") sampleNested ++ ", \"doc_count\":" ++
          toString 5 ∧
      Bucket.String (fun _ => "") (.filterBucket (some sampleNested) "all" 5) =
        "\"" ++ strings.ReplaceCharWith "all" '"' "\\\"" ++ "\":\x7b" ++
          BucketAggregationData.String (fun _ => "") sampleNested ++ ", \"doc_count\":" ++
          toString 5 ++ "\x7d") ∧
    Bucket.String (fun _ => "") (.filterBucket (some sampleNested) "all" 5) =
      "\"all\":\x7b\"inner\":\x7b\"buckets\":\x7b\x7d\x7d, \"doc_count\":5\x7d" :=
  ⟨by decide,
    C18_filter_buckets_json (fun _ => "") [("errors", 3), ("ok", 7)] "all" 5 sampleNested
      (by decide),
    by decide⟩

open aggregations in
/-- C19: Filters.SetSubAgg returns an error for every aggregation that is not nil and
leaves the receiver unchanged; DateHistogram.SetSubAgg returns an error for
every aggregation that is neither nil nor a Filters aggregation and leaves the
receiver unchanged, and for a Filters aggregation returns no error and records
it in the field for the nested aggregation, replacing what was there; a nil
sub-aggregation is accepted by both and changes nothing. -/
theorem C19_SetSubAgg {F : Type} (f g : Filters F) (hs other : DateHistogram F)
    (a : Aggregation F) :
    f.SetSubAgg (some a) =
      (f, some (.errorsNew ("unsupported sub aggregation type: " ++ a.aggType))) ∧
    f.SetSubAgg none = (f, none) ∧
    hs.SetSubAgg (some (.dateHistogram other)) =
      (hs, some (.errorsNew "unsupported sub aggregation type: DateHistogram")) ∧
    ((∀ g2 : Filters F, a ≠ .filters g2) →
      hs.SetSubAgg (some a) =
        (hs, some (.errorsNew ("unsupported sub aggregation type: " ++ a.aggType)))) ∧
    hs.SetSubAgg (some (.filters g)) = ({ hs with filters := some g }, none) ∧
    (hs.SetSubAgg (some (.filters g))).1.filters = some g ∧
    hs.SetSubAgg none = (hs, none) := by
  refine ⟨rfl, rfl, rfl, ?_, rfl, rfl, rfl⟩
  intro hne
  cases a with
  | dateHistogram h2 => rfl
  | filters g2 => exact absurd rfl (hne g2)

/-! ## Reduction of the time range of the selection -/

theorem wrapUint64_le (n : Nat) : wrapUint64 n ≤ n := by
  unfold wrapUint64
  exact Nat.mod_le _ _

theorem wrapUint64_of_lt (n : Nat) (h : n < 2 ^ 64) : wrapUint64 n = n := by
  unfold wrapUint64
  exact Nat.mod_eq_of_lt h

open aggregations in
theorem handlers.reduceLoop_not_found (now : Time) (size acc : Nat) (l : List Bucket)
    (h : acc + (l.map Bucket.DocCount).sum ≤ size) :
    handlers.reduceLoop now size acc l = .ok (now, false) := by
  induction l generalizing acc with
  | nil => rfl
  | cons b rest ih =>
    simp only [List.map_cons, List.sum_cons] at h
    have hw := wrapUint64_le (acc + b.DocCount)
    have hnot : ¬ wrapUint64 (acc + b.DocCount) > size := by omega
    simp only [handlers.reduceLoop, hnot, if_false]
    exact ih _ (by omega)

open aggregations in
theorem handlers.reduceLoop_found (now : Time) (size acc : Nat) (pre : List Bucket)
    (b : Bucket) (post : List Bucket) (t : Time) (hkey : b.Key = .time t)
    (hpre : acc + (pre.map Bucket.DocCount).sum ≤ size)
    (hb : size < acc + (pre.map Bucket.DocCount).sum + b.DocCount)
    (hbound : acc + (pre.map Bucket.DocCount).sum + b.DocCount < 2 ^ 64) :
    handlers.reduceLoop now size acc (pre ++ b :: post) = .ok (t, true) := by
  induction pre generalizing acc with
  | nil =>
    simp only [List.map_nil, List.sum_nil, Nat.add_zero] at hpre hb hbound
    have hw := wrapUint64_of_lt _ hbound
    have hgt : wrapUint64 (acc + b.DocCount) > size := by omega
    simp only [List.nil_append, handlers.reduceLoop, hgt, if_true, hkey]
  | cons p ps ih =>
    simp only [List.map_cons, List.sum_cons] at hpre hb hbound
    have hw := wrapUint64_of_lt (acc + p.DocCount) (by omega)
    have hnot : ¬ wrapUint64 (acc + p.DocCount) > size := by omega
    simp only [List.cons_append, handlers.reduceLoop, hnot, if_false]
    rw [hw]
    exact ih _ (by omega) (by omega) (by omega)

open aggregations in
theorem handlers.exists_cutoff (size acc : Nat) (l : List Bucket) (hacc : acc ≤ size)
    (hs : size < acc + (l.map Bucket.DocCount).sum) :
    ∃ (pre : List Bucket) (b : Bucket) (post : List Bucket),
      l = pre ++ b :: post ∧ acc + (pre.map Bucket.DocCount).sum ≤ size ∧
      size < acc + (pre.map Bucket.DocCount).sum + b.DocCount := by
  induction l generalizing acc with
  | nil => simp at hs; omega
  | cons b rest ih =>
    simp only [List.map_cons, List.sum_cons] at hs
    by_cases hgt : size < acc + b.DocCount
    · exact ⟨[], b, rest, rfl, by simpa using hacc, by simpa using hgt⟩
    · obtain ⟨pre, c, post, h1, h2, h3⟩ := ih (acc + b.DocCount) (by omega) (by omega)
      refine ⟨b :: pre, c, post, by simp [h1], ?_, ?_⟩
      · simp only [List.map_cons, List.sum_cons]; omega
      · simp only [List.map_cons, List.sum_cons]; omega

open aggregations in
/-- C20 (counterexample): for the buckets with doc counts 1 and 2^64 - 1 and the size
2^64 - 1 the total doc count 2^64 exceeds the size, yet no cutoff is found: the
uint64 sum wraps around to 0. -/
theorem C20_reduce_counterexample :
    (([Bucket.column none (Unix 10) 1,
        Bucket.column none (Unix 20) 18446744073709551615].map Bucket.DocCount).sum >
      18446744073709551615) ∧
    (handlers.reduceLogsSelectionTimeRange (Unix 0)
        [Bucket.column none (Unix 10) 1, Bucket.column none (Unix 20) 18446744073709551615]
        18446744073709551615).toOption = some (Unix 0, false) := by
  refine ⟨by decide, by decide⟩

open aggregations in
/-- C20 (amended): for every list of histogram buckets in ascending time order whose
doc counts sum to less than 2^64 and every size s, reduceLogsSelectionTimeRange
returns the key of b_i and found, where i is the largest index such that the
doc counts of b_i and all later buckets sum to more than s, and returns
not-found exactly when the total doc count is at most s. -/
theorem C20_reduceLogsSelectionTimeRange (now : Time) (bs : List Bucket) (s : Nat)
    (hcols : ∀ b ∈ bs, ∃ t, b.Key = KeyValue.time t)
    (htotal : (bs.map Bucket.DocCount).sum < 2 ^ 64) :
    (∀ (before : List Bucket) (b : Bucket) (after : List Bucket) (t : Time),
      bs = before ++ b :: after → b.Key = KeyValue.time t →
      s < ((b :: after).map Bucket.DocCount).sum →
      (∀ k, ((after.drop k).map Bucket.DocCount).sum ≤ s) →
      handlers.reduceLogsSelectionTimeRange now bs s = .ok (t, true)) ∧
    ((bs.map Bucket.DocCount).sum ≤ s →
      handlers.reduceLogsSelectionTimeRange now bs s = .ok (now, false)) ∧
    (s < (bs.map Bucket.DocCount).sum →
      ∃ (before : List Bucket) (b : Bucket) (after : List Bucket) (t : Time),
        bs = before ++ b :: after ∧ b.Key = KeyValue.time t ∧
        s < ((b :: after).map Bucket.DocCount).sum ∧
        (after.map Bucket.DocCount).sum ≤ s ∧
        handlers.reduceLogsSelectionTimeRange now bs s = .ok (t, true)) := by
  have hfound : ∀ (before : List Bucket) (b : Bucket) (after : List Bucket) (t : Time),
      bs = before ++ b :: after → b.Key = KeyValue.time t →
      s < ((b :: after).map Bucket.DocCount).sum →
      (after.map Bucket.DocCount).sum ≤ s →
      handlers.reduceLogsSelectionTimeRange now bs s = .ok (t, true) := by
    intro before b after t hbs hkey hgt hle
    have hrev : bs.reverse = after.reverse ++ b :: before.reverse := by
      rw [hbs]; simp
    have hsum : (after.reverse.map Bucket.DocCount).sum = (after.map Bucket.DocCount).sum := by
      rw [List.map_reverse, List.sum_reverse]
    have htot : (bs.map Bucket.DocCount).sum =
        (before.map Bucket.DocCount).sum + (b.DocCount + (after.map Bucket.DocCount).sum) := by
      rw [hbs]; simp
    simp only [List.map_cons, List.sum_cons] at hgt
    unfold handlers.reduceLogsSelectionTimeRange
    rw [hrev]
    apply handlers.reduceLoop_found now s 0 _ b _ t hkey
    · rw [hsum]; omega
    · rw [hsum]; omega
    · rw [hsum]; omega
  refine ⟨?_, ?_, ?_⟩
  · intro before b after t hbs hkey hgt hall
    exact hfound before b after t hbs hkey hgt (by simpa using hall 0)
  · intro hle
    unfold handlers.reduceLogsSelectionTimeRange
    apply handlers.reduceLoop_not_found
    rw [List.map_reverse, List.sum_reverse]
    omega
  · intro hgt
    have hgt2 : s < 0 + (bs.reverse.map Bucket.DocCount).sum := by
      rw [List.map_reverse, List.sum_reverse]; omega
    obtain ⟨pre, b, post, hsplit, hpre, hb⟩ :=
      handlers.exists_cutoff s 0 bs.reverse (Nat.zero_le _) hgt2
    have hbs : bs = post.reverse ++ b :: pre.reverse := by
      have := congrArg List.reverse hsplit
      simpa using this
    have hmem : b ∈ bs := by rw [hbs]; simp
    obtain ⟨t, hkey⟩ := hcols b hmem
    have hsum : (pre.reverse.map Bucket.DocCount).sum = (pre.map Bucket.DocCount).sum := by
      rw [List.map_reverse, List.sum_reverse]
    have h1 : s < ((b :: pre.reverse).map Bucket.DocCount).sum := by
      simp only [List.map_cons, List.sum_cons, hsum]; omega
    have h2 : (pre.reverse.map Bucket.DocCount).sum ≤ s := by
      rw [hsum]; omega
    exact ⟨post.reverse, b, pre.reverse, t, hbs, hkey, h1, h2,
      hfound _ b _ t hbs hkey h1 h2⟩

open aggregations in
/-- C20 (witness): the doc counts 5, 5, 5 with size 7 give the key of the
second-from-latest bucket, the counts of the two latest buckets summing to 10. -/
theorem C20_reduceLogsSelectionTimeRange_witness :
    (∀ b ∈ [Bucket.column none (Unix 10) 5, Bucket.column none (Unix 20) 5,
        Bucket.column none (Unix 30) 5], ∃ t, b.Key = KeyValue.time t) ∧
    (([Bucket.column none (Unix 10) 5, Bucket.column none (Unix 20) 5,
        Bucket.column none (Unix 30) 5].map Bucket.DocCount).sum < 2 ^ 64) ∧
    handlers.reduceLogsSelectionTimeRange (Unix 0)
        [Bucket.column none (Unix 10) 5, Bucket.column none (Unix 20) 5,
          Bucket.column none (Unix 30) 5] 7 = .ok (Unix 20, true) :=
  ⟨by simp [Bucket.Key], by decide,
    (C20_reduceLogsSelectionTimeRange (Unix 0)
      [Bucket.column none (Unix 10) 5, Bucket.column none (Unix 20) 5,
        Bucket.column none (Unix 30) 5] 7 (by simp [Bucket.Key]) (by decide)).1
      [Bucket.column none (Unix 10) 5] (Bucket.column none (Unix 20) 5)
      [Bucket.column none (Unix 30) 5] (Unix 20) rfl rfl (by decide)
      (by
        intro k
        cases k with
        | zero => decide
        | succ k => simp)⟩

/-! ## Date histogram: the request -/

theorem db.Request.What_fields (t : db.Request) (x : String) :
    (t.What x).tables = t.tables ∧ (t.What x).«where» = t.«where» := by
  unfold db.Request.What
  split <;> exact ⟨rfl, rfl⟩

theorem db.Request.AppendToWhat_fields (t : db.Request) (x : String) :
    (t.AppendToWhat x).tables = t.tables ∧ (t.AppendToWhat x).«where» = t.«where» := by
  unfold db.Request.AppendToWhat
  split
  · exact ⟨rfl, rfl⟩
  · exact db.Request.What_fields t x

theorem db.Request.GroupBy_fields (t : db.Request) (x : String) :
    (t.GroupBy x).tables = t.tables ∧ (t.GroupBy x).«where» = t.«where» := by
  unfold db.Request.GroupBy
  split <;> exact ⟨rfl, rfl⟩

theorem db.Request.OrderBy_fields (t : db.Request) (x : String) (order : List String) :
    (t.OrderBy x order).tables = t.tables ∧ (t.OrderBy x order).«where» = t.«where» := by
  unfold db.Request.OrderBy
  split
  · split <;> exact ⟨rfl, rfl⟩
  · exact ⟨rfl, rfl⟩

theorem db.Request.WhereAnd_tables (t : db.Request) (cond : String) :
    (t.WhereAnd cond).tables = t.tables := by
  unfold db.Request.WhereAnd db.Request.Where
  split
  · rfl
  · split <;> rfl

/-- The template on the pre-aggregated table of an index never reads the same
tables as the template on the index itself. -/
theorem clickhouse.NewRequestTpl_prepared_ne (index : String) :
    (clickhouse.NewRequestTpl (models.PreparedHistogramDataTablePrefix ++ index)).tables ≠
      (clickhouse.NewRequestTpl index).tables := by
  intro h
  have hlen := congrArg (fun s : String => s.data.length) h
  simp [clickhouse.NewRequestTpl, db.NewRequest, strings.ReplaceFirstCharWith,
    models.PreparedHistogramDataTablePrefix, String.data_append, strings.replaceFirst] at hlen
  omega

open aggregations in
/-- C22 (what the code decides): whenever `createDataAggregatingRequest` returns, the
request reads the pre-aggregated table exactly when optimization was requested,
the interval is at least five minutes and `GetSimpleClausesList` gives exactly
one clause for the common filter, of whatever kind; in every other case the
request reads the table of the index, the histogram keeps its common filter and
the WHERE clause holds the fragment of the whole common filter. -/
theorem C22_optimized_path_condition {F : Type} (go : GoLib F) (hs : DateHistogram F)
    (index : String) (request : db.Request) (hs' : DateHistogram F)
    (h : hs.createDataAggregatingRequest go index = .ok (request, hs')) :
    (request.tables =
        (clickhouse.NewRequestTpl (models.PreparedHistogramDataTablePrefix ++ index)).tables ↔
      (hs.timeOptimization = true ∧ preparedDataPeriod ≤ hs.interval ∧
        (queries.GetSimpleClausesList hs.commonFilter).length = 1)) ∧
    (request.tables ≠
        (clickhouse.NewRequestTpl (models.PreparedHistogramDataTablePrefix ++ index)).tables →
      request.tables = (clickhouse.NewRequestTpl index).tables ∧ hs' = hs ∧
      ∃ commonFilter, hs.commonFilter = some commonFilter ∧
        request.«where» =
          (if queries.Clause.String go commonFilter ≠ ""
            then "WHERE " ++ queries.Clause.String go commonFilter else "")) := by
  unfold DateHistogram.createDataAggregatingRequest at h
  simp only [] at h
  split at h
  · rename_i hcond
    injection h with h
    injection h with hreq hhs
    have htab : request.tables =
        (clickhouse.NewRequestTpl (models.PreparedHistogramDataTablePrefix ++ index)).tables := by
      rw [← hreq, db.Request.WhereAnd_tables, (db.Request.OrderBy_fields _ _ _).1,
        (db.Request.GroupBy_fields _ _).1, (db.Request.What_fields _ _).1]
    refine ⟨⟨fun _ => ?_, fun _ => htab⟩, fun hne => absurd htab hne⟩
    simp only [Bool.and_eq_true, decide_eq_true_eq, DateHistogram.optimizationRequired] at hcond
    exact ⟨hcond.2.1, hcond.2.2, hcond.1⟩
  · rename_i hcond
    cases hcf : hs.commonFilter with
    | none => rw [hcf] at h; simp at h
    | some commonFilter =>
      rw [hcf] at h
      simp only [] at h
      injection h with h
      injection h with hreq hhs
      have htab : request.tables = (clickhouse.NewRequestTpl index).tables := by
        rw [← hreq, db.Request.WhereAnd_tables, (db.Request.OrderBy_fields _ _ _).1,
          (db.Request.GroupBy_fields _ _).1, (db.Request.AppendToWhat_fields _ _).1,
          (db.Request.What_fields _ _).1]
      have hne : request.tables ≠
          (clickhouse.NewRequestTpl (models.PreparedHistogramDataTablePrefix ++ index)).tables := by
        rw [htab]
        exact fun h => clickhouse.NewRequestTpl_prepared_ne index h.symm
      refine ⟨⟨fun h => absurd h hne, fun hc => ?_⟩, fun _ => ⟨htab, hhs.symm, commonFilter, rfl, ?_⟩⟩
      · exfalso
        apply hcond
        simp [DateHistogram.optimizationRequired, hc.1, hc.2.1, hc.2.2, hcf]
      · rw [← hreq, db.Request.WhereAnd_where, (db.Request.OrderBy_fields _ _ _).2,
          (db.Request.GroupBy_fields _ _).2, (db.Request.AppendToWhat_fields _ _).2,
          (db.Request.What_fields _ _).2]
        simp [clickhouse.NewRequestTpl, db.NewRequest]

set_option maxRecDepth 100000 in
open aggregations in
/-- C22 (failing input): a five-minute histogram with optimization requested whose
common filter is a bool query with one must-clause, itself a bool query holding
the range and a match. The one clause that `GetSimpleClausesList` gives is not a
range clause, and still the request reads the pre-aggregated table; the common
filter is replaced by a range without bounds and does not reach the WHERE
clause. Of the intervals of the claim, five minutes with optimization is
eligible, one minute with optimization and ten minutes without are not. -/
theorem C22_optimized_path_condition_witness :
    sampleNestedFilterHistogram.createDataAggregatingRequest GoLib.ascii "logs_gate" =
      .ok (sampleZeroRangeRequest,
        { sampleNestedFilterHistogram with
          commonFilter := some (.rangeClause
            (queries.NewRange GoLib.ascii "(key * 300000000000)" false)) }) ∧
    ((sampleZeroRangeRequest.tables =
        (clickhouse.NewRequestTpl (models.PreparedHistogramDataTablePrefix ++ "logs_gate")).tables ↔
      (sampleNestedFilterHistogram.timeOptimization = true ∧
        preparedDataPeriod ≤ sampleNestedFilterHistogram.interval ∧
        (queries.GetSimpleClausesList sampleNestedFilterHistogram.commonFilter).length = 1)) ∧
    (sampleZeroRangeRequest.tables ≠
        (clickhouse.NewRequestTpl (models.PreparedHistogramDataTablePrefix ++ "logs_gate")).tables →
      sampleZeroRangeRequest.tables = (clickhouse.NewRequestTpl "logs_gate").tables ∧
      { sampleNestedFilterHistogram with
          commonFilter := some (.rangeClause
            (queries.NewRange GoLib.ascii "(key * 300000000000)" false)) } =
        sampleNestedFilterHistogram ∧
      ∃ commonFilter, sampleNestedFilterHistogram.commonFilter = some commonFilter ∧
        sampleZeroRangeRequest.«where» =
          (if queries.Clause.String GoLib.ascii commonFilter ≠ ""
            then "WHERE " ++ queries.Clause.String GoLib.ascii commonFilter else ""))) ∧
    (queries.GetSimpleClausesList sampleNestedFilterHistogram.commonFilter).map
      queries.isRangeClause = [false] ∧
    sampleZeroRangeRequest.tables = "merge(logs, '^histogram_logs_gate')" ∧
    sampleZeroRangeRequest.Build =
      "SELECT [ sum(count) ] as results, toInt64(key / 1) as cur_key FROM merge(logs, '^histogram_logs_gate') WHERE (0 <= (key * 300000000000) AND (key * 300000000000) <= 0) GROUP BY cur_key  ORDER BY cur_key ASC " ∧
    (sampleHistogramOf (5 * Minute) true).optimizationRequired = true ∧
    (sampleHistogramOf (1 * Minute) true).optimizationRequired = false ∧
    (sampleHistogramOf (10 * Minute) false).optimizationRequired = false :=
  ⟨rfl,
    C22_optimized_path_condition GoLib.ascii sampleNestedFilterHistogram "logs_gate"
      sampleZeroRangeRequest _ rfl,
    by decide, by decide, by decide, by decide, by decide, by decide⟩

/-! ## Date histogram: the bucket keys of the two paths -/

theorem tdiv_tdiv_of_nonneg (t P c : Int) (ht : 0 ≤ t) (hP : 0 < P) (hc : 0 < c) :
    Int.tdiv (Int.tdiv t P) (Int.tdiv (P * c) P) = t / (P * c) := by
  have hPc : 0 < P * c := Int.mul_pos hP hc
  rw [Int.tdiv_eq_ediv ht (le_of_lt hP), Int.tdiv_eq_ediv (le_of_lt hPc) (le_of_lt hP),
    Int.mul_ediv_cancel_left _ (ne_of_gt hP),
    Int.tdiv_eq_ediv (Int.ediv_nonneg ht (le_of_lt hP)) (le_of_lt hc)]
  lift t to ℕ using ht
  lift P to ℕ using le_of_lt hP
  lift c to ℕ using le_of_lt hc
  norm_cast
  exact Nat.div_div_eq_div_mul _ _ _

theorem aggregations.preparedDataPeriod_eq :
    aggregations.preparedDataPeriod = 300000000000 := by decide

open aggregations in
/-- C23 (for the intervals that are multiples of five minutes): for a histogram
whose interval is at least five minutes and a multiple of five minutes, and a
timestamp `t ≥ 0`, the key that the optimized path computes from the key of the
pre-aggregated table is the key that the raw path computes from `t`; it is the
key of the bucket of the interval's width that contains `t`, and the key times
the interval is the start of that bucket. -/
theorem C23_optimized_key_eq_raw_key {F : Type} (hs : DateHistogram F) (t : Int)
    (ht : 0 ≤ t) (hI : preparedDataPeriod ≤ hs.interval)
    (hdvd : preparedDataPeriod ∣ hs.interval) :
    hs.optimizedKey (clickhouse.preparedKey t) = hs.rawKey t ∧
    hs.rawKey t = referenceBucketKey hs.interval t ∧
    hs.rawKey t * hs.interval ≤ t ∧ t < hs.rawKey t * hs.interval + hs.interval := by
  rw [preparedDataPeriod_eq] at hI hdvd
  obtain ⟨c, hc⟩ := hdvd
  have hcpos : 0 < c := by omega
  have hIpos : 0 < hs.interval := by omega
  have hraw : hs.rawKey t = t / hs.interval := by
    unfold DateHistogram.rawKey
    exact Int.tdiv_eq_ediv ht (le_of_lt hIpos)
  refine ⟨?_, hraw, ?_, ?_⟩
  · rw [hraw]
    unfold DateHistogram.optimizedKey clickhouse.preparedKey
    rw [preparedDataPeriod_eq, hc]
    exact tdiv_tdiv_of_nonneg t 300000000000 c ht (by norm_num) hcpos
  · rw [hraw]
    exact Int.ediv_mul_le t (ne_of_gt hIpos)
  · rw [hraw]
    have := Int.lt_ediv_add_one_mul_self t hIpos
    linarith

open aggregations in
/-- C23 (witness and failing input): for ten minutes the two keys of a row at
minute 17 are both 1. For seven minutes, an interval that the optimized path
accepts, a row at minute 6 has the key 1 in the pre-aggregated table and the
optimized path keeps 1 (it divides by `7 min / 5 min = 1`), while the raw path
puts the row into bucket 0. -/
theorem C23_optimized_key_eq_raw_key_witness :
    (0 : Int) ≤ 17 * Minute ∧
    preparedDataPeriod ≤ (sampleHistogramOf (10 * Minute) true).interval ∧
    preparedDataPeriod ∣ (sampleHistogramOf (10 * Minute) true).interval ∧
    ((sampleHistogramOf (10 * Minute) true).optimizedKey (clickhouse.preparedKey (17 * Minute)) =
        (sampleHistogramOf (10 * Minute) true).rawKey (17 * Minute) ∧
      (sampleHistogramOf (10 * Minute) true).rawKey (17 * Minute) =
        referenceBucketKey (sampleHistogramOf (10 * Minute) true).interval (17 * Minute) ∧
      (sampleHistogramOf (10 * Minute) true).rawKey (17 * Minute) *
          (sampleHistogramOf (10 * Minute) true).interval ≤ 17 * Minute ∧
      17 * Minute < (sampleHistogramOf (10 * Minute) true).rawKey (17 * Minute) *
          (sampleHistogramOf (10 * Minute) true).interval +
        (sampleHistogramOf (10 * Minute) true).interval) ∧
    (sampleHistogramOf (10 * Minute) true).rawKey (17 * Minute) = 1 ∧
    (sampleHistogramOf (7 * Minute) true).optimizationRequired = true ∧
    (queries.GetSimpleClausesList (sampleHistogramOf (7 * Minute) true).commonFilter).map
      queries.isRangeClause = [true] ∧
    clickhouse.preparedKey (6 * Minute) = 1 ∧
    (sampleHistogramOf (7 * Minute) true).optimizedKey (clickhouse.preparedKey (6 * Minute)) = 1 ∧
    (sampleHistogramOf (7 * Minute) true).rawKey (6 * Minute) = 0 ∧
    referenceBucketKey (sampleHistogramOf (7 * Minute) true).interval (6 * Minute) = 0 :=
  ⟨by decide, by decide, ⟨2, by decide⟩,
    C23_optimized_key_eq_raw_key (sampleHistogramOf (10 * Minute) true) (17 * Minute)
      (by decide) (by decide) ⟨2, by decide⟩,
    by decide, by decide, by decide, by decide, by decide, by decide, by decide⟩

/-! ## Date histogram: the sign of the interval -/

theorem aggregations.intervalUnits_pos (item : String × Int)
    (h : item ∈ aggregations.intervalUnits) : 0 < item.2 := by
  simp only [aggregations.intervalUnits, List.mem_cons, List.mem_singleton,
    List.not_mem_nil, or_false] at h
  rcases h with h | h | h | h | h | h <;> subst h <;> decide

/-- C28 (counterexample): the intervals `0s` and `-5m` with a range on the histogram
field are accepted; the histograms returned have the intervals 0 and minus five
minutes, neither strictly positive. -/
theorem C28_zero_and_negative_interval :
    ((aggregations.CreateDateHistogramAgg "0s" "ts" (some queries.sampleTimeRange)
        true).toOption.map (fun hs => hs.interval)) = some 0 ∧
    ((aggregations.CreateDateHistogramAgg "-5m" "ts" (some queries.sampleTimeRange)
        true).toOption.map (fun hs => hs.interval)) = some (-300000000000) ∧
    ¬ ((0 : Int) < 0) ∧ ¬ ((0 : Int) < -300000000000) := by
  refine ⟨by decide, by decide, by decide, by decide⟩

open aggregations in
/-- C28 (amended): every DateHistogram returned without error by
CreateDateHistogramAgg has as its interval the int64 product of the unit
duration and the magnitude parsed from the text before the unit name; the
interval is strictly positive when the magnitude is at least 1 and the product
is below 2^63, it is 0 for the magnitude 0, and it is negative for a negative
magnitude whose product is at least -2^63. -/
theorem C28_interval_sign {F : Type} (interval fieldName : String)
    (dataRange : Option (queries.RangeClause F)) (optimization : Bool) (hs : DateHistogram F)
    (h : CreateDateHistogramAgg interval fieldName dataRange optimization = .ok hs) :
    ∃ item ∈ intervalUnits, ∃ v : Int,
      strconv.Atoi (strings.TrimSuffix interval item.1) = .ok v ∧
      hs.interval = wrapInt64 (item.2 * v) ∧
      (0 < v → item.2 * v < 2 ^ 63 → 0 < hs.interval) ∧
      (v = 0 → hs.interval = 0) ∧
      (v < 0 → -(2 ^ 63) ≤ item.2 * v → hs.interval < 0) := by
  unfold CreateDateHistogramAgg parseHistogramInterval at h
  cases hfind : intervalUnits.find? (fun item => strings.HasSuffix interval item.1) with
  | none => rw [hfind] at h; simp at h
  | some item =>
    rw [hfind] at h
    simp only [] at h
    have hmem : item ∈ intervalUnits := List.mem_of_find?_eq_some hfind
    have hpos := intervalUnits_pos item hmem
    cases hatoi : strconv.Atoi (strings.TrimSuffix interval item.1) with
    | error err => rw [hatoi] at h; simp at h
    | ok v =>
      rw [hatoi] at h
      simp only [] at h
      cases dataRange with
      | none => simp at h
      | some range =>
        simp only [] at h
        split at h
        · simp at h
        · injection h with h
          have hint : hs.interval = wrapInt64 (item.2 * v) := by
            rw [← h]
            rfl
          refine ⟨item, hmem, v, hatoi, hint, ?_, ?_, ?_⟩
          · intro hv hfit
            have hprod : 0 < item.2 * v := Int.mul_pos hpos hv
            rw [hint, wrapInt64_of_fits _ (by omega) hfit]
            exact hprod
          · intro hv
            rw [hint, hv]
            simp [wrapInt64]
          · intro hv hfit
            have hprod : item.2 * v < 0 := Int.mul_neg_of_pos_of_neg hpos hv
            rw [hint, wrapInt64_of_fits _ hfit (by omega)]
            exact hprod

open aggregations in
/-- C28 (witness): the interval `30s` with a range on the field `ts` gives the
interval of thirty seconds, which is positive. -/
theorem C28_interval_sign_witness :
    (CreateDateHistogramAgg "30s" "ts" (some queries.sampleTimeRange) true =
      .ok ({ fieldName := "ts", interval := 30000000000, timeOptimization := true } :
        DateHistogram Int)) ∧
    ∃ item ∈ intervalUnits, ∃ v : Int,
      strconv.Atoi (strings.TrimSuffix "30s" item.1) = .ok v ∧
      ({ fieldName := "ts", interval := 30000000000, timeOptimization := true } :
        DateHistogram Int).interval = wrapInt64 (item.2 * v) ∧
      (0 < v → item.2 * v < 2 ^ 63 →
        0 < ({ fieldName := "ts", interval := 30000000000, timeOptimization := true } :
          DateHistogram Int).interval) ∧
      (v = 0 → ({ fieldName := "ts", interval := 30000000000, timeOptimization := true } :
          DateHistogram Int).interval = 0) ∧
      (v < 0 → -(2 ^ 63) ≤ item.2 * v →
        ({ fieldName := "ts", interval := 30000000000, timeOptimization := true } :
          DateHistogram Int).interval < 0) :=
  ⟨rfl, C28_interval_sign "30s" "ts" (some queries.sampleTimeRange) true _ rfl⟩

/-! ## Appending to a section -/

open queries in
/-- C27 (what the code returns): for every section and every clause that is not nil,
AppendChild appends the clause to the children of the receiver and returns the
embedded composite: a Section with the same children whose `String` is empty,
whatever the receiver renders. AppendChild(nil) returns nil and leaves the
receiver as it was. For the empty MustSection and the clause `exists pid` the
receiver renders `((isNotNull(pid)))` after the append, the returned Section
renders the empty string. -/
theorem C27_AppendChild_returns_composite {F : Type} (go : GoLib F) (s : Section F)
    (c : Clause F) :
    (s.AppendChild (some c)).1.Children = s.Children ++ [c] ∧
    (s.AppendChild (some c)).1.kind = s.kind ∧
    (s.AppendChild (some c)).2.map Section.Children = some (s.Children ++ [c]) ∧
    (s.AppendChild (some c)).2.map (Section.String go) = some "" ∧
    s.AppendChild none = (s, none) ∧
    Section.String go
        ((Section.mk .mustSection []).AppendChild (some (.existsClause "pid"))).1 =
      "((isNotNull(pid)))" ∧
    ((Section.mk .mustSection []).AppendChild (some (.existsClause "pid") :
        Option (Clause F))).2.map (Section.String go) = some "" := by
  refine ⟨rfl, rfl, rfl, ?_, rfl, ?_, ?_⟩
  · simp [Section.AppendChild, Section.String, SectionKind.render]
  · rfl
  · simp [Section.AppendChild, Section.String, SectionKind.render]

/-! ## Field-match items without tokens -/

open queries in
/-- C30 (what the code renders without tokens): when the expression of an
index-routed field-match yields no token, the inverted-index request has no
WHERE condition of its own and the HAVING count 0, the residual filter is the
empty string, and the item renders `op (ts-column IN (sub-query) AND )`, with
nothing between `AND` and the closing parenthesis. -/
theorem C30_no_tokens {F : Type} (go : GoLib F) (fm : fieldMatch) (wildCards : Bool)
    (r : RangeClause F) (hi : fm.indexTable ≠ "") (hts : fm.tsColumn ≠ "")
    (htok : index.GetTokens go fm.expr = []) :
    (index.CreateFullTextSearchConditions go fm.expr fm.field.CHName fm.indexTable).2 = "" ∧
    (index.CreateFullTextSearchConditions go fm.expr fm.field.CHName fm.indexTable).1.«where» =
      "" ∧
    (index.CreateFullTextSearchConditions go fm.expr fm.field.CHName fm.indexTable).1.having =
      "HAVING uniq(word_hash) = 0" ∧
    fm.toString go wildCards r =
      fm.logicalOp ++ " (" ++ fm.tsColumn ++ " IN (" ++
        ((index.createInvertedIndexRequest [] fm.field.CHName fm.indexTable).WhereAnd
          (r.String go)).Build ++ ") AND )" := by
  refine ⟨?_, ?_, ?_, ?_⟩
  · simp [index.CreateFullTextSearchConditions, htok, index.createAdditionalFilters,
      strings.Join]
  · simp only [index.CreateFullTextSearchConditions, htok]
    rfl
  · simp only [index.CreateFullTextSearchConditions, htok]
    rfl
  · simp [fieldMatch.toString, hi, hts, index.CreateFullTextSearchConditions, htok,
      index.createAdditionalFilters, strings.Join, String.append_assoc]

set_option maxRecDepth 20000 in
open queries in
/-- C30 (failing input): the item of `message:php` on a table with inverted index.
The only word of the expression is a stopword, so there is no token, and the
item renders a fragment that ends in `AND )`. -/
theorem C30_no_tokens_witness :
    sampleStopwordMatch.indexTable ≠ "" ∧ sampleStopwordMatch.tsColumn ≠ "" ∧
    index.GetTokens GoLib.ascii sampleStopwordMatch.expr = [] ∧
    ((index.CreateFullTextSearchConditions GoLib.ascii sampleStopwordMatch.expr
        sampleStopwordMatch.field.CHName sampleStopwordMatch.indexTable).2 = "" ∧
      (index.CreateFullTextSearchConditions GoLib.ascii sampleStopwordMatch.expr
        sampleStopwordMatch.field.CHName sampleStopwordMatch.indexTable).1.«where» = "" ∧
      (index.CreateFullTextSearchConditions GoLib.ascii sampleStopwordMatch.expr
        sampleStopwordMatch.field.CHName sampleStopwordMatch.indexTable).1.having =
        "HAVING uniq(word_hash) = 0" ∧
      sampleStopwordMatch.toString GoLib.ascii false (NewRange GoLib.ascii "" false) =
        sampleStopwordMatch.logicalOp ++ " (" ++ sampleStopwordMatch.tsColumn ++ " IN (" ++
          ((index.createInvertedIndexRequest [] sampleStopwordMatch.field.CHName
            sampleStopwordMatch.indexTable).WhereAnd
              ((NewRange GoLib.ascii "" false).String GoLib.ascii)).Build ++ ") AND )") ∧
    sampleStopwordMatch.toString GoLib.ascii false (NewRange GoLib.ascii "" false) =
      " (ts IN (SELECT ts FROM logs.inverted_index_gate  GROUP BY ts HAVING uniq(word_hash) = 0 ORDER BY ts DESC ) AND )" :=
  ⟨by decide, by decide, by decide,
    C30_no_tokens GoLib.ascii sampleStopwordMatch false (NewRange GoLib.ascii "" false)
      (by decide) (by decide) (by decide),
    by decide⟩

/-! ## Parentheses of the fragment of a bool query -/

set_option maxRecDepth 20000 in
open queries in
/-- C29 (failing input): the bool query with the must-clause `exists pid` and the
filter-clause `exists line`. The fragments of its children have balanced
parentheses, and so has its own fragment, which starts with `(`; but that
parenthesis is closed before ` AND `, not by the last character, so the fragment
is not self-contained. As the only child of a must-not section it is prefixed
with NOT, which then applies to the first part only; a bool query with one
non-empty section does render a self-contained fragment. -/
theorem C29_two_parts_not_self_contained :
    Clause.String GoLib.ascii sampleTwoPartBool =
      "((isNotNull(pid))) AND ((isNotNull(line)))" ∧
    balanced (Clause.String GoLib.ascii (.existsClause "pid" : Clause Int)) = true ∧
    balanced (Clause.String GoLib.ascii (.existsClause "line" : Clause Int)) = true ∧
    balanced (Clause.String GoLib.ascii sampleTwoPartBool) = true ∧
    afterMatching 0 ("((isNotNull(pid))) AND ((isNotNull(line)))".data.tail) =
      some " AND ((isNotNull(line)))".data ∧
    selfContained (Clause.String GoLib.ascii sampleTwoPartBool) = false ∧
    Section.String GoLib.ascii (.mk .mustNotSection [sampleTwoPartBool]) =
      "( NOT ((isNotNull(pid))) AND ((isNotNull(line))))" ∧
    selfContained (Clause.String GoLib.ascii
      (.boolSection (.mk .mustSection [.existsClause "pid", .existsClause "line"])
        (.mk .emptySection []) (.mk .emptySection []) (.mk .emptySection []) :
        Clause Int)) = true := by
  refine ⟨by decide, by decide, by decide, by decide, by decide, by decide, by decide,
    by decide⟩

/-! ## Wide notation: bracketed values -/

theorem queries.isLogicalOp_length {F : Type} (go : GoLib F) (s : String)
    (h : queries.isLogicalOp go s = true) : s.data.length = 2 ∨ s.data.length = 3 := by
  unfold queries.isLogicalOp strings.ToLower at h
  simp only [Bool.or_eq_true, decide_eq_true_eq] at h
  have hlen : ∀ t : String, (⟨s.data.map go.toLower⟩ : String) = t →
      s.data.length = t.data.length := by
    intro t ht
    rw [← ht]
    simp
  rcases h with ((h | h) | h) | h
  · exact Or.inr (hlen _ h)
  · exact Or.inl (hlen _ h)
  · exact Or.inr (hlen _ h)
  · exact Or.inr (hlen _ h)

theorem queries.isLogicalOp_colon {F : Type} (go : GoLib F) :
    queries.isLogicalOp go ":" = false := by
  cases h : queries.isLogicalOp go ":" with
  | false => rfl
  | true =>
    have := queries.isLogicalOp_length go ":" h
    simp at this

/-- The item that the loop of `parseWideNotation` appends for a match value. -/
theorem queries.parseWideNotation_step_value {F : Type} (go : GoLib F)
    (tableInfo : models.ModelInfo) (items : List queries.queryItem)
    (prev field : String) (braces : Int) (op : String) (part : String)
    (props : models.FieldProps) (hp : plainToken go part = true)
    (hm : prev = ":" ∨ (field ≠ "" ∧ braces > 0))
    (hlook : tableInfo.lookup field = some props) :
    queries.parseWideNotation.step go tableInfo
        (queries.wideState.mk items prev field braces op) part =
      some (queries.wideState.mk
        (items ++ [wideNotationItem tableInfo props field part op])
        part (if braces = 0 then "" else field) braces "") := by
  unfold plainToken at hp
  simp only [Bool.and_eq_true, decide_eq_true_eq, Bool.not_eq_true', ne_eq] at hp
  obtain ⟨⟨hb, hl⟩, hc⟩ := hp
  unfold queries.parseWideNotation.step wideNotationItem
  cases hts : tableInfo.GetTimestampField with
  | none =>
    rcases hm with hm | hm <;>
      simp [hb, hl, hc, hm, hlook, hts]
  | some tsField =>
    cases hfts : props.FullTextSearch <;> rcases hm with hm | hm <;>
      simp [hb, hl, hc, hm, hlook, hts, hfts, index.GetInvertedIndexTableName]

/-- The loop of `parseWideNotation` over `OR v` pairs inside an open bracket. -/
theorem queries.parseWideNotation_or_values {F : Type} (go : GoLib F)
    (tableInfo : models.ModelInfo) (f : String) (props : models.FieldProps)
    (hlook : tableInfo.lookup f = some props) (hfne : f ≠ "")
    (hor : queries.isLogicalOp go "OR" = true) (rest : List String)
    (hrest : ∀ v ∈ rest, plainToken go v = true) (items : List queries.queryItem)
    (prev : String) :
    ∃ last, (rest.flatMap (fun v => ["OR", v])).foldlM
        (queries.parseWideNotation.step go tableInfo)
        (queries.wideState.mk items prev f 1 "") =
      some (queries.wideState.mk
        (items ++ rest.map (fun v => wideNotationItem tableInfo props f v " OR"))
        last f 1 "") := by
  induction rest generalizing items prev with
  | nil => exact ⟨prev, by simp⟩
  | cons v rest ih =>
    have hv := hrest v (by simp)
    have hstep1 : queries.parseWideNotation.step go tableInfo
        (queries.wideState.mk items prev f 1 "") "OR" =
        some (queries.wideState.mk items "OR" f 1 " OR") := by
      unfold queries.parseWideNotation.step
      have hb : queries.getBraceKind "OR" = 0 := by decide
      simp [hb, hor]
    have hstep2 := queries.parseWideNotation_step_value go tableInfo items "OR" f 1 " OR"
      v props hv (Or.inr ⟨hfne, by norm_num⟩) hlook
    obtain ⟨last, hrec⟩ := ih (fun w hw => hrest w (by simp [hw]))
      (items ++ [wideNotationItem tableInfo props f v " OR"]) v
    refine ⟨last, ?_⟩
    have h10 : ((1 : Int) = 0) = False := by norm_num
    simp only [h10, if_false] at hstep2
    simp only [List.flatMap_cons, List.cons_append, List.nil_append, List.foldlM_cons,
      hstep1, Option.bind_eq_bind, Option.some_bind, hstep2, hrec]
    simp

open queries in
/-- C24 (counterexample): on a table with a column named `or` the tokens of
`or:(a OR b)` do not start with the literal `(`: the field name is read as a
logical keyword and reaches the output as the literal ` or` first. -/
theorem C24_keyword_field :
    models.sampleKeywordColumn.lookup "or" =
      some { CHName := "or", CHType := "String" } ∧
    splitQuery "or:(a OR b)" = ["or", ":", "(", "a", "OR", "b", ")"] ∧
    parseWideNotation GoLib.ascii (splitQuery "or:(a OR b)") models.sampleKeywordColumn =
      some [.simpleItem " or", .simpleItem "(",
        .fieldMatch { field := { CHName := "or", CHType := "String" }, expr := "a" },
        .fieldMatch
          { field := { CHName := "or", CHType := "String" }, expr := "b", logicalOp := " OR" },
        .simpleItem ")"] := by
  refine ⟨by decide, by decide, by decide⟩

open queries in
/-- C24 (amended): for every field `f` present in the descriptor table that is itself
a plain token and not empty, and plain value tokens `v1`, ..., `vn` with n ≥ 1,
wide-notation parsing of the tokens `f : ( v1 OR v2 ... OR vn )` yields, in
order, the literal `(`, a field-match on `f` for `v1` with no operator, a
field-match on `f` for each later value with the operator text ` OR` (a blank
and the keyword as written), and the literal `)`; each field-match is routed to
the inverted index when `f` is full-text indexed and the table has a timestamp
column. -/
theorem C24_bracketed_values {F : Type} (go : GoLib F) (tableInfo : models.ModelInfo)
    (f : String) (props : models.FieldProps) (v1 : String) (rest : List String)
    (hlook : tableInfo.lookup f = some props)
    (hf : plainToken go f = true) (hfne : f ≠ "")
    (hv1 : plainToken go v1 = true) (hrest : ∀ v ∈ rest, plainToken go v = true)
    (hor : isLogicalOp go "OR" = true) :
    parseWideNotation go
        ([f, ":", "(", v1] ++ rest.flatMap (fun v => ["OR", v]) ++ [")"]) tableInfo =
      some ([.simpleItem "(", wideNotationItem tableInfo props f v1 ""] ++
        rest.map (fun v => wideNotationItem tableInfo props f v " OR") ++
        [.simpleItem ")"]) := by
  have hf' := hf
  unfold plainToken at hf'
  simp only [Bool.and_eq_true, decide_eq_true_eq, Bool.not_eq_true', ne_eq] at hf'
  obtain ⟨⟨hfb, hfl⟩, hfc⟩ := hf'
  have hs1 : parseWideNotation.step go tableInfo (wideState.mk [] "" "" 0 "") f =
      some (wideState.mk [] f "" 0 "") := by
    unfold parseWideNotation.step
    simp [hfb, hfl, hfc]
  have hs2 : parseWideNotation.step go tableInfo (wideState.mk [] f "" 0 "") ":" =
      some (wideState.mk [] ":" f 0 "") := by
    unfold parseWideNotation.step
    have hb : getBraceKind ":" = 0 := by decide
    simp [hb, isLogicalOp_colon]
  have hs3 : parseWideNotation.step go tableInfo (wideState.mk [] ":" f 0 "") "(" =
      some (wideState.mk [.simpleItem "("] "(" f 1 "") := by
    unfold parseWideNotation.step
    have hb : getBraceKind "(" = 1 := by decide
    simp [hb]
  have hs4 := parseWideNotation_step_value go tableInfo [.simpleItem "("] "(" f 1 "" v1 props
    hv1 (Or.inr ⟨hfne, by norm_num⟩) hlook
  have h10 : ((1 : Int) = 0) = False := by norm_num
  simp only [h10, if_false] at hs4
  obtain ⟨last, hloop⟩ := parseWideNotation_or_values go tableInfo f props hlook hfne hor rest
    hrest ([.simpleItem "("] ++ [wideNotationItem tableInfo props f v1 ""]) v1
  have hs5 : ∀ items : List queryItem, parseWideNotation.step go tableInfo
      (wideState.mk items last f 1 "") ")" =
      some (wideState.mk (items ++ [.simpleItem ")"]) ")" f 0 "") := by
    intro items
    unfold parseWideNotation.step
    have hb : getBraceKind ")" = -1 := by decide
    simp [hb]
  have hinit : wideState.initial = wideState.mk [] "" "" 0 "" := rfl
  simp only [List.cons_append, List.nil_append] at hloop hs4
  unfold parseWideNotation
  rw [hinit]
  simp only [List.cons_append, List.nil_append, List.foldlM_cons, List.foldlM_append,
    hs1, hs2, hs3, Option.bind_eq_bind, Option.some_bind, hs4, hloop, hs5, List.foldlM_nil]
  simp

set_option maxRecDepth 100000 in
open queries in
/-- C24 (witness): the tokens of `message:("SQL update" OR "SQL select")` on the table
`sampleGate`, and the whole query of the test, which continues with
`AND file:"DB"`: the literal `(`, the two field-matches on `message`, the second
with the operator text ` OR`, the literal `)`, and the field-match on `file` with
the operator text ` AND`, all routed to the inverted index. -/
theorem C24_bracketed_values_witness :
    models.sampleGate.lookup "message" =
      some { CHName := "message", CHType := "String", FullTextSearch := true } ∧
    plainToken GoLib.ascii "message" = true ∧ "message" ≠ "" ∧
    plainToken GoLib.ascii "\"SQL update\"" = true ∧
    (∀ v ∈ ["\"SQL select\""], plainToken GoLib.ascii v = true) ∧
    isLogicalOp GoLib.ascii "OR" = true ∧
    parseWideNotation GoLib.ascii
        (["message", ":", "(", "\"SQL update\""] ++
          ["\"SQL select\""].flatMap (fun v => ["OR", v]) ++ [")"]) models.sampleGate =
      some ([.simpleItem "(",
          wideNotationItem models.sampleGate
            { CHName := "message", CHType := "String", FullTextSearch := true }
            "message" "\"SQL update\"" ""] ++
        ["\"SQL select\""].map (fun v => wideNotationItem models.sampleGate
            { CHName := "message", CHType := "String", FullTextSearch := true }
            "message" v " OR") ++
        [.simpleItem ")"]) ∧
    splitQuery "message:(\"SQL update\" OR \"SQL select\")" =
      ["message", ":", "(", "\"SQL update\"", "OR", "\"SQL select\"", ")"] ∧
    parseWideNotation GoLib.ascii
        (splitQuery "message:(\"SQL update\" OR \"SQL select\") AND file:\"DB\"")
        models.sampleGate =
      some [.simpleItem "(",
        .fieldMatch { field := { CHName := "message", CHType := "String" },
                      expr := "\"SQL update\"", indexTable := "inverted_index_gate",
                      tsColumn := "ts" },
        .fieldMatch { field := { CHName := "message", CHType := "String" },
                      expr := "\"SQL select\"", logicalOp := " OR",
                      indexTable := "inverted_index_gate", tsColumn := "ts" },
        .simpleItem ")",
        .fieldMatch { field := { CHName := "file", CHType := "String" },
                      expr := "\"DB\"", logicalOp := " AND",
                      indexTable := "inverted_index_gate", tsColumn := "ts" }] :=
  ⟨by decide, by decide, by decide, by decide, by decide, by decide,
    C24_bracketed_values GoLib.ascii models.sampleGate "message"
      { CHName := "message", CHType := "String", FullTextSearch := true }
      "\"SQL update\"" ["\"SQL select\""] (by decide) (by decide) (by decide) (by decide)
      (by decide) (by decide),
    by decide, by decide⟩

/-! ## The tokenizer -/

theorem quotedAfter_append (b : Bool) (l1 l2 : List Char) :
    quotedAfter b (l1 ++ l2) = quotedAfter (quotedAfter b l1) l2 := by
  induction l1 generalizing b with
  | nil => rfl
  | cons c cs ih =>
    rw [List.cons_append, quotedAfter, quotedAfter, ih]

theorem outsideQuotes_append (b : Bool) (l1 l2 : List Char) :
    outsideQuotes b (l1 ++ l2) = outsideQuotes b l1 ++ outsideQuotes (quotedAfter b l1) l2 := by
  induction l1 generalizing b with
  | nil => rfl
  | cons c cs ih =>
    rw [List.cons_append, outsideQuotes, outsideQuotes, quotedAfter, ih]
    by_cases hc : c = '"' <;> cases b <;> simp [hc]

/-- A run of white space holds no quote, so it does not change the quoting, and
none of its characters is a separator character. -/
theorem outsideQuotes_spaces (b : Bool) (ws : List Char)
    (h : ∀ c ∈ ws, strings.isSpace c = true) :
    quotedAfter b ws = b ∧ (outsideQuotes b ws).filter isSeparatorChar = [] := by
  induction ws with
  | nil => exact ⟨rfl, rfl⟩
  | cons c cs ih =>
    have hc := h c (by simp)
    have hq : c ≠ '"' := by
      rintro rfl
      revert hc
      decide
    have hs : isSeparatorChar c = false := by
      unfold isSeparatorChar
      have h1 : c ≠ '(' := by rintro rfl; revert hc; decide
      have h2 : c ≠ ')' := by rintro rfl; revert hc; decide
      have h3 : c ≠ ':' := by rintro rfl; revert hc; decide
      simp [h1, h2, h3]
    obtain ⟨ih1, ih2⟩ := ih (fun d hd => h d (by simp [hd]))
    simp only [quotedAfter, outsideQuotes, hq, if_false]
    refine ⟨ih1, ?_⟩
    cases b <;> simp [ih2, hs]

theorem strings.TrimSpace_decompose (s : String) :
    ∃ front back : List Char, s.data = front ++ (strings.TrimSpace s).data ++ back ∧
      (∀ c ∈ front, strings.isSpace c = true) ∧ (∀ c ∈ back, strings.isSpace c = true) := by
  refine ⟨s.data.takeWhile strings.isSpace,
    ((s.data.dropWhile strings.isSpace).reverse.takeWhile strings.isSpace).reverse, ?_, ?_, ?_⟩
  · have h1 : s.data = s.data.takeWhile strings.isSpace ++ s.data.dropWhile strings.isSpace :=
      (List.takeWhile_append_dropWhile _ _).symm
    have h2 : (s.data.dropWhile strings.isSpace) =
        ((s.data.dropWhile strings.isSpace).reverse.dropWhile strings.isSpace).reverse ++
          ((s.data.dropWhile strings.isSpace).reverse.takeWhile strings.isSpace).reverse := by
      rw [← List.reverse_append, List.takeWhile_append_dropWhile, List.reverse_reverse]
    simp only [strings.TrimSpace, strings.trimRight]
    rw [List.append_assoc, ← h2]
    exact h1
  · intro c hc
    exact List.mem_takeWhile_imp hc
  · intro c hc
    rw [List.mem_reverse] at hc
    exact List.mem_takeWhile_imp hc

/-- Trimming white space keeps the separator characters outside quoted spans. -/
theorem outsideQuotes_TrimSpace (s : String) :
    (outsideQuotes false (strings.TrimSpace s).data).filter isSeparatorChar =
      (outsideQuotes false s.data).filter isSeparatorChar := by
  obtain ⟨front, back, hs, hfront, hback⟩ := strings.TrimSpace_decompose s
  rw [hs, outsideQuotes_append, outsideQuotes_append, List.filter_append, List.filter_append,
    (outsideQuotes_spaces _ back hback).2,
    (outsideQuotes_spaces false front hfront).1, (outsideQuotes_spaces false front hfront).2]
  simp

theorem strings.mem_TrimSpace_of_not_space (s : String) (c : Char) (h : c ∈ s.data)
    (hc : strings.isSpace c = false) : c ∈ (strings.TrimSpace s).data := by
  obtain ⟨front, back, hs, hfront, hback⟩ := strings.TrimSpace_decompose s
  rw [hs] at h
  simp only [List.mem_append] at h
  rcases h with (h | h) | h
  · rw [hfront c h] at hc; cases hc
  · exact h
  · rw [hback c h] at hc; cases hc

theorem cleanToken_not_separator (cs : List Char) (hne : cs ≠ [])
    (h : cleanToken cs = true) : isSeparatorToken (String.mk cs) = false := by
  cases hs : isSeparatorToken (String.mk cs) with
  | false => rfl
  | true =>
    exfalso
    unfold isSeparatorToken at hs
    simp only [Bool.or_eq_true, decide_eq_true_eq] at hs
    rcases hs with (hs | hs) | hs
    · have := congrArg String.data hs
      simp only at this
      subst this
      revert h
      decide
    · have := congrArg String.data hs
      simp only at this
      subst this
      revert h
      decide
    · have := congrArg String.data hs
      simp only at this
      subst this
      revert h
      decide

theorem cleanToken_append_singleton (l : List Char) (c : Char) :
    cleanToken (l ++ [c]) =
      (cleanToken l &&
        (if (if c = '"' then !(quotedAfter false l) else quotedAfter false l) then true
          else (decide (c ≠ ' ') && !isSeparatorChar c))) := by
  unfold cleanToken
  rw [outsideQuotes_append, List.all_append]
  congr 1
  by_cases hc : c = '"' <;> cases hq : quotedAfter false l <;> simp [outsideQuotes, hc]

theorem separatorsOf_append_singleton (p : List Char) (c : Char) :
    separatorsOf (p ++ [c]) =
      separatorsOf p ++
        (if (if c = '"' then !(quotedAfter false p) else quotedAfter false p) then []
          else if isSeparatorChar c then [String.mk [c]] else []) := by
  unfold separatorsOf
  rw [outsideQuotes_append, List.filter_append, List.map_append]
  congr 1
  have hquote : isSeparatorChar '"' = false := by decide
  by_cases hc : c = '"'
  · subst hc
    cases hq : quotedAfter false p <;> simp [outsideQuotes, hquote]
  · cases hq : quotedAfter false p <;>
      by_cases hs : isSeparatorChar c = true <;> simp [outsideQuotes, hc, hs]

theorem filter_separator_append_clean (parts : List String) (pending : List Char)
    (hne : pending ≠ []) (h : cleanToken pending = true) :
    (parts ++ [String.mk pending]).filter isSeparatorToken = parts.filter isSeparatorToken := by
  rw [List.filter_append]
  simp [cleanToken_not_separator pending hne h]

theorem splitQuery_step_invariant (st : queries.splitState) (p : List Char) (c : Char)
    (h : splitInvariant st p) : splitInvariant (queries.splitQuery.step st c) (p ++ [c]) := by
  obtain ⟨h1, h2, h3, h4, h5⟩ := h
  have hq : quotedAfter false (p ++ [c]) = (if c = '"' then !st.quoted else st.quoted) := by
    rw [quotedAfter_append, ← h1]
    rfl
  have hqp : quotedAfter false (st.pending ++ [c]) =
      (if c = '"' then !st.quoted else st.quoted) := by
    rw [quotedAfter_append, h2]
    rfl
  unfold queries.splitQuery.step
  simp only []
  by_cases hquoted : (if c = '"' then !st.quoted else st.quoted) = true
  · rw [if_pos hquoted]
    refine ⟨?_, ?_, ?_, h4, ?_⟩
    · simp only [hq]
    · simp only [hqp]
    · rw [cleanToken_append_singleton, h2, hquoted, h3]
      rfl
    · rw [separatorsOf_append_singleton, ← h1, hquoted, h5]
      simp
  · rw [if_neg hquoted]
    have hquoted' : (if c = '"' then !st.quoted else st.quoted) = false := by
      simpa using hquoted
    by_cases hsep : (c = ' ' || c = '(' || c = ')' || c = ':') = true
    · rw [if_pos hsep]
      have hgood : ∀ tok ∈ (if st.pending ≠ [] then st.parts ++ [String.mk st.pending]
          else st.parts), goodToken tok := by
        intro tok htok
        by_cases hp : st.pending = []
        · rw [if_neg (by simpa using hp)] at htok
          exact h4 tok htok
        · rw [if_pos hp] at htok
          rcases List.mem_append.mp htok with ht | ht
          · exact h4 tok ht
          · rw [List.mem_singleton] at ht
            subst ht
            exact ⟨hp, Or.inr h3⟩
      have hfilter : (if st.pending ≠ [] then st.parts ++ [String.mk st.pending]
          else st.parts).filter isSeparatorToken = separatorsOf p := by
        by_cases hp : st.pending = []
        · rw [if_neg (by simpa using hp)]
          exact h5
        · rw [if_pos hp, filter_separator_append_clean _ _ hp h3]
          exact h5
      by_cases hblank : c = ' '
      · subst hblank
        refine ⟨?_, ?_, ?_, ?_, ?_⟩
        · simp only [hq]
        · simp only [hquoted']
          rfl
        · rfl
        · simpa using hgood
        · rw [separatorsOf_append_singleton, ← h1, hquoted']
          simpa [isSeparatorChar] using hfilter
      · have hsc : isSeparatorChar c = true := by
          unfold isSeparatorChar
          simpa [hblank] using hsep
        have hst : isSeparatorToken (String.mk [c]) = true := by
          unfold isSeparatorChar at hsc
          unfold isSeparatorToken
          simp only [Bool.or_eq_true, decide_eq_true_eq] at hsc ⊢
          rcases hsc with (h | h) | h <;> subst h <;> decide
        refine ⟨?_, ?_, ?_, ?_, ?_⟩
        · simp only [hq]
        · simp only [hquoted']
          rfl
        · rfl
        · intro tok htok
          simp only [ne_eq, hblank, not_false_eq_true, if_true] at htok
          rcases List.mem_append.mp htok with ht | ht
          · exact hgood tok ht
          · rw [List.mem_singleton] at ht
            subst ht
            exact ⟨by simp, Or.inl hst⟩
        · rw [separatorsOf_append_singleton, ← h1, hquoted']
          simp only [ne_eq, hblank, not_false_eq_true, if_true, List.filter_append, hfilter]
          simp [hst, hsc]
    · rw [if_neg hsep]
      have hsep' : c ≠ ' ' ∧ c ≠ '(' ∧ c ≠ ')' ∧ c ≠ ':' := by
        simp only [Bool.or_eq_true, decide_eq_true_eq, not_or] at hsep
        exact ⟨hsep.1.1.1, hsep.1.1.2, hsep.1.2, hsep.2⟩
      have hsc : isSeparatorChar c = false := by
        unfold isSeparatorChar
        simp [hsep'.2.1, hsep'.2.2.1, hsep'.2.2.2]
      refine ⟨?_, ?_, ?_, h4, ?_⟩
      · simp only [hq]
      · simp only [hqp]
      · rw [cleanToken_append_singleton, h2, hquoted', h3]
        simp [hsep'.1, hsc]
      · rw [separatorsOf_append_singleton, ← h1, hquoted', h5]
        simp [hsc]

/-- The loop of `splitQuery` from a state that satisfies the invariant. -/
theorem splitQuery_loop (rest : List Char) (st : queries.splitState) (p : List Char)
    (h : splitInvariant st p) :
    (∀ tok ∈ (if (rest.foldl queries.splitQuery.step st).pending ≠ []
        then (rest.foldl queries.splitQuery.step st).parts ++
          [String.mk (rest.foldl queries.splitQuery.step st).pending]
        else (rest.foldl queries.splitQuery.step st).parts), goodToken tok) ∧
    (if (rest.foldl queries.splitQuery.step st).pending ≠ []
        then (rest.foldl queries.splitQuery.step st).parts ++
          [String.mk (rest.foldl queries.splitQuery.step st).pending]
        else (rest.foldl queries.splitQuery.step st).parts).filter isSeparatorToken =
      separatorsOf (p ++ rest) := by
  induction rest generalizing st p with
  | nil =>
    obtain ⟨h1, h2, h3, h4, h5⟩ := h
    simp only [List.foldl_nil, List.append_nil]
    by_cases hp : st.pending = []
    · rw [if_neg (by simpa using hp)]
      exact ⟨h4, h5⟩
    · rw [if_pos hp]
      refine ⟨?_, ?_⟩
      · intro tok htok
        rcases List.mem_append.mp htok with ht | ht
        · exact h4 tok ht
        · rw [List.mem_singleton] at ht
          subst ht
          exact ⟨hp, Or.inr h3⟩
      · rw [filter_separator_append_clean _ _ hp h3]
        exact h5
  | cons c rest ih =>
    have := ih (queries.splitQuery.step st c) (p ++ [c]) (splitQuery_step_invariant st p c h)
    simpa using this

theorem pieces_flatten (m : List (Char × Bool)) : (pieces m).flatten = m := by
  induction m with
  | nil => rfl
  | cons x xs ih =>
    rw [pieces]
    split
    · simp [ih]
    · split
      · rename_i h
        rw [h] at ih
        simp only [List.flatten_nil] at ih
        simp [← ih]
      · rename_i piece rest h
        rw [h] at ih
        split <;> simp [← ih]

/-- Every piece is a single break or a non-empty run without a break. -/
theorem pieces_kind (m : List (Char × Bool)) :
    ∀ p ∈ pieces m, (∃ x, p = [x] ∧ isBreak x = true) ∨
      (p ≠ [] ∧ ∀ x ∈ p, isBreak x = false) := by
  induction m with
  | nil => simp [pieces]
  | cons x xs ih =>
    rw [pieces]
    split
    · rename_i hx
      intro p hp
      rcases List.mem_cons.mp hp with hp | hp
      · exact Or.inl ⟨x, hp, hx⟩
      · exact ih p hp
    · rename_i hx
      have hx' : isBreak x = false := by simpa using hx
      split
      · intro p hp
        simp only [List.mem_singleton] at hp
        subst hp
        exact Or.inr ⟨by simp, by simp [hx']⟩
      · rename_i piece rest h
        rw [h] at ih
        split
        · intro p hp
          rcases List.mem_cons.mp hp with hp | hp
          · subst hp
            exact Or.inr ⟨by simp, by simp [hx']⟩
          · exact ih p hp
        · rename_i hany
          intro p hp
          rcases List.mem_cons.mp hp with hp | hp
          · subst hp
            refine Or.inr ⟨by simp, ?_⟩
            intro y hy
            rcases List.mem_cons.mp hy with hy | hy
            · rw [hy]; exact hx'
            · simp only [List.any_eq_true, not_exists, not_and, Bool.not_eq_true] at hany
              exact hany y hy
          · exact ih p (List.mem_cons_of_mem _ hp)

/-- Of two neighbouring pieces one is a break: the runs between breaks are not cut. -/
theorem pieces_maximal (m : List (Char × Bool)) :
    (pieces m).Chain' (fun a b => a.any isBreak = true ∨ b.any isBreak = true) := by
  induction m with
  | nil => simp [pieces]
  | cons x xs ih =>
    rw [pieces]
    split
    · rename_i hx
      cases h : pieces xs with
      | nil => simp
      | cons piece rest =>
        rw [h] at ih
        exact List.Chain'.cons (Or.inl (by simp [hx])) ih
    · split
      · simp
      · rename_i piece rest h
        rw [h] at ih
        split
        · rename_i hany
          exact List.Chain'.cons (Or.inr hany) ih
        · rename_i hany
          cases rest with
          | nil => simp
          | cons second rest2 =>
            rw [List.chain'_cons] at ih ⊢
            refine ⟨?_, ih.2⟩
            rcases ih.1 with h1 | h1
            · exact absurd h1 hany
            · exact Or.inr h1

theorem pieces_of_no_break (pm : List (Char × Bool)) (h : ∀ x ∈ pm, isBreak x = false) :
    pieces pm = if pm = [] then [] else [pm] := by
  induction pm with
  | nil => rfl
  | cons x xs ih =>
    have hx : isBreak x = false := h x (by simp)
    have ih' := ih (fun y hy => h y (by simp [hy]))
    rw [pieces, ih']
    by_cases hxs : xs = []
    · simp [hx, hxs]
    · have hany : xs.any isBreak = false := by
        simp only [List.any_eq_false, Bool.not_eq_true]
        exact fun y hy => h y (by simp [hy])
      simp [hx, hxs, hany]

theorem pieces_run_then_break (pm : List (Char × Bool)) (x : Char × Bool)
    (m : List (Char × Bool)) (h : ∀ y ∈ pm, isBreak y = false) (hx : isBreak x = true) :
    pieces (pm ++ x :: m) = (if pm = [] then [] else [pm]) ++ [x] :: pieces m := by
  induction pm with
  | nil => simp [pieces, hx]
  | cons y ys ih =>
    have hy : isBreak y = false := h y (by simp)
    have ih' := ih (fun z hz => h z (by simp [hz]))
    rw [List.cons_append, pieces, ih']
    by_cases hys : ys = []
    · simp [hy, hys, hx]
    · have hany : ys.any isBreak = false := by
        simp only [List.any_eq_false, Bool.not_eq_true]
        exact fun z hz => h z (by simp [hz])
      simp [hy, hys, hany]

theorem markQuotes_map_fst (b : Bool) (l : List Char) :
    (markQuotes b l).map Prod.fst = l := by
  induction l generalizing b with
  | nil => rfl
  | cons c cs ih => simp [markQuotes, ih]

/-- The loop of `splitQuery` from a state whose pending text is the run `pm`: the
result is the parts so far followed by the tokens of the pieces of `pm` and the
rest of the text. -/
theorem splitQuery_loop_pieces (rest : List Char) (st : queries.splitState)
    (pm : List (Char × Bool)) (hpm : pm.map Prod.fst = st.pending)
    (hnb : ∀ x ∈ pm, isBreak x = false) :
    (if (rest.foldl queries.splitQuery.step st).pending ≠ []
        then (rest.foldl queries.splitQuery.step st).parts ++
          [String.mk (rest.foldl queries.splitQuery.step st).pending]
        else (rest.foldl queries.splitQuery.step st).parts) =
      st.parts ++ pieceTokens (pieces (pm ++ markQuotes st.quoted rest)) := by
  induction rest generalizing st pm with
  | nil =>
    have hblank : pm ≠ [(' ', false)] := by
      intro hb
      have := hnb (' ', false) (by simp [hb])
      revert this
      decide
    simp only [List.foldl_nil, markQuotes, List.append_nil, pieces_of_no_break pm hnb]
    by_cases hp : st.pending = []
    · have : pm = [] := by
        rw [← hpm] at hp
        simpa using hp
      simp [hp, this, pieceTokens]
    · have : pm ≠ [] := by
        intro hpe
        rw [hpe] at hpm
        exact hp hpm.symm
      simp [hp, this, pieceTokens, hblank, hpm]
  | cons c rest ih =>
    rw [List.foldl_cons, markQuotes]
    by_cases hquoted : (if c = '"' then !st.quoted else st.quoted) = true
    · have hstep : queries.splitQuery.step st c =
          { st with pending := st.pending ++ [c], quoted := true } := by
        unfold queries.splitQuery.step
        simp only [hquoted, if_true]
      rw [hstep, ih _ (pm ++ [(c, true)]) (by simp [hpm])
        (by
          intro x hx
          rcases List.mem_append.mp hx with hx | hx
          · exact hnb x hx
          · simp only [List.mem_singleton] at hx
            subst hx
            rfl)]
      simp [hquoted]
    · have hquoted' : (if c = '"' then !st.quoted else st.quoted) = false := by
        simpa using hquoted
      by_cases hsep : (c = ' ' || c = '(' || c = ')' || c = ':') = true
      · have hstep : queries.splitQuery.step st c =
            { parts := (if c ≠ ' ' then
                  (if st.pending ≠ [] then st.parts ++ [String.mk st.pending]
                    else st.parts) ++ [String.mk [c]]
                else (if st.pending ≠ [] then st.parts ++ [String.mk st.pending]
                    else st.parts)),
              pending := [], quoted := false } := by
          unfold queries.splitQuery.step
          simp only [hquoted', Bool.false_eq_true, if_false, hsep, if_true]
        have hbreak : isBreak (c, false) = true := by
          unfold isBreak
          simpa using hsep
        rw [hstep, ih _ [] rfl (by simp), hquoted', pieces_run_then_break pm (c, false) _ hnb hbreak]
        have hblank : pm ≠ [(' ', false)] := by
          intro hb
          have := hnb (' ', false) (by simp [hb])
          revert this
          decide
        have hpe : (pm = []) ↔ (st.pending = []) := by
          rw [← hpm]
          simp
        by_cases hp : st.pending = []
        · have hpm0 : pm = [] := hpe.mpr hp
          by_cases hc : c = ' '
          · subst hc
            simp [hp, hpm0, pieceTokens]
          · have hne : [(c, false)] ≠ [(' ', false)] := by
              simpa using hc
            simp [hp, hpm0, pieceTokens, hc, hne]
        · have hpm0 : pm ≠ [] := fun h => hp (hpe.mp h)
          by_cases hc : c = ' '
          · subst hc
            simp [hp, hpm0, pieceTokens, hblank, hpm]
          · have hne : [(c, false)] ≠ [(' ', false)] := by
              simpa using hc
            simp [hp, hpm0, pieceTokens, hc, hne, hblank, hpm]
      · have hstep : queries.splitQuery.step st c =
            { st with pending := st.pending ++ [c], quoted := false } := by
          unfold queries.splitQuery.step
          simp only [hquoted', Bool.false_eq_true, if_false, hsep]
        have hnbreak : isBreak (c, false) = false := by
          unfold isBreak
          simpa using hsep
        rw [hstep, ih _ (pm ++ [(c, false)]) (by simp [hpm])
          (by
            intro x hx
            rcases List.mem_append.mp hx with hx | hx
            · exact hnb x hx
            · simp only [List.mem_singleton] at hx
              subst hx
              exact hnbreak)]
        simp [hquoted']

theorem isBreak_flag (x : Char × Bool) (h : isBreak x = true) : x.2 = false := by
  unfold isBreak at h
  simp only [Bool.and_eq_true, Bool.not_eq_true'] at h
  exact h.1

/-- Every piece but possibly the first starts outside a quoted span or with the
quote that opens one; so does the first when the text starts outside. -/
theorem pieces_head (b : Bool) (l : List Char) :
    (∀ p ∈ (pieces (markQuotes b l)).tail, ∀ x ∈ p.head?, x.2 = false ∨ x.1 = '"') ∧
    (b = false → ∀ p ∈ (pieces (markQuotes b l)).head?, ∀ x ∈ p.head?,
      x.2 = false ∨ x.1 = '"') := by
  induction l generalizing b with
  | nil => simp [markQuotes, pieces]
  | cons c cs ih =>
    have hhead : b = false → (if c = '"' then !b else b) = false ∨ c = '"' := by
      intro hb
      subst hb
      by_cases hc : c = '"'
      · exact Or.inr hc
      · exact Or.inl (by simp [hc])
    rw [markQuotes, pieces]
    generalize (if c = '"' then !b else b) = q at hhead ⊢
    obtain ⟨ih1, ih2⟩ := ih q
    have hfirst : b = false → ∀ (rest : List (Char × Bool)) (others : List (List (Char × Bool))),
        ∀ p ∈ (((c, q) :: rest) :: others).head?, ∀ x ∈ p.head?, x.2 = false ∨ x.1 = '"' := by
      intro hb rest others p hp x hx
      simp only [List.head?_cons, Option.mem_def, Option.some.injEq] at hp
      subst hp
      simp only [List.head?_cons, Option.mem_def, Option.some.injEq] at hx
      subst hx
      exact hhead hb
    by_cases hx : isBreak (c, q) = true
    · rw [if_pos hx]
      have hflag : q = false := isBreak_flag _ hx
      refine ⟨?_, fun hb => hfirst hb [] _⟩
      intro p hp
      simp only [List.tail_cons] at hp
      cases hps : pieces (markQuotes q cs) with
      | nil => rw [hps] at hp; cases hp
      | cons first others =>
        rw [hps] at hp ih1 ih2
        rcases List.mem_cons.mp hp with hp | hp
        · subst hp
          exact ih2 hflag p (by simp)
        · exact ih1 p (by simpa using hp)
    · rw [if_neg hx]
      cases hps : pieces (markQuotes q cs) with
      | nil =>
        simp only []
        exact ⟨by simp, fun hb => hfirst hb [] _⟩
      | cons piece rest =>
        simp only []
        rw [hps] at ih1
        simp only [List.tail_cons] at ih1
        by_cases hany : piece.any isBreak = true
        · rw [if_pos hany]
          refine ⟨?_, fun hb => hfirst hb [] _⟩
          intro p hp
          simp only [List.tail_cons] at hp
          rcases List.mem_cons.mp hp with hp | hp
          · subst hp
            have hk := pieces_kind (markQuotes q cs) p (by rw [hps]; simp)
            rcases hk with ⟨y, hy, hby⟩ | ⟨_, hnb⟩
            · intro x hx'
              rw [hy] at hx'
              simp only [List.head?_cons, Option.mem_def, Option.some.injEq] at hx'
              subst hx'
              exact Or.inl (isBreak_flag _ hby)
            · exfalso
              simp only [List.any_eq_true] at hany
              obtain ⟨y, hy, hby⟩ := hany
              rw [hnb y hy] at hby
              cases hby
          · exact ih1 p hp
        · rw [if_neg hany]
          refine ⟨?_, fun hb => hfirst hb piece _⟩
          intro p hp
          simp only [List.tail_cons] at hp
          exact ih1 p hp

theorem pieces_head_all (l : List Char) :
    ∀ p ∈ pieces (markQuotes false l), ∀ x ∈ p.head?, x.2 = false ∨ x.1 = '"' := by
  obtain ⟨h1, h2⟩ := pieces_head false l
  intro p hp
  cases hps : pieces (markQuotes false l) with
  | nil => rw [hps] at hp; cases hp
  | cons first others =>
    rw [hps] at hp h1 h2
    rcases List.mem_cons.mp hp with hp | hp
    · subst hp
      exact h2 rfl p (by simp)
    · exact h1 p (by simpa using hp)

/-- C25 (counterexample): only the blank separates tokens, so a tab between blanks
is a token of its own, made of white space only, and a tab next to a word stays
inside the token of the word. -/
theorem C25_tab_token :
    queries.splitQuery "a: \t b" = ["a", ":", "\t", "b"] ∧
    "\t".data.all strings.isSpace = true ∧
    queries.splitQuery "a:\tb" = ["a", ":", "\tb"] ∧
    outsideQuotes false "\tb".data = ['\t', 'b'] ∧ strings.isSpace '\t' = true := by
  refine ⟨by decide, by decide, by decide, by decide, by decide⟩

/-- C25 (amended): for every query string that contains `:`, every token returned by
splitQuery is non-empty and does not consist of blanks only; the tokens `(`, `)`
and `:` of the result are, in order, exactly the characters `(`, `)` and `:` that
occur in the query outside double-quoted spans; no other token contains a
blank, `(`, `)` or `:` outside a double-quoted span; and the tokens are exactly
these: the trimmed query, each character marked with its place inside or
outside the quoted spans of the query, is cut into pieces such that every blank,
bracket and colon outside the quoted spans is a piece of its own, every other
piece is a run without such a character, no two runs are neighbours, and every
piece starts outside a quoted span or with the quote that opens one; the
tokens are the texts of the pieces, in order, the blanks left out. -/
theorem C25_splitQuery_tokens (query : String) (h : ':' ∈ query.data) :
    (∀ tok ∈ queries.splitQuery query,
      tok ≠ "" ∧ tok.data.all (fun c => c = ' ') = false) ∧
    (queries.splitQuery query).filter isSeparatorToken =
      ((outsideQuotes false query.data).filter isSeparatorChar).map (fun c => String.mk [c]) ∧
    (∀ tok ∈ queries.splitQuery query, isSeparatorToken tok = false →
      ∀ c ∈ outsideQuotes false tok.data, c ≠ ' ' ∧ c ≠ '(' ∧ c ≠ ')' ∧ c ≠ ':') ∧
    ∃ ps : List (List (Char × Bool)),
      ps.flatten = markQuotes false (strings.TrimSpace query).data ∧
      (∀ p ∈ ps, (∃ x, p = [x] ∧ isBreak x = true) ∨
        (p ≠ [] ∧ ∀ x ∈ p, isBreak x = false)) ∧
      ps.Chain' (fun a b => a.any isBreak = true ∨ b.any isBreak = true) ∧
      (∀ p ∈ ps, ∀ x ∈ p.head?, x.2 = false ∨ x.1 = '"') ∧
      queries.splitQuery query = pieceTokens ps := by
  have hcolon : ':' ∈ (strings.TrimSpace query).data :=
    strings.mem_TrimSpace_of_not_space _ _ h (by decide)
  have hinit : splitInvariant { parts := [], pending := [], quoted := false } [] :=
    ⟨rfl, rfl, rfl, by simp, rfl⟩
  obtain ⟨hgood, hfilter⟩ := splitQuery_loop (strings.TrimSpace query).data _ [] hinit
  have hpieces := splitQuery_loop_pieces (strings.TrimSpace query).data
    { parts := [], pending := [], quoted := false } [] rfl (by simp)
  have hsplit : queries.splitQuery query =
      (if ((strings.TrimSpace query).data.foldl queries.splitQuery.step
            { parts := [], pending := [], quoted := false }).pending ≠ []
        then ((strings.TrimSpace query).data.foldl queries.splitQuery.step
            { parts := [], pending := [], quoted := false }).parts ++
          [String.mk ((strings.TrimSpace query).data.foldl queries.splitQuery.step
            { parts := [], pending := [], quoted := false }).pending]
        else ((strings.TrimSpace query).data.foldl queries.splitQuery.step
            { parts := [], pending := [], quoted := false }).parts) := by
    simp [queries.splitQuery, strings.ContainsChar, hcolon]
  refine ⟨?_, ?_, ?_, pieces (markQuotes false (strings.TrimSpace query).data),
    pieces_flatten _, pieces_kind _, pieces_maximal _, pieces_head_all _, ?_⟩
  · rw [hsplit]
    intro tok htok
    obtain ⟨hne, hkind⟩ := hgood tok htok
    refine ⟨fun he => hne (by rw [he]), ?_⟩
    rcases hkind with hsep | hclean
    · unfold isSeparatorToken at hsep
      simp only [Bool.or_eq_true, decide_eq_true_eq] at hsep
      rcases hsep with (hs | hs) | hs <;> subst hs <;> decide
    · cases hd : tok.data with
      | nil => exact absurd hd hne
      | cons c0 cs =>
        rw [hd] at hclean
        by_cases hc : c0 = '"'
        · subst hc
          simp
        · unfold cleanToken at hclean
          simp only [outsideQuotes, hc, if_false, Bool.false_eq_true, List.all_cons,
            Bool.and_eq_true, decide_eq_true_eq] at hclean
          simp [hclean.1.1]
  · rw [hsplit, hfilter, List.nil_append]
    unfold separatorsOf
    rw [outsideQuotes_TrimSpace]
  · rw [hsplit]
    intro tok htok hns c hc
    obtain ⟨_, hkind⟩ := hgood tok htok
    rcases hkind with hsep | hclean
    · rw [hsep] at hns
      cases hns
    · unfold cleanToken at hclean
      rw [List.all_eq_true] at hclean
      have := hclean c hc
      simp only [Bool.and_eq_true, decide_eq_true_eq, Bool.not_eq_true', isSeparatorChar,
        Bool.or_eq_false_iff, decide_eq_false_iff_not] at this
      exact ⟨this.1, this.2.1.1, this.2.1.2, this.2.2⟩
  · rw [hsplit, hpieces]
    simp

set_option maxRecDepth 100000 in
/-- C25 (witness): a query with a colon and brackets inside its quoted values. Its
tokens are the field names, the quoted values, the keywords, and the two colons
and two brackets that stand outside the quoted values; the quoted values, each
with a blank inside, are one token each. -/
theorem C25_splitQuery_tokens_witness :
    ':' ∈ "message:(\"SQL: update\" OR \"SQL (select)\") AND file:\"DB\"".data ∧
    ((∀ tok ∈ queries.splitQuery "message:(\"SQL: update\" OR \"SQL (select)\") AND file:\"DB\"",
        tok ≠ "" ∧ tok.data.all (fun c => c = ' ') = false) ∧
      (queries.splitQuery
          "message:(\"SQL: update\" OR \"SQL (select)\") AND file:\"DB\"").filter
          isSeparatorToken =
        ((outsideQuotes false
            "message:(\"SQL: update\" OR \"SQL (select)\") AND file:\"DB\"".data).filter
          isSeparatorChar).map (fun c => String.mk [c]) ∧
      (∀ tok ∈ queries.splitQuery "message:(\"SQL: update\" OR \"SQL (select)\") AND file:\"DB\"",
        isSeparatorToken tok = false →
        ∀ c ∈ outsideQuotes false tok.data, c ≠ ' ' ∧ c ≠ '(' ∧ c ≠ ')' ∧ c ≠ ':') ∧
      ∃ ps : List (List (Char × Bool)),
        ps.flatten = markQuotes false (strings.TrimSpace
          "message:(\"SQL: update\" OR \"SQL (select)\") AND file:\"DB\"").data ∧
        (∀ p ∈ ps, (∃ x, p = [x] ∧ isBreak x = true) ∨
          (p ≠ [] ∧ ∀ x ∈ p, isBreak x = false)) ∧
        ps.Chain' (fun a b => a.any isBreak = true ∨ b.any isBreak = true) ∧
        (∀ p ∈ ps, ∀ x ∈ p.head?, x.2 = false ∨ x.1 = '"') ∧
        queries.splitQuery "message:(\"SQL: update\" OR \"SQL (select)\") AND file:\"DB\"" =
          pieceTokens ps) ∧
    queries.splitQuery "message:(\"SQL: update\" OR \"SQL (select)\") AND file:\"DB\"" =
      ["message", ":", "(", "\"SQL: update\"", "OR", "\"SQL (select)\"", ")", "AND", "file",
        ":", "\"DB\""] ∧
    pieceTokens (pieces (markQuotes false "a:\"b c\" d".data)) = ["a", ":", "\"b c\"", "d"] ∧
    (pieces (markQuotes false "a:\"b c\" d".data)).map (fun p => p.map Prod.fst) =
      [['a'], [':'], ['"', 'b', ' ', 'c', '"'], [' '], ['d']] :=
  ⟨by decide,
    C25_splitQuery_tokens "message:(\"SQL: update\" OR \"SQL (select)\") AND file:\"DB\""
      (by decide),
    by decide, by decide, by decide⟩

/-! ## Comparison of clause trees -/

theorem queries.allPresent_mem (cs : List queries.ClauseTree)
    (h : queries.ClauseTree.allPresent cs = true) :
    ∀ c ∈ cs, c.sectionsPresent = true := by
  induction cs with
  | nil => simp
  | cons d ds ih =>
    rw [queries.ClauseTree.allPresent, Bool.and_eq_true] at h
    intro c hc
    rcases List.mem_cons.mp hc with hc | hc
    · rw [hc]; exact h.1
    · exact ih h.2 c hc

theorem queries.scan_nonempty (p : queries.ClauseTree → Except Failure Bool) (equal : Bool)
    (l : List queries.ClauseTree) (h : l ≠ []) :
    queries.compareSection.scan p equal l = queries.compareSection.scan p false l := by
  cases l with
  | nil => exact absurd rfl h
  | cons d ds => rfl

/-- The inner loop returns true exactly when a child of the second section
compares equal and every child before it compares unequal without a panic. -/
theorem queries.scan_eq_true_iff (p : queries.ClauseTree → Except Failure Bool)
    (l : List queries.ClauseTree) :
    queries.compareSection.scan p false l = .ok true ↔
      ∃ pre s post, l = pre ++ s :: post ∧ p s = .ok true ∧ ∀ x ∈ pre, p x = .ok false := by
  induction l with
  | nil => simp [queries.compareSection.scan]
  | cons d ds ih =>
    rw [queries.compareSection.scan]
    cases hd : p d with
    | error e =>
      simp only []
      constructor
      · intro h; cases h
      · rintro ⟨pre, s, post, hl, hs, hpre⟩
        cases pre with
        | nil =>
          simp only [List.nil_append, List.cons.injEq] at hl
          rw [hl.1, hs] at hd
          cases hd
        | cons x xs =>
          simp only [List.cons_append, List.cons.injEq] at hl
          have := hpre x (by simp)
          rw [← hl.1, hd] at this
          cases this
    | ok r =>
      cases r with
      | true =>
        simp only []
        constructor
        · intro _
          exact ⟨[], d, ds, rfl, hd, by simp⟩
        · intro _
          first | rfl | trivial
      | false =>
        simp only []
        rw [ih]
        constructor
        · rintro ⟨pre, s, post, hl, hs, hpre⟩
          refine ⟨d :: pre, s, post, by simp [hl], hs, ?_⟩
          intro x hx
          rcases List.mem_cons.mp hx with hx | hx
          · rw [hx]; exact hd
          · exact hpre x hx
        · rintro ⟨pre, s, post, hl, hs, hpre⟩
          cases pre with
          | nil =>
            simp only [List.nil_append, List.cons.injEq] at hl
            rw [hl.1, hs] at hd
            cases hd
          | cons x xs =>
            simp only [List.cons_append, List.cons.injEq] at hl
            exact ⟨xs, s, post, hl.2, hs, fun y hy => hpre y (by simp [hy])⟩

/-- The outer loop returns true exactly when the inner loop does for every child
of the first section. -/
theorem queries.loop_eq_true_iff {F : Type} (go : GoLib F) (c1 c2 : List queries.ClauseTree)
    (equal : Bool) (h2 : c2 ≠ []) :
    queries.compareSection.loop go c1 c2 equal = .ok true ↔
      ∀ f ∈ c1, queries.compareSection.scan (queries.IsEqual go f) false c2 = .ok true := by
  induction c1 generalizing equal with
  | nil => simp [queries.compareSection.loop]
  | cons f fs ih =>
    rw [queries.compareSection.loop, queries.scan_nonempty _ equal c2 h2]
    cases hs : queries.compareSection.scan (queries.IsEqual go f) false c2 with
    | error e =>
      simp only []
      constructor
      · intro h; cases h
      · intro h
        have := h f (by simp)
        rw [hs] at this
        cases this
    | ok r =>
      cases r with
      | false =>
        simp only []
        constructor
        · intro h; cases h
        · intro h
          have := h f (by simp)
          rw [hs] at this
          cases this
      | true =>
        simp only []
        rw [ih]
        constructor
        · intro h g hg
          rcases List.mem_cons.mp hg with hg | hg
          · rw [hg]; exact hs
          · exact h g hg
        · intro h g hg
          exact h g (by simp [hg])

theorem queries.IsEqual_ofSection {F : Type} (go : GoLib F) (c1 c2 : List queries.ClauseTree) :
    queries.IsEqual go (.ofSection c1) (.ofSection c2) =
      queries.compareSection.guarded c1 c2 (queries.compareSection.loop go c1 c2 false) := by
  rw [queries.IsEqual]

/-- The comparison of two sections that are not nil. -/
theorem queries.guarded_eq_true_iff {F : Type} (go : GoLib F)
    (c1 c2 : List queries.ClauseTree) :
    queries.compareSection.guarded c1 c2 (queries.compareSection.loop go c1 c2 false) =
        .ok true ↔
      (c1 = [] ∧ c2 = []) ∨
      (c1.length = c2.length ∧ ∀ f ∈ c1, ∃ pre s post, c2 = pre ++ s :: post ∧
        queries.IsEqual go f s = .ok true ∧ ∀ x ∈ pre, queries.IsEqual go f x = .ok false) := by
  unfold queries.compareSection.guarded
  by_cases hboth : c1 = [] ∧ c2 = []
  · simp [hboth.1, hboth.2]
  · by_cases hlen : c1.length = c2.length
    · have h2 : c2 ≠ [] := by
        intro h2
        apply hboth
        subst h2
        simp only [List.length_nil, List.length_eq_zero] at hlen
        exact ⟨hlen, rfl⟩
      have hcond : (c1.length = 0 && c2.length = 0) = false := by
        simp [h2]
      simp only [hcond, Bool.false_eq_true, if_false]
      rw [if_neg (fun hne => hne hlen), queries.loop_eq_true_iff go c1 c2 false h2]
      constructor
      · intro h
        refine Or.inr ⟨hlen, fun f hf => ?_⟩
        exact (queries.scan_eq_true_iff _ _).mp (h f hf)
      · rintro (h | h)
        · exact absurd h hboth
        · intro f hf
          exact (queries.scan_eq_true_iff _ _).mpr (h.2 f hf)
    · have hcond : (c1.length = 0 && c2.length = 0) = false := by
        cases c1 <;> cases c2 <;> simp_all
      simp only [hcond, Bool.false_eq_true, if_false]
      rw [if_pos hlen]
      constructor
      · intro h; cases h
      · rintro (h | h)
        · exact absurd h hboth
        · exact absurd h.1 hlen

theorem forall₂_mem_right {α β : Type} (R : α → β → Prop) (l1 : List α) (l2 : List β)
    (h : List.Forall₂ R l1 l2) : ∀ y ∈ l2, ∃ x ∈ l1, R x y := by
  induction h with
  | nil => simp
  | cons hxy _ ih =>
    intro y hy
    rcases List.mem_cons.mp hy with hy | hy
    · exact ⟨_, by simp, hy ▸ hxy⟩
    · obtain ⟨x, hx, hr⟩ := ih y hy
      exact ⟨x, by simp [hx], hr⟩

theorem forall₂_mem_left {α β : Type} (R : α → β → Prop) (l1 : List α) (l2 : List β)
    (h : List.Forall₂ R l1 l2) : ∀ x ∈ l1, ∃ y ∈ l2, R x y := by
  induction h with
  | nil => simp
  | cons hxy _ ih =>
    intro x hx
    rcases List.mem_cons.mp hx with hx | hx
    · exact ⟨_, by simp, hx ▸ hxy⟩
    · obtain ⟨y, hy, hr⟩ := ih x hx
      exact ⟨y, by simp [hy], hr⟩

open queries in
/-- C26 (counterexample): the sections with the children `a, a` and `a, b` compare
equal, although `b` has no partner among the children of the first: no
reordering of the second list pairs the children one to one. Compared the other
way round the two sections are unequal. -/
theorem C26_not_one_to_one :
    (IsEqual GoLib.ascii (.ofSection [.other "a", .other "a"])
      (.ofSection [.other "a", .other "b"])).toOption = some true ∧
    (¬ ∃ paired : List ClauseTree, paired.Perm [.other "a", .other "b"] ∧
      List.Forall₂ (fun x y => IsEqual GoLib.ascii x y = .ok true)
        [.other "a", .other "a"] paired) ∧
    (IsEqual GoLib.ascii (.ofSection [.other "a", .other "b"])
      (.ofSection [.other "a", .other "a"])).toOption = some false := by
  refine ⟨by decide, ?_, by decide⟩
  rintro ⟨paired, hperm, hall⟩
  have hb : ClauseTree.other "b" ∈ paired := hperm.mem_iff.mpr (by simp)
  obtain ⟨x, hx, hr⟩ := forall₂_mem_right _ _ _ hall _ hb
  simp only [List.mem_cons, List.mem_singleton, List.not_mem_nil, or_false, or_self] at hx
  subst hx
  have := congrArg Except.toOption hr
  revert this
  decide

open queries in
/-- C26 (amended): two sections compare equal exactly when both have no children,
or they have the same number of children and every child of the first compares
equal to some child of the second, the children of the second before that one
comparing unequal to it without a panic. The pairing need not be one to one. -/
theorem C26_IsEqual_sections {F : Type} (go : GoLib F) (c1 c2 : List ClauseTree) :
    IsEqual go (.ofSection c1) (.ofSection c2) = .ok true ↔
      (c1 = [] ∧ c2 = []) ∨
      (c1.length = c2.length ∧ ∀ f ∈ c1, ∃ pre s post, c2 = pre ++ s :: post ∧
        IsEqual go f s = .ok true ∧ ∀ x ∈ pre, IsEqual go f x = .ok false) := by
  rw [IsEqual_ofSection]
  exact guarded_eq_true_iff go c1 c2

theorem queries.scan_total (p : queries.ClauseTree → Except Failure Bool) (equal : Bool)
    (ds : List queries.ClauseTree) (h : ∀ d ∈ ds, ∃ r, p d = .ok r) :
    ∃ r, queries.compareSection.scan p equal ds = .ok r := by
  induction ds generalizing equal with
  | nil => exact ⟨equal, rfl⟩
  | cons d ds ih =>
    obtain ⟨r, hr⟩ := h d (by simp)
    rw [queries.compareSection.scan, hr]
    cases r with
    | true => exact ⟨true, rfl⟩
    | false => exact ih false (fun x hx => h x (by simp [hx]))

theorem queries.scan_true_of_mem (p : queries.ClauseTree → Except Failure Bool)
    (ds : List queries.ClauseTree) (h : ∀ d ∈ ds, ∃ r, p d = .ok r)
    (hex : ∃ d ∈ ds, p d = .ok true) :
    queries.compareSection.scan p false ds = .ok true := by
  induction ds with
  | nil =>
    obtain ⟨d, hd, _⟩ := hex
    cases hd
  | cons d ds ih =>
    obtain ⟨r, hr⟩ := h d (by simp)
    rw [queries.compareSection.scan, hr]
    cases r with
    | true => rfl
    | false =>
      apply ih (fun x hx => h x (by simp [hx]))
      obtain ⟨x, hx, hpx⟩ := hex
      rcases List.mem_cons.mp hx with hx | hx
      · rw [hx, hr] at hpx
        cases hpx
      · exact ⟨x, hx, hpx⟩

theorem queries.loop_total {F : Type} (go : GoLib F) (cs ds : List queries.ClauseTree)
    (equal : Bool) (h : ∀ c ∈ cs, ∀ d ∈ ds, ∃ r, queries.IsEqual go c d = .ok r) :
    ∃ r, queries.compareSection.loop go cs ds equal = .ok r := by
  induction cs generalizing equal with
  | nil => exact ⟨true, by rw [queries.compareSection.loop]⟩
  | cons c cs ih =>
    obtain ⟨r, hr⟩ := queries.scan_total (queries.IsEqual go c) equal ds (h c (by simp))
    rw [queries.compareSection.loop, hr]
    cases r with
    | true => exact ih true (fun x hx => h x (by simp [hx]))
    | false => exact ⟨false, rfl⟩

theorem queries.guarded_total (c1 c2 : List queries.ClauseTree) (loop : Except Failure Bool)
    (h : ∃ r, loop = .ok r) : ∃ r, queries.compareSection.guarded c1 c2 loop = .ok r := by
  unfold queries.compareSection.guarded
  split
  · exact ⟨true, rfl⟩
  · split
    · exact ⟨false, rfl⟩
    · exact h

theorem queries.andAlso_total (a b : Except Failure Bool) (ha : ∃ r, a = .ok r)
    (hb : ∃ r, b = .ok r) : ∃ r, queries.andAlso a b = .ok r := by
  obtain ⟨r, hr⟩ := ha
  subst hr
  cases r with
  | true => exact hb
  | false => exact ⟨false, rfl⟩

theorem queries.compareSection_mk {F : Type} (go : GoLib F) (c1 c2 : List queries.ClauseTree) :
    queries.compareSection go (.mk c1) (.mk c2) =
      queries.compareSection.guarded c1 c2 (queries.compareSection.loop go c1 c2 false) := by
  rw [queries.compareSection]

theorem queries.compareSection_total {F : Type} (go : GoLib F) (s t : queries.SectionTree)
    (hs : s.present = true) (ht : t.present = true)
    (h : ∀ cs ds, s = .mk cs → t = .mk ds →
      ∀ c ∈ cs, ∀ d ∈ ds, ∃ r, queries.IsEqual go c d = .ok r) :
    ∃ r, queries.compareSection go s t = .ok r := by
  cases s with
  | absent => simp [queries.SectionTree.present] at hs
  | mk cs =>
    cases t with
    | absent => simp [queries.SectionTree.present] at ht
    | mk ds =>
      rw [queries.compareSection_mk]
      exact queries.guarded_total _ _ _ (queries.loop_total go cs ds false (h cs ds rfl rfl))

/-- On trees whose bool queries have no nil section the comparison never panics. -/
theorem queries.IsEqual_total {F : Type} (go : GoLib F) (n : Nat) :
    ∀ a : queries.ClauseTree, sizeOf a ≤ n → ∀ b : queries.ClauseTree,
      a.sectionsPresent = true → b.sectionsPresent = true →
      ∃ r, queries.IsEqual go a b = .ok r := by
  induction n with
  | zero =>
    intro a ha
    cases a <;> simp at ha
  | succ n ih =>
    intro a ha b hpa hpb
    cases a with
    | absent => cases b <;> simp [queries.IsEqual]
    | other f => cases b <;> simp [queries.IsEqual]
    | ofSection cs =>
      cases b with
      | ofSection ds =>
        rw [queries.IsEqual_ofSection]
        apply queries.guarded_total
        apply queries.loop_total
        intro c hc d hd
        have hsz : sizeOf c ≤ n := by
          have := List.sizeOf_lt_of_mem hc
          simp only [queries.ClauseTree.ofSection.sizeOf_spec] at ha
          omega
        rw [queries.ClauseTree.sectionsPresent] at hpa hpb
        exact ih c hsz d (queries.allPresent_mem cs hpa c hc) (queries.allPresent_mem ds hpb d hd)
      | absent => simp [queries.IsEqual]
      | other f => simp [queries.IsEqual]
      | boolSection m n s f => simp [queries.IsEqual]
    | boolSection m1 n1 s1 f1 =>
      cases b with
      | boolSection m2 n2 s2 f2 =>
        rw [queries.ClauseTree.sectionsPresent] at hpa hpb
        simp only [Bool.and_eq_true] at hpa hpb
        simp only [queries.ClauseTree.boolSection.sizeOf_spec] at ha
        have key : ∀ s t : queries.SectionTree, sizeOf s ≤ n → s.present = true →
            t.present = true → ∃ r, queries.compareSection go s t = .ok r := by
          intro s t hsz hs ht
          apply queries.compareSection_total go s t hs ht
          intro cs ds hscs htds c hc d hd
          subst hscs htds
          have hsz2 : sizeOf c ≤ n := by
            have := List.sizeOf_lt_of_mem hc
            simp only [queries.SectionTree.mk.sizeOf_spec] at hsz
            omega
          rw [queries.SectionTree.present] at hs ht
          exact ih c hsz2 d (queries.allPresent_mem cs hs c hc) (queries.allPresent_mem ds ht d hd)
        rw [queries.IsEqual]
        apply queries.andAlso_total
        · exact key m1 m2 (by omega) hpa.1.1.1 hpb.1.1.1
        · apply queries.andAlso_total
          · exact key s1 s2 (by omega) hpa.1.2 hpb.1.2
          · apply queries.andAlso_total
            · exact key n1 n2 (by omega) hpa.1.1.2 hpb.1.1.2
            · exact key f1 f2 (by omega) hpa.2 hpb.2
      | absent => simp [queries.IsEqual]
      | other f => simp [queries.IsEqual]
      | ofSection ds => simp [queries.IsEqual]

/-- Two lists of children of which the second is a reordering of the first, child
by child, compare equal as sections, given that the children do. -/
theorem queries.guarded_reordered {F : Type} (go : GoLib F)
    (cs cs' ds : List queries.ClauseTree)
    (hall : List.Forall₂ queries.ClauseTree.Reordered cs cs') (hperm : cs'.Perm ds)
    (htotal : ∀ c ∈ cs, ∀ d ∈ ds, ∃ r, queries.IsEqual go c d = .ok r)
    (hrec : ∀ c ∈ cs, ∀ d ∈ ds, queries.ClauseTree.Reordered c d →
      queries.IsEqual go c d = .ok true) :
    queries.compareSection.guarded cs ds (queries.compareSection.loop go cs ds false) =
      .ok true := by
  have hlen : cs.length = ds.length := by
    rw [hall.length_eq, hperm.length_eq]
  rw [queries.guarded_eq_true_iff]
  refine Or.inr ⟨hlen, fun f hf => ?_⟩
  apply (queries.scan_eq_true_iff _ _).mp
  apply queries.scan_true_of_mem _ _ (htotal f hf)
  obtain ⟨d, hd, hr⟩ := forall₂_mem_left _ _ _ hall f hf
  have hd' : d ∈ ds := hperm.mem_iff.mp hd
  exact ⟨d, hd', hrec f hf d hd' hr⟩

theorem queries.compareClause_self {F : Type} (go : GoLib F) (first : Option String) :
    queries.compareClause go first first = true := by
  cases first <;> simp [queries.compareClause]

/-- On trees whose bool queries have no nil section, a tree compares equal to
every reordering of it. -/
theorem queries.IsEqual_reordered {F : Type} (go : GoLib F) (n : Nat) :
    ∀ a : queries.ClauseTree, sizeOf a ≤ n → ∀ b : queries.ClauseTree,
      a.sectionsPresent = true → b.sectionsPresent = true → a.Reordered b →
      queries.IsEqual go a b = .ok true := by
  induction n with
  | zero =>
    intro a ha
    cases a <;> simp at ha
  | succ n ih =>
    intro a ha b hpa hpb hab
    cases hab with
    | absent => simp [queries.IsEqual, queries.compareClause]
    | other rendered => simp [queries.IsEqual, queries.compareClause]
    | @ofSection cs cs' ds hall hperm =>
      rw [queries.IsEqual_ofSection]
      rw [queries.ClauseTree.sectionsPresent] at hpa hpb
      simp only [queries.ClauseTree.ofSection.sizeOf_spec] at ha
      have hsz : ∀ c ∈ cs, sizeOf c ≤ n := by
        intro c hc
        have := List.sizeOf_lt_of_mem hc
        omega
      apply queries.guarded_reordered go cs cs' ds hall hperm
      · intro c hc d hd
        exact queries.IsEqual_total go n c (hsz c hc) d (queries.allPresent_mem cs hpa c hc)
          (queries.allPresent_mem ds hpb d hd)
      · intro c hc d hd hr
        exact ih c (hsz c hc) d (queries.allPresent_mem cs hpa c hc)
          (queries.allPresent_mem ds hpb d hd) hr
    | @boolSection m1 n1 s1 f1 m2 n2 s2 f2 hm hn hs hf =>
      rw [queries.ClauseTree.sectionsPresent] at hpa hpb
      simp only [Bool.and_eq_true] at hpa hpb
      simp only [queries.ClauseTree.boolSection.sizeOf_spec] at ha
      have key : ∀ s t : queries.SectionTree, sizeOf s ≤ n → s.present = true →
          t.present = true → s.Reordered t → queries.compareSection go s t = .ok true := by
        intro s t hsz hs ht hst
        cases hst with
        | absent => simp [queries.SectionTree.present] at hs
        | @mk cs cs' ds hall hperm =>
          rw [queries.compareSection_mk]
          rw [queries.SectionTree.present] at hs ht
          simp only [queries.SectionTree.mk.sizeOf_spec] at hsz
          have hsz2 : ∀ c ∈ cs, sizeOf c ≤ n := by
            intro c hc
            have := List.sizeOf_lt_of_mem hc
            omega
          apply queries.guarded_reordered go cs cs' ds hall hperm
          · intro c hc d hd
            exact queries.IsEqual_total go n c (hsz2 c hc) d (queries.allPresent_mem cs hs c hc)
              (queries.allPresent_mem ds ht d hd)
          · intro c hc d hd hr
            exact ih c (hsz2 c hc) d (queries.allPresent_mem cs hs c hc)
              (queries.allPresent_mem ds ht d hd) hr
      rw [queries.IsEqual, key m1 m2 (by omega) hpa.1.1.1 hpb.1.1.1 hm,
        key s1 s2 (by omega) hpa.1.2 hpb.1.2 hs, key n1 n2 (by omega) hpa.1.1.2 hpb.1.1.2 hn,
        key f1 f2 (by omega) hpa.2 hpb.2 hf]
      rfl

theorem forall₂_refl_of_mem {α : Type} (R : α → α → Prop) (l : List α)
    (h : ∀ x ∈ l, R x x) : List.Forall₂ R l l := by
  induction l with
  | nil => exact List.Forall₂.nil
  | cons x xs ih =>
    exact List.Forall₂.cons (h x (by simp)) (ih (fun y hy => h y (by simp [hy])))

/-- Every tree is a reordering of itself. -/
theorem queries.Reordered_refl (n : Nat) :
    ∀ a : queries.ClauseTree, sizeOf a ≤ n → a.Reordered a := by
  induction n with
  | zero =>
    intro a ha
    cases a <;> simp at ha
  | succ n ih =>
    intro a ha
    have hlist : ∀ cs : List queries.ClauseTree, sizeOf cs ≤ n →
        List.Forall₂ queries.ClauseTree.Reordered cs cs := by
      intro cs hcs
      apply forall₂_refl_of_mem
      intro c hc
      have := List.sizeOf_lt_of_mem hc
      exact ih c (by omega)
    have hsec : ∀ s : queries.SectionTree, sizeOf s ≤ n → s.Reordered s := by
      intro s hs
      cases s with
      | absent => exact .absent
      | mk cs =>
        simp only [queries.SectionTree.mk.sizeOf_spec] at hs
        exact .mk (hlist cs (by omega)) (List.Perm.refl _)
    cases a with
    | absent => exact .absent
    | other f => exact .other f
    | ofSection cs =>
      simp only [queries.ClauseTree.ofSection.sizeOf_spec] at ha
      exact .ofSection (hlist cs (by omega)) (List.Perm.refl _)
    | boolSection m1 n1 s1 f1 =>
      simp only [queries.ClauseTree.boolSection.sizeOf_spec] at ha
      exact .boolSection (hsec m1 (by omega)) (hsec n1 (by omega)) (hsec s1 (by omega))
        (hsec f1 (by omega))

open queries in
/-- C21 (for trees whose bool queries have no nil section): when no bool query of
the trees `a` and `b` has a nil section and `b` is `a` with the children of its
sections reordered, at any depth, `IsEqual(a, b)` is true; in particular
`IsEqual(a, a)` is true. -/
theorem C21_IsEqual_reordered {F : Type} (go : GoLib F) (a b : ClauseTree)
    (ha : a.sectionsPresent = true) (hb : b.sectionsPresent = true) (hab : a.Reordered b) :
    IsEqual go a b = .ok true ∧ IsEqual go a a = .ok true :=
  ⟨IsEqual_reordered go (sizeOf a) a (Nat.le_refl _) b ha hb hab,
    IsEqual_reordered go (sizeOf a) a (Nat.le_refl _) a ha ha
      (Reordered_refl (sizeOf a) a (Nat.le_refl _))⟩

set_option maxRecDepth 100000 in
open queries in
/-- C21 (witness and failing input): the bool query of the test with its must-clauses
in two orders and the should-clauses of the nested bool query swapped compares
equal, also when one of the two trees has nil sections where the other has empty
ones. The section `sampleMixedBools` holds two bool queries, one with only
`Should` set and one with only `Must` set: it is a reordering of itself, and
comparing it with itself panics, because the second child is compared with the
first and `compareSection` calls `Children` on the nil `Must` of the first. -/
theorem C21_IsEqual_reordered_witness :
    sampleBoolTreePresent.sectionsPresent = true ∧
    sampleBoolTreeReordered.sectionsPresent = true ∧
    sampleBoolTreePresent.Reordered sampleBoolTreeReordered ∧
    (IsEqual GoLib.ascii sampleBoolTreePresent sampleBoolTreeReordered = .ok true ∧
      IsEqual GoLib.ascii sampleBoolTreePresent sampleBoolTreePresent = .ok true) ∧
    (IsEqual GoLib.ascii sampleBoolTree sampleBoolTreeReordered).toOption = some true ∧
    (IsEqual GoLib.ascii sampleBoolTreeReordered sampleBoolTree).toOption = some true ∧
    sampleMixedBools.Reordered sampleMixedBools ∧
    sampleMixedBools.sectionsPresent = false ∧
    failureOf (IsEqual GoLib.ascii sampleMixedBools sampleMixedBools) =
      some (.panic "nil pointer dereference") :=
  have hinner : ClauseTree.Reordered
      (.boolSection (.mk []) (.mk []) (.mk [.other "(line = 100)", .other "(line = 150)"])
        (.mk []))
      (.boolSection (.mk []) (.mk []) (.mk [.other "(line = 150)", .other "(line = 100)"])
        (.mk [])) :=
    .boolSection (.mk .nil (List.Perm.refl _)) (.mk .nil (List.Perm.refl _))
      (.mk (.cons (.other _) (.cons (.other _) .nil)) (List.Perm.swap _ _ _))
      (.mk .nil (List.Perm.refl _))
  have hreordered : sampleBoolTreePresent.Reordered sampleBoolTreeReordered :=
    .boolSection
      (.mk (.cons (.other _) (.cons (.other _) (.cons hinner .nil)))
        (List.perm_append_comm :
          ([ClauseTree.other "(pid = 41671)", .other "(isNotNull(pid))"] ++
            [ClauseTree.boolSection (.mk []) (.mk [])
              (.mk [.other "(line = 150)", .other "(line = 100)"]) (.mk [])]).Perm _))
      (.mk (.cons (.other _) .nil) (List.Perm.refl _))
      (.mk .nil (List.Perm.refl _)) (.mk .nil (List.Perm.refl _))
  ⟨by decide, by decide, hreordered,
    C21_IsEqual_reordered GoLib.ascii sampleBoolTreePresent sampleBoolTreeReordered
      (by decide) (by decide) hreordered,
    by decide, by decide,
    Reordered_refl (sizeOf sampleMixedBools) sampleMixedBools (Nat.le_refl _),
    by decide, by decide⟩

open queries in
/-- C26 (witness): the sections with the children `a, b` and `b, a`: the first child
finds its partner after one unequal comparison, the second at once. -/
theorem C26_IsEqual_sections_witness :
    (IsEqual GoLib.ascii (.ofSection [.other "a", .other "b"])
        (.ofSection [.other "b", .other "a"]) = .ok true ↔
      (([.other "a", .other "b"] : List ClauseTree) = [] ∧
        ([.other "b", .other "a"] : List ClauseTree) = []) ∨
      (([.other "a", .other "b"] : List ClauseTree).length =
          ([.other "b", .other "a"] : List ClauseTree).length ∧
        ∀ f ∈ ([.other "a", .other "b"] : List ClauseTree), ∃ pre s post,
          ([.other "b", .other "a"] : List ClauseTree) = pre ++ s :: post ∧
          IsEqual GoLib.ascii f s = .ok true ∧
          ∀ x ∈ pre, IsEqual GoLib.ascii f x = .ok false)) ∧
    (IsEqual GoLib.ascii (.ofSection [.other "a", .other "b"])
      (.ofSection [.other "b", .other "a"])).toOption = some true :=
  ⟨C26_IsEqual_sections GoLib.ascii [.other "a", .other "b"] [.other "b", .other "a"],
    by decide⟩

/-! ## Date histogram with nested filters, end to end -/

theorem db.Request.what_after (t : db.Request) (group sorting cond : String) :
    (((t.GroupBy group).OrderBy sorting []).WhereAnd cond).what = t.what := by
  unfold db.Request.WhereAnd db.Request.Where db.Request.OrderBy db.Request.GroupBy
  repeat' split
  all_goals rfl

theorem aggregations.createAggFuncs_strings {F : Type} (go : GoLib F)
    (hs : aggregations.DateHistogram F) (f : aggregations.Filters F)
    (hf : hs.filters = some f) :
    (hs.createAggFuncs go).map clickhouse.AggregationFunc.String =
      f.filters.map (aggregations.entryFunction go) ++ ["count()"] := by
  simp only [aggregations.DateHistogram.createAggFuncs, hf, aggregations.Filters.createAggFuncs,
    List.map_append, List.map_map, List.map_cons, List.map_nil]
  congr 1
  · apply List.map_congr_left
    intro entry _
    unfold aggregations.entryFunction
    cases hc : entry.Condition with
    | none => simp [clickhouse.NewCountAggregation, clickhouse.AggregationFunc.String, hc]
    | some c =>
      by_cases he : queries.Clause.String go c = ""
      · simp [clickhouse.NewCountAggregation, clickhouse.AggregationFunc.String, hc, he]
      · simp [clickhouse.NewCountAggregation, clickhouse.AggregationFunc.String, hc, he]

/-- The request of the raw path. -/
theorem aggregations.createDataAggregatingRequest_raw {F : Type} (go : GoLib F)
    (hs : aggregations.DateHistogram F) (f : aggregations.Filters F) (index : String)
    (commonFilter : queries.Clause F) (hf : hs.filters = some f)
    (hcf : hs.commonFilter = some commonFilter)
    (hraw : ((queries.GetSimpleClausesList hs.commonFilter).length = 1 &&
      hs.optimizationRequired) = false) :
    ∃ request : db.Request,
      hs.createDataAggregatingRequest go index = .ok (request, hs) ∧
      request.what =
        "[ " ++ strings.Join (f.filters.map (aggregations.entryFunction go) ++ ["count()"]) "," ++
          " ] as results" ++
          (", " ++ ("toInt64((" ++ hs.fieldName ++ ") / " ++ toString hs.interval ++
            ") as cur_key")) := by
  have hstr := aggregations.createAggFuncs_strings go hs f hf
  have hlen : (hs.createAggFuncs go).length ≠ 0 := by
    have := congrArg List.length hstr
    simp only [List.length_map, List.length_append, List.length_singleton] at this
    omega
  unfold aggregations.DateHistogram.createDataAggregatingRequest
  rw [hcf] at hraw
  simp only [hcf, hraw, Bool.false_eq_true, if_false]
  refine ⟨_, rfl, ?_⟩
  rw [db.Request.what_after]
  simp only [aggregations.aggFuncs.build, hlen, if_false, hstr]
  unfold db.Request.AppendToWhat db.Request.What
  simp [String.ext_iff, clickhouse.NewRequestTpl, db.NewRequest]

theorem aggregations.materializeRow_nested {F : Type} (hs : aggregations.DateHistogram F)
    (f : aggregations.Filters F) (row : aggregations.histogramCounts)
    (hf : hs.filters = some f) (hlen : row.Vals.length = f.filters.length + 1) :
    hs.materializeRow row =
      .ok (if row.lastCount > 0 then some (aggregations.histogramBucket hs f row) else none) := by
  have hne : row.Vals ≠ [] := by
    intro h
    rw [h] at hlen
    simp at hlen
  obtain ⟨last, hlast⟩ : ∃ last, row.Vals.getLast? = some last := by
    cases hv : row.Vals.getLast? with
    | none => exact absurd (List.getLast?_eq_none_iff.mp hv) hne
    | some last => exact ⟨last, rfl⟩
  have hlc : row.lastCount = last := by simp [aggregations.histogramCounts.lastCount, hlast]
  have hle : (f.filters.map (fun entry => aggregations.Bucket.filterBucket none entry.Name 0)).length ≤
      row.Vals.length := by
    simp [hlen]
  unfold aggregations.DateHistogram.materializeRow
  simp only [hlast, hlc]
  by_cases hpos : last > 0
  · simp only [hpos, if_true, hf, aggregations.Filters.createBuckets]
    rw [aggregations.setDocCounts_ok _ _ hle, List.zipWith_map_left]
    simp only [aggregations.histogramBucket, aggregations.namedBuckets, hlc]
    rfl
  · simp [hpos]

theorem aggregations.materialize_nested {F : Type} (hs : aggregations.DateHistogram F)
    (f : aggregations.Filters F) (rows : List aggregations.histogramCounts)
    (hf : hs.filters = some f)
    (hrows : ∀ row ∈ rows, row.Vals.length = f.filters.length + 1) :
    hs.materialize rows =
      .ok ((rows.filter (fun row => decide (row.lastCount > 0))).map
        (aggregations.histogramBucket hs f)) := by
  induction rows with
  | nil => rfl
  | cons row rest ih =>
    have hrow := aggregations.materializeRow_nested hs f row hf (hrows row (by simp))
    have hrest := ih (fun r hr => hrows r (by simp [hr]))
    by_cases hpos : row.lastCount > 0
    · simp [aggregations.DateHistogram.materialize, hrow, hrest, hpos]
    · simp [aggregations.DateHistogram.materialize, hrow, hrest, hpos]

/-- A date histogram with nested filters on the raw path, from the request to the
buckets. -/
theorem aggregations.Aggregate_nested {F : Type} (go : GoLib F)
    (hs : aggregations.DateHistogram F) (f : aggregations.Filters F)
    (conn : aggregations.DataProvider) (request : db.Request)
    (rows : List aggregations.histogramCounts) (hf : hs.filters = some f)
    (hindex : conn.DataTable ≠ "")
    (hreq : hs.createDataAggregatingRequest go conn.DataTable = .ok (request, hs))
    (hsel : conn.selectRows request = .ok rows)
    (hrows : ∀ row ∈ rows, row.Vals.length = f.filters.length + 1) :
    hs.Aggregate go conn =
      .ok (some (.mk hs.name
        (.mk (some ((rows.filter (fun row => decide (row.lastCount > 0))).map
          (aggregations.histogramBucket hs f))) (some .bucketsToArrayJSON)))) := by
  unfold aggregations.DateHistogram.Aggregate
  simp only [hindex, if_false, hreq, hsel, aggregations.materialize_nested hs f rows hf hrows]

theorem aggregations.namedBuckets_pairs {F : Type} (f : aggregations.Filters F)
    (counts : List Nat) :
    (aggregations.namedBuckets f counts).AggName = f.name ∧
    (aggregations.namedBuckets f counts).Buckets.Buckets.map
        (fun bs => bs.map (fun b => (b.Key, b.DocCount))) =
      some ((f.filters.map (fun entry => aggregations.KeyValue.str entry.Name)).zip counts) := by
  refine ⟨rfl, ?_⟩
  simp only [aggregations.namedBuckets, aggregations.BucketAggregationData.Buckets,
    aggregations.bucketsStringer.Buckets, Option.map_some', Option.some.injEq]
  generalize f.filters = entries
  induction entries generalizing counts with
  | nil => simp
  | cons entry rest ih =>
    cases counts with
    | nil => simp
    | cons c cs =>
      simp only [List.zipWith_cons_cons, List.map_cons, List.zip_cons_cons, ih cs]
      rfl

open aggregations in
/-- C15 (on the raw path): for a DateHistogram with a nested Filters aggregation of k
entries that is compiled on the raw path, the aggregation functions of the
request are, in declared order, countIf of each entry's condition (count() when
the condition is absent or renders empty) followed by the histogram's own
count(), k+1 in all; and when the data source returns rows of k+1 counts for
that request, Aggregate returns the histogram with one bucket for every row
whose last count is positive, in the order of the rows: its doc count is the
last count, and its nested named buckets are the names of the entries in
declared order, bucket i with count i. -/
theorem C15_nested_filters {F : Type} (go : GoLib F) (hs : DateHistogram F) (f : Filters F)
    (conn : DataProvider) (commonFilter : queries.Clause F)
    (hf : hs.filters = some f) (hcf : hs.commonFilter = some commonFilter)
    (hraw : ((queries.GetSimpleClausesList hs.commonFilter).length = 1 &&
      hs.optimizationRequired) = false)
    (hindex : conn.DataTable ≠ "") :
    (hs.createAggFuncs go).map clickhouse.AggregationFunc.String =
      f.filters.map (entryFunction go) ++ ["count()"] ∧
    (f.filters.map (entryFunction go) ++ ["count()"]).length = f.filters.length + 1 ∧
    ∃ request : db.Request,
      hs.createDataAggregatingRequest go conn.DataTable = .ok (request, hs) ∧
      request.what =
        "[ " ++ strings.Join (f.filters.map (entryFunction go) ++ ["count()"]) "," ++
          " ] as results" ++
          (", " ++ ("toInt64((" ++ hs.fieldName ++ ") / " ++ toString hs.interval ++
            ") as cur_key")) ∧
      ∀ rows : List histogramCounts, conn.selectRows request = .ok rows →
        (∀ row ∈ rows, row.Vals.length = f.filters.length + 1) →
        hs.Aggregate go conn =
            .ok (some (.mk hs.name
              (.mk (some ((rows.filter (fun row => decide (row.lastCount > 0))).map
                (histogramBucket hs f))) (some .bucketsToArrayJSON)))) ∧
          ∀ row ∈ rows,
            (histogramBucket hs f row).DocCount = row.lastCount ∧
            (histogramBucket hs f row).subAggData = some (namedBuckets f row.Vals) ∧
            (namedBuckets f row.Vals).Buckets.Buckets.map
                (fun bs => bs.map (fun b => (b.Key, b.DocCount))) =
              some ((f.filters.map (fun entry => KeyValue.str entry.Name)).zip row.Vals) := by
  obtain ⟨request, hreq, hwhat⟩ :=
    createDataAggregatingRequest_raw go hs f conn.DataTable commonFilter hf hcf hraw
  refine ⟨createAggFuncs_strings go hs f hf, by simp, request, hreq, hwhat, ?_⟩
  intro rows hsel hrows
  refine ⟨Aggregate_nested go hs f conn request rows hf hindex hreq hsel hrows, ?_⟩
  intro row _
  exact ⟨rfl, rfl, (namedBuckets_pairs f row.Vals).2⟩

set_option maxRecDepth 100000 in
open aggregations in
/-- C15 (witness and failing input): the sample histogram of five minutes with the
entries `errors` and `ok`. Without the request for optimization it is compiled
on the raw path: the request selects `countIf((status = '500'))`, `count()` and
`count()`, and the rows with the counts 3, 7, 10 and 0, 0, 0 give one bucket
with the doc count 10 and the named buckets `errors` with 3 and `ok` with 7.
With optimization requested the same histogram is compiled on the optimized
path: the request selects the single function `sum(count)` instead of three,
and Aggregate panics on the row with one count that the data source returns. -/
theorem C15_nested_filters_witness :
    sampleRawHistogram.filters = some sampleFilters ∧
    sampleRawHistogram.commonFilter = some (.rangeClause queries.sampleTimeRange) ∧
    ((queries.GetSimpleClausesList sampleRawHistogram.commonFilter).length = 1 &&
      sampleRawHistogram.optimizationRequired) = false ∧
    sampleColumnProvider.DataTable ≠ "" ∧
    ((sampleRawHistogram.createAggFuncs GoLib.ascii).map clickhouse.AggregationFunc.String =
        sampleFilters.filters.map (entryFunction GoLib.ascii) ++ ["count()"] ∧
      (sampleFilters.filters.map (entryFunction GoLib.ascii) ++ ["count()"]).length =
        sampleFilters.filters.length + 1 ∧
      ∃ request : db.Request,
        sampleRawHistogram.createDataAggregatingRequest GoLib.ascii
            sampleColumnProvider.DataTable = .ok (request, sampleRawHistogram) ∧
        request.what =
          "[ " ++ strings.Join
              (sampleFilters.filters.map (entryFunction GoLib.ascii) ++ ["count()"]) "," ++
            " ] as results" ++
            (", " ++ ("toInt64((" ++ sampleRawHistogram.fieldName ++ ") / " ++
              toString sampleRawHistogram.interval ++ ") as cur_key")) ∧
        ∀ rows : List histogramCounts, sampleColumnProvider.selectRows request = .ok rows →
          (∀ row ∈ rows, row.Vals.length = sampleFilters.filters.length + 1) →
          sampleRawHistogram.Aggregate GoLib.ascii sampleColumnProvider =
              .ok (some (.mk sampleRawHistogram.name
                (.mk (some ((rows.filter (fun row => decide (row.lastCount > 0))).map
                  (histogramBucket sampleRawHistogram sampleFilters)))
                  (some .bucketsToArrayJSON)))) ∧
            ∀ row ∈ rows,
              (histogramBucket sampleRawHistogram sampleFilters row).DocCount = row.lastCount ∧
              (histogramBucket sampleRawHistogram sampleFilters row).subAggData =
                some (namedBuckets sampleFilters row.Vals) ∧
              (namedBuckets sampleFilters row.Vals).Buckets.Buckets.map
                  (fun bs => bs.map (fun b => (b.Key, b.DocCount))) =
                some ((sampleFilters.filters.map (fun entry => KeyValue.str entry.Name)).zip
                  row.Vals)) ∧
    (sampleRawHistogram.createDataAggregatingRequest GoLib.ascii "logs_gate").toOption.map
        (fun result => result.1.what) =
      some "[ countIf((status = '500')),count(),count() ] as results, toInt64((ts) / 300000000000) as cur_key" ∧
    (sampleRawHistogram.Aggregate GoLib.ascii sampleColumnProvider).toOption.map
        (Option.map (BucketAggregationData.String (fun _ => "t"))) =
      some (some "\"2\":\x7b\"buckets\":[\x7b\"3\":\x7b\"buckets\":\x7b\"errors\":\x7b \"doc_count\":3\x7d,\"ok\":\x7b \"doc_count\":7\x7d\x7d\x7d, \"doc_count\":10, \"key_as_string\":\"t\",\"key\":300000\x7d]\x7d") ∧
    sampleHistogram.filters = some sampleFilters ∧
    (sampleHistogram.createAggFuncs GoLib.ascii).length = 3 ∧
    (sampleHistogram.createDataAggregatingRequest GoLib.ascii "logs_gate").toOption.map
        (fun result => result.1.what) =
      some "[ sum(count) ] as results, toInt64(key / 1) as cur_key" ∧
    failureOf (sampleHistogram.Aggregate GoLib.ascii sampleColumnProvider) =
      some (.panic "index out of range") :=
  ⟨rfl, rfl, by decide, by decide,
    C15_nested_filters GoLib.ascii sampleRawHistogram sampleFilters sampleColumnProvider
      (.rangeClause queries.sampleTimeRange) rfl rfl (by decide) (by decide),
    by decide, by decide, rfl, by decide, by decide, by decide⟩

open aggregations in
/-- C17 (amended): for every Filters aggregation and every data source,
Filters.Aggregate itself materializes nothing, returning neither a bucket tree
nor an error, and createBuckets builds the named buckets n1..nk in declared
order, each with doc count 0 and without nested data. The aggregation function
compiled for entry i is countIf of its condition (count() when the condition is
absent or renders empty). When the Filters aggregation is nested in a
DateHistogram that is compiled on the raw path and the data source returns
rows of k+1 counts, Aggregate of the histogram returns one bucket for every row
whose last count is positive, and the nested data of that bucket are exactly
the named buckets n1..nk in declared order, bucket i carrying count i of the
row. -/
theorem C17_Filters_Aggregate {F : Type} (go : GoLib F) (f : Filters F) (conn : DataProvider)
    (hs : DateHistogram F) (commonFilter : queries.Clause F)
    (hf : hs.filters = some f) (hcf : hs.commonFilter = some commonFilter)
    (hraw : ((queries.GetSimpleClausesList hs.commonFilter).length = 1 &&
      hs.optimizationRequired) = false)
    (hindex : conn.DataTable ≠ "") :
    f.Aggregate conn = .ok none ∧
    f.createBuckets.AggName = f.name ∧
    (∃ buckets : List Bucket,
      f.createBuckets.Buckets = .mk (some buckets) (some .bucketsToObjJSON) ∧
      buckets.length = f.filters.length ∧
      buckets.map Bucket.Key = f.filters.map (fun entry => KeyValue.str entry.Name) ∧
      (∀ b ∈ buckets, b.DocCount = 0 ∧ b.subAggData = none)) ∧
    (f.createAggFuncs go).map clickhouse.AggregationFunc.String =
      f.filters.map (entryFunction go) ∧
    ∃ request : db.Request,
      hs.createDataAggregatingRequest go conn.DataTable = .ok (request, hs) ∧
      ∀ rows : List histogramCounts, conn.selectRows request = .ok rows →
        (∀ row ∈ rows, row.Vals.length = f.filters.length + 1) →
        ∃ buckets : List Bucket,
          hs.Aggregate go conn =
            .ok (some (.mk hs.name (.mk (some buckets) (some .bucketsToArrayJSON)))) ∧
          buckets.map Bucket.subAggData =
            (rows.filter (fun row => decide (row.lastCount > 0))).map
              (fun row => some (namedBuckets f row.Vals)) ∧
          ∀ row ∈ rows,
            (namedBuckets f row.Vals).AggName = f.name ∧
            (namedBuckets f row.Vals).Buckets.Buckets.map
                (fun bs => bs.map (fun b => (b.Key, b.DocCount))) =
              some ((f.filters.map (fun entry => KeyValue.str entry.Name)).zip row.Vals) ∧
            ((f.filters.map (fun entry => KeyValue.str entry.Name)).zip row.Vals).length =
              f.filters.length := by
  obtain ⟨request, hreq, _⟩ :=
    createDataAggregatingRequest_raw go hs f conn.DataTable commonFilter hf hcf hraw
  have hfuncs := createAggFuncs_strings go hs f hf
  refine ⟨rfl, rfl, ⟨_, rfl, by simp, ?_, ?_⟩, ?_, request, hreq, ?_⟩
  · simp [Bucket.Key]
  · intro b hb
    simp only [List.mem_map] at hb
    obtain ⟨entry, _, rfl⟩ := hb
    exact ⟨rfl, rfl⟩
  · simp only [DateHistogram.createAggFuncs, hf, List.map_append, List.map_cons,
      List.map_nil] at hfuncs
    exact List.append_cancel_right hfuncs
  · intro rows hsel hrows
    refine ⟨_, Aggregate_nested go hs f conn request rows hf hindex hreq hsel hrows, ?_, ?_⟩
    · simp only [List.map_map]
      apply List.map_congr_left
      intro row _
      rfl
    · intro row hrow
      refine ⟨rfl, (namedBuckets_pairs f row.Vals).2, ?_⟩
      simp [hrows row hrow]

set_option maxRecDepth 100000 in
open aggregations in
/-- C17 (witness): the entries `errors` (match_phrase status = 500) and `ok`
(match_all) nested in the sample histogram on the raw path. The row with the
counts 3, 7, 10 gives the named buckets `errors` with doc count 3 and `ok` with
doc count 7. -/
theorem C17_Filters_Aggregate_witness :
    sampleRawHistogram.filters = some sampleFilters ∧
    sampleRawHistogram.commonFilter = some (.rangeClause queries.sampleTimeRange) ∧
    ((queries.GetSimpleClausesList sampleRawHistogram.commonFilter).length = 1 &&
      sampleRawHistogram.optimizationRequired) = false ∧
    sampleColumnProvider.DataTable ≠ "" ∧
    (sampleFilters.Aggregate sampleColumnProvider = .ok none ∧
      sampleFilters.createBuckets.AggName = sampleFilters.name ∧
      (∃ buckets : List Bucket,
        sampleFilters.createBuckets.Buckets = .mk (some buckets) (some .bucketsToObjJSON) ∧
        buckets.length = sampleFilters.filters.length ∧
        buckets.map Bucket.Key =
          sampleFilters.filters.map (fun entry => KeyValue.str entry.Name) ∧
        (∀ b ∈ buckets, b.DocCount = 0 ∧ b.subAggData = none)) ∧
      (sampleFilters.createAggFuncs GoLib.ascii).map clickhouse.AggregationFunc.String =
        sampleFilters.filters.map (entryFunction GoLib.ascii) ∧
      ∃ request : db.Request,
        sampleRawHistogram.createDataAggregatingRequest GoLib.ascii
            sampleColumnProvider.DataTable = .ok (request, sampleRawHistogram) ∧
        ∀ rows : List histogramCounts, sampleColumnProvider.selectRows request = .ok rows →
          (∀ row ∈ rows, row.Vals.length = sampleFilters.filters.length + 1) →
          ∃ buckets : List Bucket,
            sampleRawHistogram.Aggregate GoLib.ascii sampleColumnProvider =
              .ok (some (.mk sampleRawHistogram.name
                (.mk (some buckets) (some .bucketsToArrayJSON)))) ∧
            buckets.map Bucket.subAggData =
              (rows.filter (fun row => decide (row.lastCount > 0))).map
                (fun row => some (namedBuckets sampleFilters row.Vals)) ∧
            ∀ row ∈ rows,
              (namedBuckets sampleFilters row.Vals).AggName = sampleFilters.name ∧
              (namedBuckets sampleFilters row.Vals).Buckets.Buckets.map
                  (fun bs => bs.map (fun b => (b.Key, b.DocCount))) =
                some ((sampleFilters.filters.map (fun entry => KeyValue.str entry.Name)).zip
                  row.Vals) ∧
              ((sampleFilters.filters.map (fun entry => KeyValue.str entry.Name)).zip
                row.Vals).length = sampleFilters.filters.length) ∧
    sampleFilters.filters.map (entryFunction GoLib.ascii) =
      ["countIf((status = '500'))", "count()"] ∧
    (sampleRawHistogram.Aggregate GoLib.ascii sampleColumnProvider).toOption.map
        (Option.map (fun tree =>
          (tree.Buckets.Buckets.getD []).map (fun b =>
            (b.subAggData.map (fun nested =>
              (nested.Buckets.Buckets.getD []).map (fun n => (n.Key, n.DocCount))))))) =
      some (some [some [(KeyValue.str "errors", 3), (KeyValue.str "ok", 7)]]) ∧
    (namedBuckets sampleFilters [3, 7, 10]).String (fun _ => "t") =
      "\"3\":\x7b\"buckets\":\x7b\"errors\":\x7b \"doc_count\":3\x7d,\"ok\":\x7b \"doc_count\":7\x7d\x7d\x7d" :=
  ⟨rfl, rfl, by decide, by decide,
    C17_Filters_Aggregate GoLib.ascii sampleFilters sampleColumnProvider sampleRawHistogram
      (.rangeClause queries.sampleTimeRange) rfl rfl (by decide) (by decide),
    by decide, by decide, by decide⟩

end Kibouse
